import Mathlib

/-!
Verification development for the s-Angle animation engine
(`src/services/engine.ts`, the 3-D variant of `VideoContext`,
`resolveHierarchy` and `renderSceneAtTime`).

The TypeScript code computes with JavaScript numbers; the embedding uses
`ℝ`, which matches the specification's exact-arithmetic reading (it asks
for exact distances and exact round trips "within floating-point
tolerance").  JavaScript objects are modelled as Lean structures plus an
association list `extra` for dynamic keys outside the structural fields;
JavaScript `Map`s are association lists with the `Map.set`
replace-in-place-or-append semantics.  `Math.random`-based id generation
is modelled by a deterministic counter held in the builder state.
-/

noncomputable section
namespace SAngle
open scoped Classical

/-- 2-D vector, the `Vector2` interface of `types.ts`. -/
structure Vector2 where
  x : ℝ
  y : ℝ
deriving DecidableEq

/-- 3-D vector used by `applyMatrixToVector`. -/
structure Vector3 where
  x : ℝ
  y : ℝ
  z : ℝ

/-- A dynamically typed JavaScript value as it occurs in action payloads:
a number, a string, a `{x, y}` point, an array of points, or `undefined`.
Gradient color descriptors are opaque non-numeric values; representing
them by their source text as `.str` loses nothing the evaluator inspects
(it only branches on `typeof v === 'number'` and `Array.isArray`). -/
inductive Val where
  | num (r : ℝ)
  | str (s : String)
  | vec (v : Vector2)
  | pts (l : List Vector2)
  | undef
deriving DecidableEq

/-- Association-list lookup with JavaScript `Map.get` semantics. -/
def mapGet {α : Type} (m : List (String × α)) (k : String) : Option α :=
  (m.find? (fun p => p.1 == k)).map (·.2)

/-- Association-list write with JavaScript `Map.set` semantics: an
existing key is replaced in place, a new key is appended. -/
def mapSet {α : Type} (m : List (String × α)) (k : String) (v : α) :
    List (String × α) :=
  if (m.find? (fun p => p.1 == k)).isSome then
    m.map (fun p => if p.1 == k then (k, v) else p)
  else m ++ [(k, v)]

/-- Reading a property bag (`startProps[key]`): an absent key reads as
`undefined`. -/
def lookupVal (m : List (String × Val)) (k : String) : Val :=
  (mapGet m k).getD (.undef)

/-- The `VisualObject` record (3-D variant): shared attributes plus the
discriminator-specific payload.  Fields that are dynamically absent in
JavaScript are `Option`s; fields typed `ColorProp`/`string` that actions
overwrite wholesale are kept as `Val`.  Keys outside this structural set
live in `extra`. -/
structure VisualObject where
  id : String
  type : String
  x : ℝ
  y : ℝ
  z : ℝ
  rotation : ℝ
  rotationX : ℝ
  rotationY : ℝ
  scale : ℝ
  opacity : ℝ
  color : Val
  parentId : Option String
  anchor : Vector2
  backgroundColor : Val
  borderColor : Val
  borderWidth : ℝ
  borderRadius : ℝ
  shadowBlur : ℝ
  shadowColor : Val
  radius : Option ℝ
  width : Option ℝ
  height : Option ℝ
  text : Option String
  points : Option (List Vector2)
  extra : List (String × Val) := []

/-- Dynamic property read, `(obj as any)[key]`. -/
def getVal (o : VisualObject) (k : String) : Val :=
  if k = "x" then .num o.x
  else if k = "y" then .num o.y
  else if k = "z" then .num o.z
  else if k = "rotation" then .num o.rotation
  else if k = "rotationX" then .num o.rotationX
  else if k = "rotationY" then .num o.rotationY
  else if k = "scale" then .num o.scale
  else if k = "opacity" then .num o.opacity
  else if k = "borderWidth" then .num o.borderWidth
  else if k = "borderRadius" then .num o.borderRadius
  else if k = "shadowBlur" then .num o.shadowBlur
  else if k = "color" then o.color
  else if k = "backgroundColor" then o.backgroundColor
  else if k = "borderColor" then o.borderColor
  else if k = "shadowColor" then o.shadowColor
  else if k = "radius" then (o.radius.map Val.num).getD .undef
  else if k = "width" then (o.width.map Val.num).getD .undef
  else if k = "height" then (o.height.map Val.num).getD .undef
  else if k = "text" then (o.text.map Val.str).getD .undef
  else if k = "anchor" then .vec o.anchor
  else if k = "points" then (o.points.map Val.pts).getD .undef
  else if k = "parentId" then (o.parentId.map Val.str).getD .undef
  else if k = "id" then .str o.id
  else lookupVal o.extra k

/-- Dynamic property write, `(obj as any)[key] = v`.  A write whose value
does not fit the field's TypeScript type cannot be produced by the typed
builder surface and is left as the identity. -/
def setVal (o : VisualObject) (k : String) (v : Val) : VisualObject :=
  if k = "x" then match v with | .num r => { o with x := r } | _ => o
  else if k = "y" then match v with | .num r => { o with y := r } | _ => o
  else if k = "z" then match v with | .num r => { o with z := r } | _ => o
  else if k = "rotation" then
    match v with | .num r => { o with rotation := r } | _ => o
  else if k = "rotationX" then
    match v with | .num r => { o with rotationX := r } | _ => o
  else if k = "rotationY" then
    match v with | .num r => { o with rotationY := r } | _ => o
  else if k = "scale" then match v with | .num r => { o with scale := r } | _ => o
  else if k = "opacity" then
    match v with | .num r => { o with opacity := r } | _ => o
  else if k = "borderWidth" then
    match v with | .num r => { o with borderWidth := r } | _ => o
  else if k = "borderRadius" then
    match v with | .num r => { o with borderRadius := r } | _ => o
  else if k = "shadowBlur" then
    match v with | .num r => { o with shadowBlur := r } | _ => o
  else if k = "color" then { o with color := v }
  else if k = "backgroundColor" then { o with backgroundColor := v }
  else if k = "borderColor" then { o with borderColor := v }
  else if k = "shadowColor" then { o with shadowColor := v }
  else if k = "radius" then
    match v with
    | .num r => { o with radius := some r }
    | .undef => { o with radius := none }
    | _ => o
  else if k = "width" then
    match v with
    | .num r => { o with width := some r }
    | .undef => { o with width := none }
    | _ => o
  else if k = "height" then
    match v with
    | .num r => { o with height := some r }
    | .undef => { o with height := none }
    | _ => o
  else if k = "text" then
    match v with
    | .str s => { o with text := some s }
    | .undef => { o with text := none }
    | _ => o
  else if k = "anchor" then match v with | .vec a => { o with anchor := a } | _ => o
  else if k = "points" then
    match v with
    | .pts l => { o with points := some l }
    | .undef => { o with points := none }
    | _ => o
  else if k = "parentId" then
    match v with
    | .str s => { o with parentId := some s }
    | .undef => { o with parentId := none }
    | _ => o
  else if k = "id" then match v with | .str s => { o with id := s } | _ => o
  else { o with extra := mapSet o.extra k v }

-- ---------------------------------------------------------------------
-- Easing functions (the `Easings` registry)
-- ---------------------------------------------------------------------

namespace Easings

def linear (t : ℝ) : ℝ := t

def easeInQuad (t : ℝ) : ℝ := t * t

def easeOutQuad (t : ℝ) : ℝ := t * (2 - t)

def easeInOutQuad (t : ℝ) : ℝ :=
  if t < 0.5 then 2 * t * t else -1 + (4 - 2 * t) * t

def easeInCubic (t : ℝ) : ℝ := t * t * t

/-- `(--t) * t * t + 1`: the decrement happens before every read. -/
def easeOutCubic (t : ℝ) : ℝ := (t - 1) * (t - 1) * (t - 1) + 1

def easeInOutCubic (t : ℝ) : ℝ :=
  if t < 0.5 then 4 * t * t * t
  else (t - 1) * (2 * t - 2) * (2 * t - 2) + 1

def easeOutBounce (t : ℝ) : ℝ :=
  let n1 : ℝ := 7.5625
  let d1 : ℝ := 2.75
  if t < 1 / d1 then n1 * t * t
  else if t < 2 / d1 then n1 * (t - 1.5 / d1) * (t - 1.5 / d1) + 0.75
  else if t < 2.5 / d1 then n1 * (t - 2.25 / d1) * (t - 2.25 / d1) + 0.9375
  else n1 * (t - 2.625 / d1) * (t - 2.625 / d1) + 0.984375

def easeOutElastic (x : ℝ) : ℝ :=
  let c4 : ℝ := 2 * Real.pi / 3
  if x = 0 then 0
  else if x = 1 then 1
  else (2 : ℝ) ^ (-10 * x) * Real.sin ((x * 10 - 0.75) * c4) + 1

end Easings

/-- `Easings[name]`: the registry lookup; `none` for an unrecognized
name. -/
def lookupEasing (nm : String) : Option (ℝ → ℝ) :=
  if nm = "linear" then some Easings.linear
  else if nm = "easeInQuad" then some Easings.easeInQuad
  else if nm = "easeOutQuad" then some Easings.easeOutQuad
  else if nm = "easeInOutQuad" then some Easings.easeInOutQuad
  else if nm = "easeInCubic" then some Easings.easeInCubic
  else if nm = "easeOutCubic" then some Easings.easeOutCubic
  else if nm = "easeInOutCubic" then some Easings.easeInOutCubic
  else if nm = "easeOutBounce" then some Easings.easeOutBounce
  else if nm = "easeOutElastic" then some Easings.easeOutElastic
  else none

-- ---------------------------------------------------------------------
-- Actions and the timeline IR
-- ---------------------------------------------------------------------

/-- The per-kind action payload.  In the source both payloads are `any`
fields shaped by the builder; the shapes below are exactly the ones the
builder constructs and the evaluator's `switch` destructures. -/
inductive AKind where
  | create
  | move (startV endV : Vector2)
  | arc (centerX centerY radius startAngle angleDelta : ℝ)
  | rotate (startV endV : ℝ)
  | count (startV endV : ℝ)
  | typewriter (fullText : String)
  | wiggle (base strength : ℝ)
  | pulse (base target : ℝ)
  | shake (base strength : ℝ)
  | glow (startBlur : ℝ) (startColor : Val) (endBlur : ℝ) (endColor : Val)
  | update (startValue endValue : List (String × Val))

/-- An `Action` record.  Action ids are never read by the engine and are
not modelled. -/
structure Action where
  type : AKind
  objectId : Option String
  startTime : ℝ
  duration : ℝ
  easing : Option String := none

/-- `TimelineData`. -/
structure TimelineData where
  duration : ℝ
  actions : List Action
  objects : List (String × VisualObject)

-- ---------------------------------------------------------------------
-- The evaluator: renderSceneAtTime
-- ---------------------------------------------------------------------

/-- `Math.min(Math.max(r, 0), 1)`. -/
def clamp01 (r : ℝ) : ℝ := min (max r 0) 1

/-- The per-action progress `t`. -/
def progressAt (a : Action) (time : ℝ) : ℝ :=
  if a.duration = 0 then 1
  else clamp01 ((time - a.startTime) / a.duration)

/-- `easedT`: the named easing applied to `t`, with identity as the
fallback for a missing or unrecognized name (`action.easing &&
Easings[action.easing] ? Easings[action.easing](t) : t`). -/
def easedAt (e : Option String) (t : ℝ) : ℝ :=
  match e with
  | none => t
  | some nm =>
    match lookupEasing nm with
    | some f => f t
    | none => t

/-- JavaScript `Math.round`: round half toward positive infinity. -/
def jsRound (x : ℝ) : ℤ := ⌊x + 1 / 2⌋

/-- The non-numeric arm of the `UPDATE` key dispatch: discrete color
switch on raw progress, component-wise anchor and point-list
interpolation, immediate assignment otherwise. -/
def updateKeyGen (obj : VisualObject) (k : String) (s e : Val)
    (t easedT : ℝ) : VisualObject :=
  if k = "color" ∨ k = "borderColor" ∨ k = "backgroundColor" then
    setVal obj k (if 0.5 ≤ t then e else s)
  else if k = "anchor" then
    match s, e with
    | .vec sv, .vec ev =>
      { obj with anchor := ⟨sv.x + (ev.x - sv.x) * easedT,
                           sv.y + (ev.y - sv.y) * easedT⟩ }
    | _, _ => obj
  else if k = "points" then
    match s, e with
    | .pts sl, .pts el =>
      setVal obj k (.pts (sl.zipWith (fun a b =>
        (⟨a.x + (b.x - a.x) * easedT, a.y + (b.y - a.y) * easedT⟩ : Vector2))
        el))
    | _, e => setVal obj k e
  else setVal obj k e

/-- One step of the `UPDATE` case's `Object.keys(endProps).forEach`
body, for a single key: numeric pairs lerp with easing, everything else
goes through `updateKeyGen`. -/
def updateKey (obj : VisualObject) (k : String) (s e : Val) (t easedT : ℝ) :
    VisualObject :=
  match s, e with
  | .num sn, .num en => setVal obj k (.num (sn + (en - sn) * easedT))
  | s, e => updateKeyGen obj k s e t easedT

/-- The `UPDATE` case: fold the per-key rule over the end-value keys. -/
def applyUpdate (obj : VisualObject) (sProps eProps : List (String × Val))
    (t easedT : ℝ) : VisualObject :=
  eProps.foldl (fun o p => updateKey o p.1 (lookupVal sProps p.1) p.2 t easedT)
    obj

/-- The evaluator's per-action `switch` body, applied to the target
object with the already-computed `t` and `easedT`. -/
def applyKind (obj : VisualObject) (k : AKind) (t easedT : ℝ) : VisualObject :=
  match k with
  | .create => obj
  | .move s e =>
    { obj with x := s.x + (e.x - s.x) * easedT, y := s.y + (e.y - s.y) * easedT }
  | .arc cx cy r sa delta =>
    let currentAngle := sa + delta * easedT
    { obj with x := cx + r * Real.cos currentAngle,
               y := cy + r * Real.sin currentAngle }
  | .rotate s e => { obj with rotation := s + (e - s) * easedT }
  | .count s e =>
    { obj with text := some (toString (jsRound (s + (e - s) * easedT))) }
  | .typewriter full =>
    let charCount := ⌊(full.length : ℝ) * easedT⌋
    { obj with opacity := 1, text := some (full.take charCount.toNat) }
  | .wiggle base strength =>
    if t < 1 then
      { obj with rotation :=
          base + Real.sin (t * Real.pi * 10) * strength * (1 - t) }
    else { obj with rotation := base }
  | .pulse base target =>
    if t < 1 then
      { obj with scale := base + (target - base) * Real.sin (t * Real.pi) }
    else { obj with scale := base }
  | .shake base strength =>
    if t < 1 then
      { obj with x := base + Real.sin (t * Real.pi * 20) * strength * (1 - t) }
    else { obj with x := base }
  | .glow sb _sc eb ec =>
    let o := { obj with shadowBlur := sb + (eb - sb) * easedT }
    if 0 < t then { o with shadowColor := ec } else o
  | .update sProps eProps => applyUpdate obj sProps eProps t easedT

/-- Apply one action to the working object map at query time `time`:
skip actions with no target or an absent target, otherwise compute
`t`/`easedT` and dispatch. -/
def applyActionToMap (m : List (String × VisualObject)) (a : Action)
    (time : ℝ) : List (String × VisualObject) :=
  match a.objectId with
  | none => m
  | some oid =>
    match mapGet m oid with
    | none => m
    | some obj =>
      let t := progressAt a time
      let easedT := easedAt a.easing t
      mapSet m oid (applyKind obj a.type t easedT)

/-- Stable insertion keeping ties in encounter order (matches the stable
ascending `sort((a, b) => a.startTime - b.startTime)`). -/
def insertByStart (a : Action) : List Action → List Action
  | [] => [a]
  | b :: rest =>
    if a.startTime < b.startTime then a :: b :: rest
    else b :: insertByStart a rest

/-- The evaluator's stable sort of the active actions by start time. -/
def sortByStart (l : List Action) : List Action :=
  l.foldl (fun acc a => insertByStart a acc) []

/-- The actions whose start time has elapsed at `time`. -/
def activeActions (tl : TimelineData) (time : ℝ) : List Action :=
  tl.actions.filter (fun a => a.startTime ≤ time)

/-- The action-application pass of `renderSceneAtTime`: deep-copy the
initial object map (the identity in a pure model), then apply the sorted
active actions in order. -/
def renderMap (tl : TimelineData) (time : ℝ) : List (String × VisualObject) :=
  (sortByStart (activeActions tl time)).foldl
    (fun m a => applyActionToMap m a time) tl.objects

-- ---------------------------------------------------------------------
-- Matrix helpers and the hierarchy resolver
-- ---------------------------------------------------------------------

/-- A 3x3 matrix in row-major order, the `number[]` of the source with
`m i j = matrix[(i-1)*3 + (j-1)]`. -/
structure Mat3 where
  m11 : ℝ
  m12 : ℝ
  m13 : ℝ
  m21 : ℝ
  m22 : ℝ
  m23 : ℝ
  m31 : ℝ
  m32 : ℝ
  m33 : ℝ

/-- `multiplyMatrices`. -/
def multiplyMatrices (a b : Mat3) : Mat3 :=
  ⟨a.m11 * b.m11 + a.m12 * b.m21 + a.m13 * b.m31,
   a.m11 * b.m12 + a.m12 * b.m22 + a.m13 * b.m32,
   a.m11 * b.m13 + a.m12 * b.m23 + a.m13 * b.m33,
   a.m21 * b.m11 + a.m22 * b.m21 + a.m23 * b.m31,
   a.m21 * b.m12 + a.m22 * b.m22 + a.m23 * b.m32,
   a.m21 * b.m13 + a.m22 * b.m23 + a.m23 * b.m33,
   a.m31 * b.m11 + a.m32 * b.m21 + a.m33 * b.m31,
   a.m31 * b.m12 + a.m32 * b.m22 + a.m33 * b.m32,
   a.m31 * b.m13 + a.m32 * b.m23 + a.m33 * b.m33⟩

/-- `createRotationMatrix`: `Rz * Ry * Rx` built from the three Euler
angles, computed as in the source (`M1 = Ry * Rx`, result `Rz * M1`). -/
def createRotationMatrix (rx ry rz : ℝ) : Mat3 :=
  let cx := Real.cos rx
  let sx := Real.sin rx
  let cy := Real.cos ry
  let sy := Real.sin ry
  let cz := Real.cos rz
  let sz := Real.sin rz
  let rMx : Mat3 := ⟨1, 0, 0, 0, cx, -sx, 0, sx, cx⟩
  let rMy : Mat3 := ⟨cy, 0, sy, 0, 1, 0, -sy, 0, cy⟩
  let rMz : Mat3 := ⟨cz, -sz, 0, sz, cz, 0, 0, 0, 1⟩
  multiplyMatrices rMz (multiplyMatrices rMy rMx)

/-- JavaScript `Math.atan2(y, x)`. -/
def atan2 (y x : ℝ) : ℝ :=
  if 0 < x then Real.arctan (y / x)
  else if x < 0 then
    if 0 ≤ y then Real.arctan (y / x) + Real.pi
    else Real.arctan (y / x) - Real.pi
  else if 0 < y then Real.pi / 2
  else if y < 0 then -(Real.pi / 2)
  else 0

/-- `extractEuler`: decompose a `Rz * Ry * Rx` product back into an
Euler triple, with the gimbal-lock fallback when `|m31|` is close to 1. -/
def extractEuler (m : Mat3) : ℝ × ℝ × ℝ :=
  let y := -Real.arcsin (max (-1) (min 1 m.m31))
  if |m.m31| < 0.99999 then
    (atan2 m.m32 m.m33, y, atan2 m.m21 m.m11)
  else
    (0, y, atan2 (-m.m12) m.m22)

/-- `applyMatrixToVector`. -/
def applyMatrixToVector (m : Mat3) (v : Vector3) : Vector3 :=
  ⟨m.m11 * v.x + m.m12 * v.y + m.m13 * v.z,
   m.m21 * v.x + m.m22 * v.y + m.m23 * v.z,
   m.m31 * v.x + m.m32 * v.y + m.m33 * v.z⟩

/-- The accumulated parent transform passed down `resolveNode`. -/
structure PTransform where
  x : ℝ
  y : ℝ
  z : ℝ
  scale : ℝ
  rotation : ℝ
  rotationX : ℝ
  rotationY : ℝ
  opacity : ℝ

/-- The parent-transform step of `resolveNode`: position is scaled,
rotated by the parent matrix and translated; scales and opacities
multiply; rotation composes through matrix multiplication and Euler
re-extraction. -/
def transformChild (obj : VisualObject) (pt : PTransform) : VisualObject :=
  let s := pt.scale
  let parentMatrix := createRotationMatrix pt.rotationX pt.rotationY pt.rotation
  let rotatedPos :=
    applyMatrixToVector parentMatrix ⟨obj.x * s, obj.y * s, obj.z * s⟩
  let childMatrix := createRotationMatrix obj.rotationX obj.rotationY obj.rotation
  let composedMatrix := multiplyMatrices parentMatrix childMatrix
  let newEuler := extractEuler composedMatrix
  { obj with
    x := pt.x + rotatedPos.x
    y := pt.y + rotatedPos.y
    z := pt.z + rotatedPos.z
    scale := obj.scale * s
    opacity := obj.opacity * pt.opacity
    rotationX := newEuler.1
    rotationY := newEuler.2.1
    rotation := newEuler.2.2 }

/-- The transform a resolved node passes to its children. -/
def ptOf (w : VisualObject) : PTransform :=
  ⟨w.x, w.y, w.z, w.scale, w.rotation, w.rotationX, w.rotationY, w.opacity⟩

/-- `childrenMap.get(id)`: the ids whose object names `id` as parent, in
map iteration order. -/
def childrenOf (objects : List (String × VisualObject)) (p : String) :
    List String :=
  (objects.filter (fun q => q.2.parentId = some p)).map (·.1)

/-- The root ids (no parent reference), in map iteration order. -/
def rootsOf (objects : List (String × VisualObject)) : List String :=
  (objects.filter (fun q => q.2.parentId = none)).map (·.1)

/-- `resolveNode`: depth-first visit accumulating resolved world objects.
The source recursion has no fuel; on the rooted object maps the engine
produces, the recursion depth is bounded by the number of objects, so
running with fuel `objects.length` coincides with the source. -/
def resolveNode (objects : List (String × VisualObject)) :
    ℕ → String → Option PTransform → List (String × VisualObject) →
    List (String × VisualObject)
  | 0, _, _, acc => acc
  | fuel + 1, i, pt, acc =>
    match mapGet objects i with
    | none => acc
    | some obj =>
      let worldObj := match pt with
        | none => obj
        | some ptv => transformChild obj ptv
      let acc1 := mapSet acc i worldObj
      (childrenOf objects i).foldl
        (fun ac c => resolveNode objects fuel c (some (ptOf worldObj)) ac) acc1

/-- The resolved map built by `resolveHierarchy` before its values are
extracted. -/
def resolvedMap (objects : List (String × VisualObject)) :
    List (String × VisualObject) :=
  (rootsOf objects).foldl
    (fun ac r => resolveNode objects objects.length r none ac) []

/-- `resolveHierarchy`: resolve every root's tree and return the values
of the resolved map. -/
def resolveHierarchy (objects : List (String × VisualObject)) :
    List VisualObject :=
  (resolvedMap objects).map (·.2)

/-- `renderSceneAtTime`. -/
def renderSceneAtTime (tl : TimelineData) (time : ℝ) : List VisualObject :=
  resolveHierarchy (renderMap tl time)

-- ---------------------------------------------------------------------
-- The builder: VideoContext
-- ---------------------------------------------------------------------

/-- A verb target: a raw id string or an `{ id }` wrapper. -/
inductive TargetId where
  | plain (id : String)
  | wrapped (id : String)

/-- `resolveId`. -/
def resolveId : TargetId → String
  | .plain i => i
  | .wrapped i => i

/-- The builder state.  `Math.random`-based `generateId` is modelled by
the deterministic counter `nextId`; only freshness matters to the
engine. -/
structure VideoContext where
  currentTime : ℝ := 0
  actions : List Action := []
  initialObjects : List (String × VisualObject) := []
  currentObjectStates : List (String × VisualObject) := []
  nextId : ℕ := 0

/-- The modelled id supply.  The source draws ids from `Math.random`;
only freshness matters to the engine, so the supply is a deterministic
counter, rendered with a unary suffix so that the name computes by
structural recursion. -/
def generateId : ℕ → String
  | 0 => "obj0"
  | n + 1 => generateId n ++ "x"

/-- The error text of `throw new Error(...)` for an unknown target. -/
def notFoundMsg (id : String) : String := "Object " ++ id ++ " not found"

/-- The optional fields of `BaseProps`. -/
structure BaseProps where
  x : ℝ
  y : ℝ
  z : Option ℝ := none
  color : Option Val := none
  opacity : Option ℝ := none
  anchor : Option Vector2 := none
  backgroundColor : Option Val := none
  borderColor : Option Val := none
  borderWidth : Option ℝ := none
  borderRadius : Option ℝ := none

/-- `createBaseObject`, with the fresh id supplied by the caller. -/
def createBaseObject (idv : String) (type : String) (props : BaseProps) :
    VisualObject where
  id := idv
  type := type
  x := props.x
  y := props.y
  z := props.z.getD 0
  rotation := 0
  rotationX := 0
  rotationY := 0
  scale := 1
  opacity := props.opacity.getD 1
  color := props.color.getD (.str "#ffffff")
  parentId := none
  anchor := props.anchor.getD ⟨0.5, 0.5⟩
  backgroundColor := (props.backgroundColor.map id).getD .undef
  borderColor := (props.borderColor.map id).getD .undef
  borderWidth := props.borderWidth.getD 0
  borderRadius := props.borderRadius.getD 0
  shadowBlur := 0
  shadowColor := .str "transparent"
  radius := none
  width := none
  height := none
  text := none
  points := none

namespace VideoContext

/-- `registerObject`: record the object in both state maps and append the
implicit zero-duration `CREATE` action. -/
def registerObject (st : VideoContext) (obj : VisualObject) :
    String × VideoContext :=
  (obj.id,
   { st with
     initialObjects := mapSet st.initialObjects obj.id obj
     currentObjectStates := mapSet st.currentObjectStates obj.id obj
     actions := st.actions ++
       [{ type := .create, objectId := some obj.id,
          startTime := st.currentTime, duration := 0 }] })

/-- `addCircle`. -/
def addCircle (st : VideoContext) (props : BaseProps) (radius : ℝ) :
    String × VideoContext :=
  let obj := { createBaseObject (generateId st.nextId) "CIRCLE" props with
               radius := some radius }
  registerObject { st with nextId := st.nextId + 1 } obj

/-- `addRect`. -/
def addRect (st : VideoContext) (props : BaseProps) (width height : ℝ) :
    String × VideoContext :=
  let obj := { createBaseObject (generateId st.nextId) "RECT" props with
               width := some width, height := some height }
  registerObject { st with nextId := st.nextId + 1 } obj

/-- `addText` (the optional font styling fields are dynamic keys). -/
def addText (st : VideoContext) (props : BaseProps) (text : String)
    (fontSize : ℝ) : String × VideoContext :=
  let obj := { createBaseObject (generateId st.nextId) "TEXT" props with
               text := some text,
               extra := [("fontSize", Val.num fontSize)] }
  registerObject { st with nextId := st.nextId + 1 } obj

/-- `addGroup` (its extra `scale`/`rotation` props beyond `BaseProps`). -/
def addGroup (st : VideoContext) (props : BaseProps)
    (scale rotation : Option ℝ) : String × VideoContext :=
  let obj0 := createBaseObject (generateId st.nextId) "GROUP" props
  let obj := { obj0 with
    rotation := rotation.getD 0, scale := scale.getD 1,
    color := .str "transparent" }
  registerObject { st with nextId := st.nextId + 1 } obj

/-- `wait`. -/
def wait (st : VideoContext) (duration : ℝ) : VideoContext :=
  { st with currentTime := st.currentTime + duration }

/-- `getTimeline`. -/
def getTimeline (st : VideoContext) : TimelineData :=
  ⟨st.currentTime, st.actions, st.initialObjects⟩

/-- The generic `update` verb.  An unknown target id raises.  When an
anchor change is requested without explicit `x`/`y`, the compensating
position delta is derived from the object's extents, scale and rotation
and written into the end values. -/
def update (st : VideoContext) (target : TargetId)
    (props : List (String × Val)) (duration : ℝ) (easing : String) :
    Except String VideoContext :=
  let id := resolveId target
  match mapGet st.currentObjectStates id with
  | none => .error (notFoundMsg id)
  | some current =>
    let endValues :=
      if lookupVal props "anchor" ≠ .undef ∧ lookupVal props "x" = .undef ∧
          lookupVal props "y" = .undef then
        match lookupVal props "anchor" with
        | .vec newAnchor =>
          let oldAnchor := current.anchor
          let w := if current.type = "CIRCLE" then current.radius.getD 0 * 2
                   else current.width.getD 0
          let h := if current.type = "CIRCLE" then current.radius.getD 0 * 2
                   else current.height.getD 0
          let dx := (newAnchor.x - oldAnchor.x) * w
          let dy := (newAnchor.y - oldAnchor.y) * h
          let s := current.scale
          let rad := current.rotation
          let sx := dx * s
          let sy := dy * s
          let worldDx := sx * Real.cos rad - sy * Real.sin rad
          let worldDy := sx * Real.sin rad + sy * Real.cos rad
          mapSet (mapSet props "x" (.num (current.x + worldDx))) "y"
            (.num (current.y + worldDy))
        | _ => props
      else props
    let startValues := endValues.map (fun p => (p.1, getVal current p.1))
    let act : Action :=
      { type := .update startValues endValues, objectId := some id,
        startTime := st.currentTime, duration := duration,
        easing := some easing }
    let current1 := endValues.foldl (fun o p => setVal o p.1 p.2) current
    .ok { st with
          actions := st.actions ++ [act]
          currentObjectStates := mapSet st.currentObjectStates id current1
          currentTime := st.currentTime + duration }

/-- A `{x?, y?, z?}` position argument. -/
structure PosArg where
  x : Option ℝ := none
  y : Option ℝ := none
  z : Option ℝ := none

/-- The property bag a `PosArg` denotes, keys in `x`, `y`, `z` order. -/
def PosArg.toProps (pos : PosArg) : List (String × Val) :=
  (pos.x.map (fun v => ("x", Val.num v))).toList ++
  (pos.y.map (fun v => ("y", Val.num v))).toList ++
  (pos.z.map (fun v => ("z", Val.num v))).toList

/-- `moveTo`, sugar for `update`. -/
def moveTo (st : VideoContext) (target : TargetId) (pos : PosArg)
    (duration : ℝ) : Except String VideoContext :=
  update st target pos.toProps duration "easeInOutCubic"

/-- `moveBy`. -/
def moveBy (st : VideoContext) (target : TargetId) (delta : PosArg)
    (duration : ℝ) : Except String VideoContext :=
  let id := resolveId target
  match mapGet st.currentObjectStates id with
  | none => .error (notFoundMsg id)
  | some current =>
    let props :=
      (delta.x.map (fun v => ("x", Val.num (current.x + v)))).toList ++
      (delta.y.map (fun v => ("y", Val.num (current.y + v)))).toList ++
      (delta.z.map (fun v => ("z", Val.num (current.z + v)))).toList
    update st (.plain id) props duration "easeInOutCubic"

/-- `moveZ`. -/
def moveZ (st : VideoContext) (target : TargetId) (z duration : ℝ) :
    Except String VideoContext :=
  update st target [("z", .num z)] duration "easeInOutCubic"

/-- `arc`: snapshot pivot, radius and start angle from the current
cached position, record the angle delta, and advance the cache to the
end of the arc. -/
def arc (st : VideoContext) (target : TargetId) (center : Vector2)
    (angleDegrees duration : ℝ) : Except String VideoContext :=
  let id := resolveId target
  match mapGet st.currentObjectStates id with
  | none => .error (notFoundMsg id)
  | some current =>
    let dx := current.x - center.x
    let dy := current.y - center.y
    let radius := Real.sqrt (dx * dx + dy * dy)
    let startAngle := atan2 dy dx
    let angleRad := angleDegrees * (Real.pi / 180)
    let act : Action :=
      { type := .arc center.x center.y radius startAngle angleRad,
        objectId := some id, startTime := st.currentTime,
        duration := duration, easing := some "easeInOutCubic" }
    let endAngle := startAngle + angleRad
    let current1 := { current with
      x := center.x + radius * Real.cos endAngle,
      y := center.y + radius * Real.sin endAngle }
    .ok { st with
          actions := st.actions ++ [act]
          currentObjectStates := mapSet st.currentObjectStates id current1
          currentTime := st.currentTime + duration }

/-- `scale`. -/
def scaleTo (st : VideoContext) (target : TargetId) (factor duration : ℝ) :
    Except String VideoContext :=
  update st target [("scale", .num factor)] duration "easeInOutCubic"

/-- The rotation direction policy argument. -/
inductive RotDir where
  | CW
  | CCW
  | SHORT

/-- `rotate`: resolve the requested absolute angle against the current
rotation under the direction policy, appending whole turns as needed. -/
def rotate (st : VideoContext) (target : TargetId) (degrees duration : ℝ)
    (direction : RotDir) : Except String VideoContext :=
  let id := resolveId target
  match mapGet st.currentObjectStates id with
  | none => .error (notFoundMsg id)
  | some current =>
    let startVal := current.rotation
    let endVal0 := degrees * (Real.pi / 180)
    let pI2 := Real.pi * 2
    let endVal :=
      match direction with
      | .CW =>
        if endVal0 ≤ startVal then
          let diff := startVal - endVal0
          let rotations := ⌊diff / pI2⌋ + 1
          endVal0 + rotations * pI2
        else endVal0
      | .CCW =>
        if startVal ≤ endVal0 then
          let diff := endVal0 - startVal
          let rotations := ⌊diff / pI2⌋ + 1
          endVal0 - rotations * pI2
        else endVal0
      | .SHORT => endVal0
    let act : Action :=
      { type := .rotate startVal endVal, objectId := some id,
        startTime := st.currentTime, duration := duration,
        easing := some "easeInOutCubic" }
    .ok { st with
          actions := st.actions ++ [act]
          currentObjectStates := mapSet st.currentObjectStates id
            { current with rotation := endVal }
          currentTime := st.currentTime + duration }

/-- `rotateX`. -/
def rotateX (st : VideoContext) (target : TargetId) (degrees duration : ℝ) :
    Except String VideoContext :=
  update st target [("rotationX", .num (degrees * (Real.pi / 180)))] duration
    "easeInOutCubic"

/-- `rotateY`. -/
def rotateY (st : VideoContext) (target : TargetId) (degrees duration : ℝ) :
    Except String VideoContext :=
  update st target [("rotationY", .num (degrees * (Real.pi / 180)))] duration
    "easeInOutCubic"

/-- `rotateBy`. -/
def rotateBy (st : VideoContext) (target : TargetId) (degrees duration : ℝ) :
    Except String VideoContext :=
  let id := resolveId target
  match mapGet st.currentObjectStates id with
  | none => .error (notFoundMsg id)
  | some current =>
    let deltaRad := degrees * (Real.pi / 180)
    update st (.plain id) [("rotation", .num (current.rotation + deltaRad))]
      duration "easeInOutCubic"

/-- The `resize` argument: a bare number or a dimension record. -/
inductive ResizeVal where
  | scalar (v : ℝ)
  | dims (width height radius length thickness : Option ℝ)

/-- `resize`: translate the argument into update props according to the
target's shape discriminator. -/
def resize (st : VideoContext) (target : TargetId) (val : ResizeVal)
    (duration : ℝ) : Except String VideoContext :=
  let id := resolveId target
  match mapGet st.currentObjectStates id with
  | none => .error (notFoundMsg id)
  | some current =>
    let props :=
      match val with
      | .scalar v =>
        if current.type = "CIRCLE" ∨ current.type = "REGULAR_POLYGON" then
          [("radius", Val.num v)]
        else if current.type = "LINE" ∨ current.type = "ARROW" then
          [("width", Val.num v)]
        else if current.type = "IMAGE" then [("width", Val.num v)]
        else if current.type = "RECT" then [("width", Val.num v)]
        else []
      | .dims w h r len th =>
        let p0 : List (String × Val) := []
        let p1 := match w with | some v => mapSet p0 "width" (.num v) | none => p0
        let p2 := match h with | some v => mapSet p1 "height" (.num v) | none => p1
        let p3 := match r with | some v => mapSet p2 "radius" (.num v) | none => p2
        let p4 := match len with
          | some v => mapSet p3 "width" (.num v)
          | none => p3
        match th with | some v => mapSet p4 "height" (.num v) | none => p4
    update st (.plain id) props duration "easeInOutCubic"

/-- `changeColor`. -/
def changeColor (st : VideoContext) (target : TargetId) (color : String)
    (duration : ℝ) : Except String VideoContext :=
  update st target [("color", .str color)] duration "easeInOutCubic"

/-- `fadeOut`. -/
def fadeOut (st : VideoContext) (target : TargetId) (duration : ℝ) :
    Except String VideoContext :=
  update st target [("opacity", .num 0)] duration "easeInOutCubic"

/-- `fadeIn`. -/
def fadeIn (st : VideoContext) (target : TargetId) (duration : ℝ) :
    Except String VideoContext :=
  update st target [("opacity", .num 1)] duration "easeInOutCubic"

/-- JavaScript `parseFloat`, modelled on the fragment the builder
produces (decimal integer representations); no claim evaluates it
elsewhere. -/
def parseFloatM (s : String) : ℝ :=
  match s.toInt? with
  | some n => (n : ℝ)
  | none => 0

/-- JavaScript `String(x)` on a number, modelled exactly on integers;
the digit expansion of a non-integral real is not recoverable in the
embedding and no claim evaluates it. -/
def numToString (r : ℝ) : String :=
  if h : ∃ n : ℤ, (n : ℝ) = r then toString h.choose else "0"

/-- `count`. -/
def count (st : VideoContext) (target : TargetId) (endValue duration : ℝ) :
    Except String VideoContext :=
  let id := resolveId target
  match mapGet st.currentObjectStates id with
  | none => .error (notFoundMsg id)
  | some current =>
    let startVal :=
      parseFloatM (match current.text with
        | some s => if s = "" then "0" else s
        | none => "0")
    let act : Action :=
      { type := .count startVal endValue, objectId := some id,
        startTime := st.currentTime, duration := duration,
        easing := some "linear" }
    .ok { st with
          actions := st.actions ++ [act]
          currentObjectStates := mapSet st.currentObjectStates id
            { current with text := some (numToString endValue) }
          currentTime := st.currentTime + duration }

/-- `typeWriter`. -/
def typeWriter (st : VideoContext) (target : TargetId) (duration : ℝ) :
    Except String VideoContext :=
  let id := resolveId target
  match mapGet st.currentObjectStates id with
  | none => .error (notFoundMsg id)
  | some current =>
    let fullText := current.text.getD ""
    let act : Action :=
      { type := .typewriter fullText, objectId := some id,
        startTime := st.currentTime, duration := duration,
        easing := some "linear" }
    .ok { st with
          actions := st.actions ++ [act]
          currentObjectStates := mapSet st.currentObjectStates id
            { current with opacity := 1 }
          currentTime := st.currentTime + duration }

/-- `wiggle` (default strength 10). -/
def wiggle (st : VideoContext) (target : TargetId) (duration strength : ℝ) :
    Except String VideoContext :=
  let id := resolveId target
  match mapGet st.currentObjectStates id with
  | none => .error (notFoundMsg id)
  | some current =>
    let act : Action :=
      { type := .wiggle current.rotation (strength * (Real.pi / 180)),
        objectId := some id, startTime := st.currentTime,
        duration := duration, easing := some "linear" }
    .ok { st with
          actions := st.actions ++ [act]
          currentTime := st.currentTime + duration }

/-- `pulse` (default scale factor 1.2). -/
def pulse (st : VideoContext) (target : TargetId)
    (duration scaleFactor : ℝ) : Except String VideoContext :=
  let id := resolveId target
  match mapGet st.currentObjectStates id with
  | none => .error (notFoundMsg id)
  | some current =>
    let act : Action :=
      { type := .pulse current.scale scaleFactor, objectId := some id,
        startTime := st.currentTime, duration := duration,
        easing := some "linear" }
    .ok { st with
          actions := st.actions ++ [act]
          currentTime := st.currentTime + duration }

/-- `shake` (default strength 10). -/
def shake (st : VideoContext) (target : TargetId) (duration strength : ℝ) :
    Except String VideoContext :=
  let id := resolveId target
  match mapGet st.currentObjectStates id with
  | none => .error (notFoundMsg id)
  | some current =>
    let act : Action :=
      { type := .shake current.x strength, objectId := some id,
        startTime := st.currentTime, duration := duration,
        easing := some "linear" }
    .ok { st with
          actions := st.actions ++ [act]
          currentTime := st.currentTime + duration }

/-- The options record of `glow`. -/
structure GlowOptions where
  color : Option Val := none
  strength : Option ℝ := none

/-- `glow`. -/
def glow (st : VideoContext) (target : TargetId) (options : GlowOptions)
    (duration : ℝ) : Except String VideoContext :=
  let id := resolveId target
  match mapGet st.currentObjectStates id with
  | none => .error (notFoundMsg id)
  | some current =>
    let targetColor := options.color.getD current.shadowColor
    let targetBlur := options.strength.getD 20
    let act : Action :=
      { type := .glow current.shadowBlur current.shadowColor targetBlur
          targetColor,
        objectId := some id, startTime := st.currentTime,
        duration := duration, easing := some "easeInOutCubic" }
    .ok { st with
          actions := st.actions ++ [act]
          currentObjectStates := mapSet st.currentObjectStates id
            { current with
              shadowBlur := targetBlur, shadowColor := targetColor }
          currentTime := st.currentTime + duration }

end VideoContext

/-- The task loop of `playTogether`: run each task with the clock reset
to the pre-call value, tracking the maximum clock advance. -/
def playTogetherGo (startTime : ℝ) :
    List (VideoContext → Except String VideoContext) → VideoContext → ℝ →
    Except String (VideoContext × ℝ)
  | [], st, maxDuration => .ok (st, maxDuration)
  | task :: rest, st, maxDuration =>
    match task { st with currentTime := startTime } with
    | .error e => .error e
    | .ok st1 =>
      let taskDuration := st1.currentTime - startTime
      playTogetherGo startTime rest st1
        (if maxDuration < taskDuration then taskDuration else maxDuration)

namespace VideoContext

/-- `playTogether`. -/
def playTogether (st : VideoContext)
    (tasks : List (VideoContext → Except String VideoContext)) :
    Except String VideoContext :=
  let startTime := st.currentTime
  match playTogetherGo startTime tasks st 0 with
  | .error e => .error e
  | .ok (st1, maxDuration) =>
    .ok { st1 with currentTime := startTime + maxDuration }

/-- `Partial<BaseProps>`, the optional props of `group`. -/
structure PartialBaseProps where
  x : Option ℝ := none
  y : Option ℝ := none
  z : Option ℝ := none
  color : Option Val := none
  opacity : Option ℝ := none
  anchor : Option Vector2 := none
  backgroundColor : Option Val := none
  borderColor : Option Val := none
  borderWidth : Option ℝ := none
  borderRadius : Option ℝ := none

/-- `group`: centroid of the named objects' stored positions, a fresh
group object there, and each member rewritten relative to the centroid
with its parent set to the group.  An empty member list yields the
sentinel empty id and no state change. -/
def group (st : VideoContext) (objectIds : List String)
    (props : Option PartialBaseProps) : String × VideoContext :=
  let objects := objectIds.filterMap (fun i => mapGet st.initialObjects i)
  if objects.length = 0 then ("", st)
  else
    let sumX := objects.foldl (fun s o => s + o.x) (0 : ℝ)
    let sumY := objects.foldl (fun s o => s + o.y) (0 : ℝ)
    let sumZ := objects.foldl (fun s o => s + o.z) (0 : ℝ)
    let centerX := sumX / objects.length
    let centerY := sumY / objects.length
    let centerZ := sumZ / objects.length
    let p := props.getD {}
    let merged : BaseProps :=
      { x := p.x.getD centerX
        y := p.y.getD centerY
        z := some (p.z.getD centerZ)
        color := p.color
        opacity := p.opacity
        anchor := p.anchor
        backgroundColor := p.backgroundColor
        borderColor := p.borderColor
        borderWidth := p.borderWidth
        borderRadius := p.borderRadius }
    let (groupId, st1) := addGroup st merged none none
    let st2 := objects.foldl (fun s initialObj =>
      let s1 :=
        match mapGet s.initialObjects initialObj.id with
        | none => s
        | some cur =>
          let shifted := { cur with
            parentId := some groupId, x := cur.x - centerX,
            y := cur.y - centerY, z := cur.z - centerZ }
          { s with initialObjects :=
              mapSet s.initialObjects initialObj.id shifted }
      match mapGet s1.currentObjectStates initialObj.id with
      | none => s1
      | some curC =>
        let shiftedC := { curC with
          parentId := some groupId, x := curC.x - centerX,
          y := curC.y - centerY, z := curC.z - centerZ }
        { s1 with currentObjectStates :=
            mapSet s1.currentObjectStates initialObj.id shiftedC }) st1
    (groupId, st2)

/-- `ungroup`: translate every child of the group back by the group's
stored position and clear its parent reference; silently a no-op when
the id is absent or not a group. -/
def ungroup (st : VideoContext) (groupId : TargetId) : VideoContext :=
  let id := resolveId groupId
  match mapGet st.initialObjects id with
  | none => st
  | some groupInitial =>
    if groupInitial.type = "GROUP" then
      st.initialObjects.foldl (fun s p =>
        if p.2.parentId = some id then
          let s1 :=
            match mapGet s.initialObjects p.1 with
            | none => s
            | some cur =>
              let shifted := { cur with
                x := cur.x + groupInitial.x,
                y := cur.y + groupInitial.y,
                z := cur.z + groupInitial.z, parentId := none }
              { s with initialObjects := mapSet s.initialObjects p.1 shifted }
          match mapGet s1.currentObjectStates p.2.id with
          | none => s1
          | some curC =>
            let shiftedC := { curC with
              x := curC.x + groupInitial.x,
              y := curC.y + groupInitial.y,
              z := curC.z + groupInitial.z, parentId := none }
            { s1 with currentObjectStates :=
                mapSet s1.currentObjectStates p.2.id shiftedC }
        else s) st
    else st

/-- The props record of `addScene`. -/
structure SceneProps where
  x : ℝ
  y : ℝ
  z : Option ℝ := none
  scale : Option ℝ := none
  opacity : Option ℝ := none
  anchor : Option Vector2 := none

/-- `addScene`: create a group, run the scene function in a fresh
builder, import its initial objects re-parented to the group and its
actions shifted by the current outer clock. -/
def addScene (st : VideoContext)
    (sceneFn : VideoContext → Except String VideoContext)
    (props : SceneProps) : Except String (String × VideoContext) :=
  let pr := addGroup st
    { x := props.x, y := props.y, z := props.z, opacity := props.opacity,
      anchor := props.anchor } props.scale none
  let groupId := pr.1
  let st1 := pr.2
  match sceneFn {} with
  | .error e => .error e
  | .ok sub =>
    let timeline := sub.getTimeline
    let st2 := timeline.objects.foldl (fun s p =>
      let importedObj := { p.2 with parentId := some groupId }
      { s with
        initialObjects := mapSet s.initialObjects importedObj.id importedObj
        currentObjectStates :=
          mapSet s.currentObjectStates importedObj.id importedObj }) st1
    let timeOffset := st2.currentTime
    let st3 := timeline.actions.foldl (fun s a =>
      { s with actions :=
          s.actions ++ [{ a with startTime := a.startTime + timeOffset }] }) st2
    .ok (groupId, st3)

end VideoContext

-- ---------------------------------------------------------------------
-- Auxiliary definitions used by the claim statements
-- ---------------------------------------------------------------------

/-- The key list of an association-list map. -/
def keys {α : Type} (m : List (String × α)) : List String := m.map (·.1)

/-- The dynamic property keys an action kind writes on its target. -/
def writesKeys : AKind → List String
  | .create => []
  | .move _ _ => ["x", "y"]
  | .arc _ _ _ _ _ => ["x", "y"]
  | .rotate _ _ => ["rotation"]
  | .count _ _ => ["text"]
  | .typewriter _ => ["opacity", "text"]
  | .wiggle _ _ => ["rotation"]
  | .pulse _ _ => ["scale"]
  | .shake _ _ => ["x"]
  | .glow _ _ _ _ => ["shadowBlur", "shadowColor"]
  | .update _ eProps => eProps.map (·.1)

/-- The fully-settled end state an action kind leaves on its target, as
the specification describes it: every affected property carries the end
value, except the procedural Wiggle/Pulse/Shake effects, which return to
the captured base, and Count, whose text shows the rounded end value. -/
def settledAt : AKind → VisualObject → Prop
  | .create, _ => True
  | .move _ e, w => w.x = e.x ∧ w.y = e.y
  | .arc cx cy r sa delta, w =>
    w.x = cx + r * Real.cos (sa + delta) ∧
    w.y = cy + r * Real.sin (sa + delta)
  | .rotate _ e, w => w.rotation = e
  | .count _ e, w => w.text = some (toString (jsRound e))
  | .typewriter full, w => w.opacity = 1 ∧ w.text = some full
  | .wiggle base _, w => w.rotation = base
  | .pulse base _, w => w.scale = base
  | .shake base _, w => w.x = base
  | .glow _ _ eb ec, w => w.shadowBlur = eb ∧ w.shadowColor = ec
  | .update _ eProps, w => ∀ p ∈ eProps, getVal w p.1 = p.2

/-- The structural field names of `VisualObject` handled by
`getVal`/`setVal`. -/
def structuralKeys : List String :=
  ["x", "y", "z", "rotation", "rotationX", "rotationY", "scale", "opacity",
   "borderWidth", "borderRadius", "shadowBlur", "color", "backgroundColor",
   "borderColor", "shadowColor", "radius", "width", "height", "text",
   "anchor", "points", "parentId", "id"]

/-- The always-present numeric field names. -/
def numericKeys : List String :=
  ["x", "y", "z", "rotation", "rotationX", "rotationY", "scale", "opacity",
   "borderWidth", "borderRadius", "shadowBlur"]

/-- The `ColorProp`/color-string valued field names (stored as `Val`). -/
def colorKeys : List String :=
  ["color", "backgroundColor", "borderColor", "shadowColor"]

/-- The optional field names whose values may also be `undefined`. -/
def optionalKeys : List String :=
  ["radius", "width", "height", "text", "parentId"]

/-- A key/value pair consistent with the TypeScript type of
`Partial<VisualObject>` at that key: the only payloads the typed builder
surface can produce. -/
def KeyTyped (k : String) (v : Val) : Prop :=
  (k ∈ numericKeys ∧ ∃ r, v = Val.num r) ∨
  (k ∈ ["radius", "width", "height"] ∧ ((∃ r, v = Val.num r) ∨ v = .undef)) ∨
  k ∈ colorKeys ∨
  (k = "anchor" ∧ ∃ a, v = Val.vec a) ∨
  (k = "points" ∧ ∃ l, v = Val.pts l) ∨
  ((k = "text" ∨ k = "parentId") ∧ ((∃ s, v = Val.str s) ∨ v = .undef)) ∨
  (k = "id" ∧ ∃ s, v = Val.str s) ∨
  k ∉ structuralKeys

/-- Well-typedness of an `UPDATE` payload pair: distinct keys (as in any
JavaScript object), typed values, a point-valued anchor start, and
matching point-list lengths (the specification's "matched start/end
lengths"). -/
def UpdatePayloadOK (sProps eProps : List (String × Val)) : Prop :=
  (keys eProps).Nodup ∧
  ∀ p ∈ eProps, KeyTyped p.1 p.2 ∧
    (p.1 = "anchor" → ∃ a, lookupVal sProps p.1 = Val.vec a) ∧
    (p.1 = "points" → ∀ el, p.2 = Val.pts el →
      ∀ sl, lookupVal sProps p.1 = Val.pts sl → sl.length = el.length)

/-- Per-kind payload discipline (trivial except for generic updates). -/
def ActionPayloadOK : AKind → Prop
  | .update sProps eProps => UpdatePayloadOK sProps eProps
  | _ => True

/-- An id whose parent chain resolves to a parentless root within the
object map (the specification's well-formed-hierarchy invariant). -/
inductive Rooted (m : List (String × VisualObject)) : String → Prop where
  | root (i : String) (o : VisualObject) :
      mapGet m i = some o → o.parentId = none → Rooted m i
  | child (i : String) (o : VisualObject) (p : String) :
      mapGet m i = some o → o.parentId = some p → Rooted m p → Rooted m i

/-- An explicit parent chain: successive parent links ending at a
parentless root. -/
def IsChain (m : List (String × VisualObject)) : List String → Prop
  | [] => False
  | [i] => ∃ o, mapGet m i = some o ∧ o.parentId = none
  | i :: p :: rest =>
    (∃ o, mapGet m i = some o ∧ o.parentId = some p) ∧ IsChain m (p :: rest)

/-- Depth-bounded descent through the children adjacency: `Desc m i x f`
says the resolver, started at `i` with fuel `f`, reaches `x`. -/
inductive Desc (m : List (String × VisualObject)) :
    String → String → ℕ → Prop where
  | self (i : String) (o : VisualObject) (f : ℕ) :
      mapGet m i = some o → Desc m i i (f + 1)
  | step (i : String) (o : VisualObject) (c x : String) (f : ℕ) :
      mapGet m i = some o → c ∈ childrenOf m i → Desc m c x f →
      Desc m i x (f + 1)

-- ---------------------------------------------------------------------
-- Concrete instances evaluated by witnesses and counterexamples
-- ---------------------------------------------------------------------

/-- A minimal concrete circle object with the given id at the origin. -/
def objW (idv : String) : VisualObject :=
  createBaseObject idv "CIRCLE" { x := 0, y := 0 }

/-- A quarter-turn arc action of radius 1 about the origin. -/
def actC1 : Action :=
  { type := .arc 0 0 1 0 Real.pi, objectId := some "a", startTime := 0,
    duration := 1, easing := some "easeInOutCubic" }

def tlC1 : TimelineData := ⟨1, [actC1], [("a", objW "a")]⟩

/-- A red-to-blue color update driven by `easeInQuad`. -/
def actC2 : Action :=
  { type := .update [("color", .str "red")] [("color", .str "blue")],
    objectId := some "a", startTime := 0, duration := 1,
    easing := some "easeInQuad" }

def tlC2 : TimelineData := ⟨1, [actC2], [("a", objW "a")]⟩

/-- A count-up to the non-integral end value `5 / 2`. -/
def actC3 : Action :=
  { type := .count 0 (5 / 2), objectId := some "a", startTime := 0,
    duration := 1, easing := some "linear" }

def tlC3 : TimelineData := ⟨1, [actC3], [("a", objW "a")]⟩

/-- A task that only advances the clock. -/
def waitTask (d : ℝ) : VideoContext → Except String VideoContext :=
  fun s => .ok (s.wait d)

/-- A task invoking the `moveTo` verb on the object `"obj0"`: it emits
one action stamped with the clock it was invoked at and advances the
clock by the verb's duration. -/
def moveTaskC4 (x d : ℝ) : VideoContext → Except String VideoContext :=
  fun s => VideoContext.moveTo s (.plain "obj0") { x := some x } d

/-- A builder holding exactly two parentless objects keyed `"a"` and
`"b"`, with arbitrary remaining state. -/
@[reducible] def stPairC5 (ct : ℝ) (ac : List Action) (ox0 oy0 : VisualObject) :
    VideoContext :=
  { currentTime := ct, actions := ac,
    initialObjects := [("a", { ox0 with id := "a", parentId := none }),
                       ("b", { oy0 with id := "b", parentId := none })],
    currentObjectStates := [], nextId := 0 }

/-- `group(["a", "b"])` immediately followed by `ungroup` of the
returned group id. -/
def roundTripC5 (ct : ℝ) (ac : List Action) (ox0 oy0 : VisualObject) :
    VideoContext :=
  VideoContext.ungroup
    (VideoContext.group (stPairC5 ct ac ox0 oy0) ["a", "b"] none).2
    (.plain (VideoContext.group (stPairC5 ct ac ox0 oy0) ["a", "b"] none).1)

/-- An action-free single-object timeline. -/
def tlC7 : TimelineData := ⟨0, [], [("a", objW "a")]⟩

/-- A zero-duration untargeted action. -/
def actC7 : Action :=
  { type := .create, objectId := none, startTime := 0, duration := 0 }

/-- Pure 90-degree parent rotations about Y and about X. -/
def ptY90 : PTransform := ⟨0, 0, 0, 1, 0, 0, Real.pi / 2, 1⟩

def ptX90 : PTransform := ⟨0, 0, 0, 1, 0, Real.pi / 2, 0, 1⟩

/-- Children carrying a pure 90-degree rotation about X resp. Y. -/
def objX90 : VisualObject := { objW "c" with rotationX := Real.pi / 2 }

def objY90 : VisualObject := { objW "c" with rotationY := Real.pi / 2 }

/-- The builder state after `addCircle` at the origin. -/
def stC9base : VideoContext :=
  (VideoContext.addCircle {} { x := 0, y := 0 } 1).2

/-- The builder state after an `update` rewrites the circle's parent
reference to a dangling id. -/
def stC9 : VideoContext :=
  match VideoContext.update stC9base (.plain "obj0")
      [("parentId", .str "ghost")] 0 "linear" with
  | .ok s => s
  | .error _ => {}

/-- The circle object the builder registers. -/
def objC9 : VisualObject :=
  { createBaseObject "obj0" "CIRCLE" { x := 0, y := 0 } with radius := some 1 }

def createActC9 : Action :=
  { type := .create, objectId := some "obj0", startTime := 0, duration := 0 }

def updActC9 : Action :=
  { type := .update [("parentId", .undef)] [("parentId", .str "ghost")],
    objectId := some "obj0", startTime := 0, duration := 0,
    easing := some "linear" }

/-- A sub-scene creating a circle and fading it out over 5 seconds. -/
def sceneFnC10 : VideoContext → Except String VideoContext :=
  fun s =>
    VideoContext.fadeOut (VideoContext.addCircle s { x := 0, y := 0 } 1).2
      (.plain "obj0") 5

def sceneResC10 : Except String (String × VideoContext) :=
  VideoContext.addScene {} sceneFnC10 { x := 0, y := 0 }

def stC10 : VideoContext :=
  match sceneResC10 with
  | .ok p => p.2
  | .error _ => {}

-- ---------------------------------------------------------------------
-- Association-list map lemmas
-- ---------------------------------------------------------------------

section MapLemmas

variable {α : Type}

theorem mapGet_nil (i : String) : mapGet ([] : List (String × α)) i = none :=
  rfl

theorem mapGet_cons (p : String × α) (m : List (String × α)) (i : String) :
    mapGet (p :: m) i = if p.1 = i then some p.2 else mapGet m i := by
  by_cases h : p.1 = i <;> simp [mapGet, List.find?_cons, h]

theorem mapGet_append (m1 m2 : List (String × α)) (i : String) :
    mapGet (m1 ++ m2) i =
      match mapGet m1 i with
      | some v => some v
      | none => mapGet m2 i := by
  induction m1 with
  | nil => simp [mapGet_nil]
  | cons p m ih =>
    rw [List.cons_append, mapGet_cons, mapGet_cons]
    by_cases h : p.1 = i <;> simp [h, ih]

theorem mem_keys_iff_isSome (m : List (String × α)) (i : String) :
    i ∈ keys m ↔ (mapGet m i).isSome := by
  induction m with
  | nil => simp [keys, mapGet_nil]
  | cons p m ih =>
    rw [mapGet_cons]
    by_cases h : p.1 = i
    · simp [keys, h]
    · simpa [keys, Ne.symm h, h] using ih

theorem mapGet_eq_none_of_not_mem (m : List (String × α)) (i : String)
    (h : i ∉ keys m) : mapGet m i = none := by
  have := (mem_keys_iff_isSome m i).not.mp h
  cases hg : mapGet m i with
  | none => rfl
  | some v => rw [hg] at this; simp at this

theorem find?_key_isSome_iff (m : List (String × α)) (k : String) :
    (m.find? (fun p => p.1 == k)).isSome = (mapGet m k).isSome := by
  simp [mapGet, Option.isSome_map]

theorem mapGet_map_replace (m : List (String × α)) (k : String) (v : α)
    (i : String) :
    mapGet (m.map (fun p => if p.1 == k then (k, v) else p)) i =
      if i = k then (mapGet m k).map (fun _ => v) else mapGet m i := by
  induction m with
  | nil => by_cases h : i = k <;> simp [mapGet_nil, h]
  | cons p m ih =>
    simp only [List.map_cons, beq_iff_eq] at ih ⊢
    by_cases hp : p.1 = k
    · by_cases hik : i = k
      · subst hik; simp [hp, mapGet_cons]
      · simp [hp, mapGet_cons, hik, Ne.symm hik, ih]
    · by_cases hik : i = k
      · subst hik; simp [hp, mapGet_cons, ih]
      · by_cases hpi : p.1 = i
        · simp [hp, mapGet_cons, hpi, hik]
        · simp [hp, mapGet_cons, hpi, hik, ih]

theorem mapGet_mapSet (m : List (String × α)) (k : String) (v : α)
    (i : String) :
    mapGet (mapSet m k v) i = if i = k then some v else mapGet m i := by
  unfold mapSet
  by_cases hk : (mapGet m k).isSome
  · rw [if_pos (by rw [find?_key_isSome_iff]; exact hk), mapGet_map_replace]
    by_cases hik : i = k
    · subst hik
      obtain ⟨w, hw⟩ := Option.isSome_iff_exists.mp hk
      simp [hw]
    · simp [hik]
  · have hnone : mapGet m k = none := by
      cases hg : mapGet m k with
      | none => rfl
      | some _ => rw [hg] at hk; simp at hk
    rw [if_neg (by rw [find?_key_isSome_iff]; exact hk), mapGet_append]
    by_cases hik : i = k
    · subst hik; simp [hnone, mapGet_cons]
    · cases hg : mapGet m i with
      | none => simp [hg, mapGet_cons, Ne.symm hik, mapGet_nil, hik]
      | some w => simp [hg, hik]

theorem keys_mapSet_of_isSome (m : List (String × α)) (k : String) (v : α)
    (h : (mapGet m k).isSome) : keys (mapSet m k v) = keys m := by
  unfold mapSet
  rw [if_pos (by rw [find?_key_isSome_iff]; exact h)]
  unfold keys
  rw [List.map_map]
  apply List.map_congr_left
  intro p _
  by_cases hp : p.1 = k <;> simp [hp]

theorem keys_mapSet_of_none (m : List (String × α)) (k : String) (v : α)
    (h : mapGet m k = none) : keys (mapSet m k v) = keys m ++ [k] := by
  unfold mapSet
  rw [if_neg (by rw [find?_key_isSome_iff, h]; simp)]
  simp [keys]

theorem nodup_keys_mapSet (m : List (String × α)) (k : String) (v : α)
    (h : (keys m).Nodup) : (keys (mapSet m k v)).Nodup := by
  by_cases hk : (mapGet m k).isSome
  · rw [keys_mapSet_of_isSome m k v hk]; exact h
  · have hnone : mapGet m k = none := by
      cases hg : mapGet m k with
      | none => rfl
      | some _ => rw [hg] at hk; simp at hk
    rw [keys_mapSet_of_none m k v hnone]
    have hkm : k ∉ keys m := by
      rw [mem_keys_iff_isSome, hnone]; simp
    simp [List.nodup_append, h, hkm]

theorem mem_mapSet (m : List (String × α)) (k : String) (v : α)
    (e : String × α) (he : e ∈ mapSet m k v) :
    e = (k, v) ∨ (e ∈ m ∧ e.1 ≠ k) := by
  unfold mapSet at he
  by_cases hk : (m.find? (fun p => p.1 == k)).isSome
  · rw [if_pos hk] at he
    obtain ⟨a, ha, hfa⟩ := List.mem_map.mp he
    by_cases hak : a.1 = k
    · left; rw [← hfa]; simp [hak]
    · right
      rw [← hfa]
      simp only [hak, beq_iff_eq, if_neg]
      exact ⟨ha, by simpa using hak⟩
  · rw [if_neg hk] at he
    rcases List.mem_append.mp he with h1 | h2
    · right
      refine ⟨h1, fun hek => hk ?_⟩
      exact List.find?_isSome.mpr ⟨e, h1, by simpa using hek⟩
    · left; simpa using h2

theorem mapGet_isSome_of_mem (m : List (String × α)) (e : String × α)
    (he : e ∈ m) : (mapGet m e.1).isSome := by
  rw [← mem_keys_iff_isSome]
  exact List.mem_map.mpr ⟨e, he, rfl⟩

/-- Under distinct keys, membership pins down the looked-up value. -/
theorem mapGet_of_mem_nodup (m : List (String × α)) (e : String × α)
    (hnd : (keys m).Nodup) (he : e ∈ m) : mapGet m e.1 = some e.2 := by
  induction m with
  | nil => cases he
  | cons p m ih =>
    rcases List.mem_cons.mp he with h1 | h2
    · subst h1; simp [mapGet_cons]
    · rw [mapGet_cons]
      have hnd2 : (keys m).Nodup := (List.nodup_cons.mp hnd).2
      have hp1 : p.1 ∉ keys m := by
        have := (List.nodup_cons.mp hnd).1
        simpa [keys] using this
      have hne : p.1 ≠ e.1 := by
        intro hcontra
        exact hp1 (hcontra ▸ List.mem_map.mpr ⟨e, h2, rfl⟩)
      rw [if_neg hne]
      exact ih hnd2 h2

theorem mem_of_mapGet_eq_some (m : List (String × α)) (i : String) (v : α)
    (h : mapGet m i = some v) : (i, v) ∈ m := by
  induction m with
  | nil => simp [mapGet_nil] at h
  | cons p m ih =>
    rw [mapGet_cons] at h
    by_cases hp : p.1 = i
    · rw [if_pos hp] at h
      have hpv : p = (i, v) := by
        obtain ⟨p1, p2⟩ := p
        simp only [Option.some.injEq] at h
        simp_all
      rw [hpv]
      exact List.mem_cons_self _ _
    · rw [if_neg hp] at h
      exact List.mem_cons_of_mem _ (ih h)

end MapLemmas

-- ---------------------------------------------------------------------
-- Easing, progress and sorting lemmas
-- ---------------------------------------------------------------------

/-- Every easing function of the registry maps progress 1 to exactly 1. -/
theorem easing_at_one (nm : String) (f : ℝ → ℝ)
    (h : lookupEasing nm = some f) : f 1 = 1 := by
  unfold lookupEasing at h
  split_ifs at h
  · cases h; norm_num [Easings.linear]
  · cases h; norm_num [Easings.easeInQuad]
  · cases h; norm_num [Easings.easeOutQuad]
  · cases h; norm_num [Easings.easeInOutQuad]
  · cases h; norm_num [Easings.easeInCubic]
  · cases h; norm_num [Easings.easeOutCubic]
  · cases h; norm_num [Easings.easeInOutCubic]
  · cases h; norm_num [Easings.easeOutBounce]
  · cases h; norm_num [Easings.easeOutElastic]

/-- Whatever the easing name (present, absent, or unrecognized), the
eased value at raw progress 1 is 1. -/
theorem easedAt_one (e : Option String) : easedAt e 1 = 1 := by
  cases e with
  | none => simp [easedAt]
  | some nm =>
    cases hl : lookupEasing nm with
    | none => simp [easedAt, hl]
    | some f =>
      simp only [easedAt, hl]
      exact easing_at_one nm f hl

theorem progressAt_eq_one (a : Action) (time : ℝ) (hd : 0 ≤ a.duration)
    (ht : a.startTime + a.duration ≤ time) : progressAt a time = 1 := by
  unfold progressAt
  by_cases h0 : a.duration = 0
  · simp [h0]
  · rw [if_neg h0]
    have hpos : 0 < a.duration := lt_of_le_of_ne hd (Ne.symm h0)
    have h1 : 1 ≤ (time - a.startTime) / a.duration := by
      rw [le_div_iff₀ hpos]; linarith
    unfold clamp01
    rw [max_eq_left (by linarith), min_eq_right h1]

theorem progressAt_mem (a : Action) (time : ℝ) :
    0 ≤ progressAt a time ∧ progressAt a time ≤ 1 := by
  unfold progressAt clamp01
  by_cases h0 : a.duration = 0
  · simp [h0]
  · rw [if_neg h0]
    exact ⟨le_min (le_max_right _ _) zero_le_one, min_le_right _ _⟩

theorem insertByStart_perm (a : Action) (l : List Action) :
    List.Perm (insertByStart a l) (a :: l) := by
  induction l with
  | nil => exact List.Perm.refl _
  | cons b rest ih =>
    unfold insertByStart
    by_cases h : a.startTime < b.startTime
    · rw [if_pos h]
    · rw [if_neg h]
      exact (ih.cons b).trans (List.Perm.swap a b rest)

theorem foldl_insertByStart_perm (l : List Action) (acc : List Action) :
    List.Perm (l.foldl (fun acc a => insertByStart a acc) acc) (acc ++ l) := by
  induction l generalizing acc with
  | nil => simp
  | cons a rest ih =>
    refine ((ih _).trans ?_)
    refine ((insertByStart_perm a acc).append_right rest).trans ?_
    exact List.perm_middle.symm

theorem sortByStart_perm (l : List Action) : List.Perm (sortByStart l) l := by
  simpa using foldl_insertByStart_perm l []

theorem mem_sortByStart (b : Action) (l : List Action) :
    b ∈ sortByStart l ↔ b ∈ l :=
  (sortByStart_perm l).mem_iff

-- ---------------------------------------------------------------------
-- Dynamic property frame lemmas
-- ---------------------------------------------------------------------

/-- Every key is one of the structural literals or falls through to the
dynamic `extra` bag. -/
theorem key_classify (q : String) :
    q = "x" ∨ q = "y" ∨ q = "z" ∨ q = "rotation" ∨ q = "rotationX" ∨
    q = "rotationY" ∨ q = "scale" ∨ q = "opacity" ∨ q = "borderWidth" ∨
    q = "borderRadius" ∨ q = "shadowBlur" ∨ q = "color" ∨
    q = "backgroundColor" ∨ q = "borderColor" ∨ q = "shadowColor" ∨
    q = "radius" ∨ q = "width" ∨ q = "height" ∨ q = "text" ∨ q = "anchor" ∨
    q = "points" ∨ q = "parentId" ∨ q = "id" ∨ q ∉ structuralKeys := by
  by_cases h : q ∈ structuralKeys
  · simp only [structuralKeys, List.mem_cons, List.not_mem_nil, or_false] at h
    rcases h with h | h | h | h | h | h | h | h | h | h | h | h | h | h | h |
      h | h | h | h | h | h | h | h <;> simp [h]
  · iterate 23 right
    exact h

/-- Reading a non-structural key goes through the `extra` bag. -/
theorem getVal_extra (o : VisualObject) (p : String)
    (hp : p ∉ structuralKeys) : getVal o p = lookupVal o.extra p := by
  have g1 : ¬(p = "x") := fun he => hp (by rw [he]; simp [structuralKeys])
  have g2 : ¬(p = "y") := fun he => hp (by rw [he]; simp [structuralKeys])
  have g3 : ¬(p = "z") := fun he => hp (by rw [he]; simp [structuralKeys])
  have g4 : ¬(p = "rotation") := fun he => hp (by rw [he]; simp [structuralKeys])
  have g5 : ¬(p = "rotationX") := fun he => hp (by rw [he]; simp [structuralKeys])
  have g6 : ¬(p = "rotationY") := fun he => hp (by rw [he]; simp [structuralKeys])
  have g7 : ¬(p = "scale") := fun he => hp (by rw [he]; simp [structuralKeys])
  have g8 : ¬(p = "opacity") := fun he => hp (by rw [he]; simp [structuralKeys])
  have g9 : ¬(p = "borderWidth") := fun he => hp (by rw [he]; simp [structuralKeys])
  have g10 : ¬(p = "borderRadius") := fun he => hp (by rw [he]; simp [structuralKeys])
  have g11 : ¬(p = "shadowBlur") := fun he => hp (by rw [he]; simp [structuralKeys])
  have g12 : ¬(p = "color") := fun he => hp (by rw [he]; simp [structuralKeys])
  have g13 : ¬(p = "backgroundColor") := fun he => hp (by rw [he]; simp [structuralKeys])
  have g14 : ¬(p = "borderColor") := fun he => hp (by rw [he]; simp [structuralKeys])
  have g15 : ¬(p = "shadowColor") := fun he => hp (by rw [he]; simp [structuralKeys])
  have g16 : ¬(p = "radius") := fun he => hp (by rw [he]; simp [structuralKeys])
  have g17 : ¬(p = "width") := fun he => hp (by rw [he]; simp [structuralKeys])
  have g18 : ¬(p = "height") := fun he => hp (by rw [he]; simp [structuralKeys])
  have g19 : ¬(p = "text") := fun he => hp (by rw [he]; simp [structuralKeys])
  have g20 : ¬(p = "anchor") := fun he => hp (by rw [he]; simp [structuralKeys])
  have g21 : ¬(p = "points") := fun he => hp (by rw [he]; simp [structuralKeys])
  have g22 : ¬(p = "parentId") := fun he => hp (by rw [he]; simp [structuralKeys])
  have g23 : ¬(p = "id") := fun he => hp (by rw [he]; simp [structuralKeys])
  unfold getVal
  rw [if_neg g1, if_neg g2, if_neg g3, if_neg g4, if_neg g5, if_neg g6,
    if_neg g7, if_neg g8, if_neg g9, if_neg g10, if_neg g11, if_neg g12,
    if_neg g13, if_neg g14, if_neg g15, if_neg g16, if_neg g17, if_neg g18,
    if_neg g19, if_neg g20, if_neg g21, if_neg g22, if_neg g23]

/-- Writing a non-structural key goes through the `extra` bag. -/
theorem setVal_extra (o : VisualObject) (q : String) (v : Val)
    (hq : q ∉ structuralKeys) :
    setVal o q v = { o with extra := mapSet o.extra q v } := by
  have g1 : ¬(q = "x") := fun he => hq (by rw [he]; simp [structuralKeys])
  have g2 : ¬(q = "y") := fun he => hq (by rw [he]; simp [structuralKeys])
  have g3 : ¬(q = "z") := fun he => hq (by rw [he]; simp [structuralKeys])
  have g4 : ¬(q = "rotation") := fun he => hq (by rw [he]; simp [structuralKeys])
  have g5 : ¬(q = "rotationX") := fun he => hq (by rw [he]; simp [structuralKeys])
  have g6 : ¬(q = "rotationY") := fun he => hq (by rw [he]; simp [structuralKeys])
  have g7 : ¬(q = "scale") := fun he => hq (by rw [he]; simp [structuralKeys])
  have g8 : ¬(q = "opacity") := fun he => hq (by rw [he]; simp [structuralKeys])
  have g9 : ¬(q = "borderWidth") := fun he => hq (by rw [he]; simp [structuralKeys])
  have g10 : ¬(q = "borderRadius") := fun he => hq (by rw [he]; simp [structuralKeys])
  have g11 : ¬(q = "shadowBlur") := fun he => hq (by rw [he]; simp [structuralKeys])
  have g12 : ¬(q = "color") := fun he => hq (by rw [he]; simp [structuralKeys])
  have g13 : ¬(q = "backgroundColor") := fun he => hq (by rw [he]; simp [structuralKeys])
  have g14 : ¬(q = "borderColor") := fun he => hq (by rw [he]; simp [structuralKeys])
  have g15 : ¬(q = "shadowColor") := fun he => hq (by rw [he]; simp [structuralKeys])
  have g16 : ¬(q = "radius") := fun he => hq (by rw [he]; simp [structuralKeys])
  have g17 : ¬(q = "width") := fun he => hq (by rw [he]; simp [structuralKeys])
  have g18 : ¬(q = "height") := fun he => hq (by rw [he]; simp [structuralKeys])
  have g19 : ¬(q = "text") := fun he => hq (by rw [he]; simp [structuralKeys])
  have g20 : ¬(q = "anchor") := fun he => hq (by rw [he]; simp [structuralKeys])
  have g21 : ¬(q = "points") := fun he => hq (by rw [he]; simp [structuralKeys])
  have g22 : ¬(q = "parentId") := fun he => hq (by rw [he]; simp [structuralKeys])
  have g23 : ¬(q = "id") := fun he => hq (by rw [he]; simp [structuralKeys])
  unfold setVal
  rw [if_neg g1, if_neg g2, if_neg g3, if_neg g4, if_neg g5, if_neg g6,
    if_neg g7, if_neg g8, if_neg g9, if_neg g10, if_neg g11, if_neg g12,
    if_neg g13, if_neg g14, if_neg g15, if_neg g16, if_neg g17, if_neg g18,
    if_neg g19, if_neg g20, if_neg g21, if_neg g22, if_neg g23]

/-- Which structural field a dynamic write touches: every field guarded
by a different key is untouched, and the `extra` bag is either untouched
or extended at exactly the written key. -/
theorem setVal_fields (o : VisualObject) (q : String) (v : Val) :
    (q ≠ "x" → (setVal o q v).x = o.x) ∧
    (q ≠ "y" → (setVal o q v).y = o.y) ∧
    (q ≠ "z" → (setVal o q v).z = o.z) ∧
    (q ≠ "rotation" → (setVal o q v).rotation = o.rotation) ∧
    (q ≠ "rotationX" → (setVal o q v).rotationX = o.rotationX) ∧
    (q ≠ "rotationY" → (setVal o q v).rotationY = o.rotationY) ∧
    (q ≠ "scale" → (setVal o q v).scale = o.scale) ∧
    (q ≠ "opacity" → (setVal o q v).opacity = o.opacity) ∧
    (q ≠ "borderWidth" → (setVal o q v).borderWidth = o.borderWidth) ∧
    (q ≠ "borderRadius" → (setVal o q v).borderRadius = o.borderRadius) ∧
    (q ≠ "shadowBlur" → (setVal o q v).shadowBlur = o.shadowBlur) ∧
    (q ≠ "color" → (setVal o q v).color = o.color) ∧
    (q ≠ "backgroundColor" →
      (setVal o q v).backgroundColor = o.backgroundColor) ∧
    (q ≠ "borderColor" → (setVal o q v).borderColor = o.borderColor) ∧
    (q ≠ "shadowColor" → (setVal o q v).shadowColor = o.shadowColor) ∧
    (q ≠ "radius" → (setVal o q v).radius = o.radius) ∧
    (q ≠ "width" → (setVal o q v).width = o.width) ∧
    (q ≠ "height" → (setVal o q v).height = o.height) ∧
    (q ≠ "text" → (setVal o q v).text = o.text) ∧
    (q ≠ "anchor" → (setVal o q v).anchor = o.anchor) ∧
    (q ≠ "points" → (setVal o q v).points = o.points) ∧
    (q ≠ "parentId" → (setVal o q v).parentId = o.parentId) ∧
    (q ≠ "id" → (setVal o q v).id = o.id) ∧
    ((setVal o q v).type = o.type) ∧
    ((setVal o q v).extra = o.extra ∨
      (setVal o q v).extra = mapSet o.extra q v) := by
  rcases key_classify q with rfl | rfl | rfl | rfl | rfl | rfl | rfl | rfl |
    rfl | rfl | rfl | rfl | rfl | rfl | rfl | rfl | rfl | rfl | rfl | rfl |
    rfl | rfl | rfl | hq
  · -- each literal key: the write reduces definitionally and every
    -- other projection is untouched
    cases v <;>
      refine ⟨?_, ?_, ?_, ?_, ?_, ?_, ?_, ?_, ?_, ?_, ?_, ?_, ?_, ?_, ?_,
        ?_, ?_, ?_, ?_, ?_, ?_, ?_, ?_, ?_, ?_⟩ <;>
      first
        | exact fun _ => rfl
        | exact fun hh => absurd rfl hh
        | exact Or.inl rfl
        | exact Or.inr rfl
        | rfl
  all_goals try (
    cases v <;>
      refine ⟨?_, ?_, ?_, ?_, ?_, ?_, ?_, ?_, ?_, ?_, ?_, ?_, ?_, ?_, ?_,
        ?_, ?_, ?_, ?_, ?_, ?_, ?_, ?_, ?_, ?_⟩ <;>
      first
        | exact fun _ => rfl
        | exact fun hh => absurd rfl hh
        | exact Or.inl rfl
        | exact Or.inr rfl
        | rfl)
  -- the remaining non-structural case
  rw [setVal_extra o q v hq]
  refine ⟨fun _ => rfl, fun _ => rfl, fun _ => rfl, fun _ => rfl,
    fun _ => rfl, fun _ => rfl, fun _ => rfl, fun _ => rfl, fun _ => rfl,
    fun _ => rfl, fun _ => rfl, fun _ => rfl, fun _ => rfl, fun _ => rfl,
    fun _ => rfl, fun _ => rfl, fun _ => rfl, fun _ => rfl, fun _ => rfl,
    fun _ => rfl, fun _ => rfl, fun _ => rfl, fun _ => rfl, rfl,
    Or.inr rfl⟩

/-- A dynamic write at one key leaves every other key's value alone. -/
theorem getVal_setVal_ne (obj : VisualObject) (q : String) (v : Val)
    (p : String) (h : p ≠ q) : getVal (setVal obj q v) p = getVal obj p := by
  have hf := setVal_fields obj q v
  obtain ⟨f1, f2, f3, f4, f5, f6, f7, f8, f9, f10, f11, f12, f13, f14, f15,
    f16, f17, f18, f19, f20, f21, f22, f23, _, fex⟩ := hf
  rcases key_classify p with rfl | rfl | rfl | rfl | rfl | rfl | rfl | rfl |
    rfl | rfl | rfl | rfl | rfl | rfl | rfl | rfl | rfl | rfl | rfl | rfl |
    rfl | rfl | rfl | hp
  · exact congrArg Val.num (f1 (fun he => h he.symm))
  · exact congrArg Val.num (f2 (fun he => h he.symm))
  · exact congrArg Val.num (f3 (fun he => h he.symm))
  · exact congrArg Val.num (f4 (fun he => h he.symm))
  · exact congrArg Val.num (f5 (fun he => h he.symm))
  · exact congrArg Val.num (f6 (fun he => h he.symm))
  · exact congrArg Val.num (f7 (fun he => h he.symm))
  · exact congrArg Val.num (f8 (fun he => h he.symm))
  · exact congrArg Val.num (f9 (fun he => h he.symm))
  · exact congrArg Val.num (f10 (fun he => h he.symm))
  · exact congrArg Val.num (f11 (fun he => h he.symm))
  · exact f12 (fun he => h he.symm)
  · exact f13 (fun he => h he.symm)
  · exact f14 (fun he => h he.symm)
  · exact f15 (fun he => h he.symm)
  · exact congrArg (fun t => (Option.map Val.num t).getD Val.undef)
      (f16 (fun he => h he.symm))
  · exact congrArg (fun t => (Option.map Val.num t).getD Val.undef)
      (f17 (fun he => h he.symm))
  · exact congrArg (fun t => (Option.map Val.num t).getD Val.undef)
      (f18 (fun he => h he.symm))
  · exact congrArg (fun t => (Option.map Val.str t).getD Val.undef)
      (f19 (fun he => h he.symm))
  · exact congrArg Val.vec (f20 (fun he => h he.symm))
  · exact congrArg (fun t => (Option.map Val.pts t).getD Val.undef)
      (f21 (fun he => h he.symm))
  · exact congrArg (fun t => (Option.map Val.str t).getD Val.undef)
      (f22 (fun he => h he.symm))
  · exact congrArg Val.str (f23 (fun he => h he.symm))
  · rw [getVal_extra _ p hp, getVal_extra _ p hp]
    rcases fex with he | he
    · rw [he]
    · rw [he]
      simp [lookupVal, mapGet_mapSet, h]

/-- A well-typed dynamic write at a key is read back exactly. -/
theorem getVal_setVal_typed (obj : VisualObject) (k : String) (v : Val)
    (h : KeyTyped k v) : getVal (setVal obj k v) k = v := by
  rcases h with ⟨hk, r, rfl⟩ | ⟨hk, hv⟩ | hk | ⟨hk, a, rfl⟩ | ⟨hk, l, rfl⟩ |
    ⟨hk, hv⟩ | ⟨hk, s, rfl⟩ | hk
  · -- always-present numeric keys
    simp only [numericKeys, List.mem_cons, List.not_mem_nil, or_false] at hk
    rcases hk with rfl | rfl | rfl | rfl | rfl | rfl | rfl | rfl | rfl | rfl |
      rfl <;> rfl
  · -- optional numeric keys
    simp only [List.mem_cons, List.not_mem_nil, or_false] at hk
    rcases hv with ⟨r, rfl⟩ | rfl <;> rcases hk with rfl | rfl | rfl <;> rfl
  · -- color-valued keys take any payload
    simp only [colorKeys, List.mem_cons, List.not_mem_nil, or_false] at hk
    rcases hk with rfl | rfl | rfl | rfl <;> rfl
  · subst hk; rfl
  · subst hk; rfl
  · rcases hv with ⟨s, rfl⟩ | rfl <;> rcases hk with rfl | rfl <;> rfl
  · subst hk; rfl
  · -- non-structural keys go through the `extra` bag
    rw [setVal_extra obj k v hk, getVal_extra _ k hk]
    simp [lookupVal, mapGet_mapSet]

/-- A numeric payload stays well typed at its key whatever the number. -/
theorem KeyTyped_num_any (k : String) (en x : ℝ)
    (h : KeyTyped k (.num en)) : KeyTyped k (.num x) := by
  unfold KeyTyped at h ⊢
  rcases h with ⟨hk, _⟩ | ⟨hk, _⟩ | hk | ⟨_, a, ha⟩ | ⟨_, l, hl⟩ |
    ⟨_, ⟨s, hs⟩ | hs⟩ | ⟨_, s, hs⟩ | hk
  · exact Or.inl ⟨hk, x, rfl⟩
  · exact Or.inr (Or.inl ⟨hk, Or.inl ⟨x, rfl⟩⟩)
  · exact Or.inr (Or.inr (Or.inl hk))
  · cases ha
  · cases hl
  · cases hs
  · cases hs
  · cases hs
  · iterate 7 right
    exact hk

-- Reading the structural fields (definitional bridges).

theorem getVal_key_x (o : VisualObject) : getVal o "x" = .num o.x := rfl

theorem getVal_key_y (o : VisualObject) : getVal o "y" = .num o.y := rfl

theorem getVal_key_rotation (o : VisualObject) :
    getVal o "rotation" = .num o.rotation := rfl

theorem getVal_key_scale (o : VisualObject) :
    getVal o "scale" = .num o.scale := rfl

theorem getVal_key_opacity (o : VisualObject) :
    getVal o "opacity" = .num o.opacity := rfl

theorem getVal_key_shadowBlur (o : VisualObject) :
    getVal o "shadowBlur" = .num o.shadowBlur := rfl

theorem getVal_key_shadowColor (o : VisualObject) :
    getVal o "shadowColor" = o.shadowColor := rfl

theorem getVal_key_color (o : VisualObject) : getVal o "color" = o.color := rfl

theorem getVal_key_text (o : VisualObject) :
    getVal o "text" = (o.text.map Val.str).getD .undef := rfl

theorem getVal_key_parentId (o : VisualObject) :
    getVal o "parentId" = (o.parentId.map Val.str).getD .undef := rfl

theorem getVal_key_id (o : VisualObject) : getVal o "id" = .str o.id := rfl

theorem optionStr_getD_inj (a b : Option String)
    (h : (a.map Val.str).getD .undef = (b.map Val.str).getD .undef) :
    a = b := by
  cases a <;> cases b <;> simp_all

-- ---------------------------------------------------------------------
-- Frame lemmas for the evaluator's per-action application
-- ---------------------------------------------------------------------

/-- The non-numeric `UPDATE` step leaves every other key's value alone. -/
theorem getVal_updateKeyGen_ne (obj : VisualObject) (k : String) (s e : Val)
    (t eT : ℝ) (p : String) (h : p ≠ k) :
    getVal (updateKeyGen obj k s e t eT) p = getVal obj p := by
  have hsv : ∀ (v : Val), getVal (setVal obj k v) p = getVal obj p :=
    fun v => getVal_setVal_ne obj k v p h
  unfold updateKeyGen
  split_ifs <;>
    first
      | exact hsv _
      | (rcases s with sn | ss | sv | sl | _ <;>
         rcases e with en | es | ev | el | _ <;>
          first
            | rfl
            | exact hsv _
            | exact getVal_setVal_ne obj "anchor" (.vec _) p (by simp_all))

/-- A single `UPDATE` key step leaves every other key's value alone. -/
theorem getVal_updateKey_ne (obj : VisualObject) (k : String) (s e : Val)
    (t eT : ℝ) (p : String) (h : p ≠ k) :
    getVal (updateKey obj k s e t eT) p = getVal obj p := by
  rcases s with sn | ss | sv | sl | _ <;> rcases e with en | es | ev | el | _
  · exact getVal_setVal_ne obj k _ p h
  all_goals exact getVal_updateKeyGen_ne obj k _ _ t eT p h

/-- The `UPDATE` fold leaves keys outside the payload alone. -/
theorem getVal_applyUpdate_not_mem (obj : VisualObject)
    (sProps eProps : List (String × Val)) (t eT : ℝ) (p : String)
    (h : p ∉ keys eProps) :
    getVal (applyUpdate obj sProps eProps t eT) p = getVal obj p := by
  induction eProps generalizing obj with
  | nil => rfl
  | cons q rest ih =>
    have hq : p ≠ q.1 := by
      intro he
      exact h (by rw [he]; exact List.mem_cons_self _ _)
    have hrest : p ∉ keys rest := by
      intro hm
      exact h (List.mem_cons_of_mem _ hm)
    unfold applyUpdate at ih ⊢
    simp only [List.foldl_cons]
    rw [ih _ hrest, getVal_updateKey_ne obj q.1 _ q.2 t eT p hq]

-- Definitional shapes of the per-kind dispatch, phrased through
-- `setVal` so the frame lemmas compose.

theorem applyKind_create (obj : VisualObject) (t eT : ℝ) :
    applyKind obj .create t eT = obj := rfl

theorem applyKind_move (obj : VisualObject) (s e : Vector2) (t eT : ℝ) :
    applyKind obj (.move s e) t eT =
      setVal (setVal obj "x" (.num (s.x + (e.x - s.x) * eT))) "y"
        (.num (s.y + (e.y - s.y) * eT)) := rfl

theorem applyKind_arc (obj : VisualObject) (cx cy r sa delta t eT : ℝ) :
    applyKind obj (.arc cx cy r sa delta) t eT =
      setVal (setVal obj "x" (.num (cx + r * Real.cos (sa + delta * eT))))
        "y" (.num (cy + r * Real.sin (sa + delta * eT))) := rfl

theorem applyKind_rotate (obj : VisualObject) (s e t eT : ℝ) :
    applyKind obj (.rotate s e) t eT =
      setVal obj "rotation" (.num (s + (e - s) * eT)) := rfl

theorem applyKind_count (obj : VisualObject) (s e t eT : ℝ) :
    applyKind obj (.count s e) t eT =
      setVal obj "text" (.str (toString (jsRound (s + (e - s) * eT)))) := rfl

theorem applyKind_typewriter (obj : VisualObject) (full : String)
    (t eT : ℝ) :
    applyKind obj (.typewriter full) t eT =
      setVal (setVal obj "opacity" (.num 1)) "text"
        (.str (full.take (⌊(full.length : ℝ) * eT⌋).toNat)) := rfl

theorem applyKind_wiggle (obj : VisualObject) (base strength t eT : ℝ) :
    applyKind obj (.wiggle base strength) t eT =
      (if t < 1 then
        setVal obj "rotation"
          (.num (base + Real.sin (t * Real.pi * 10) * strength * (1 - t)))
      else setVal obj "rotation" (.num base)) := rfl

theorem applyKind_pulse (obj : VisualObject) (base target t eT : ℝ) :
    applyKind obj (.pulse base target) t eT =
      (if t < 1 then
        setVal obj "scale"
          (.num (base + (target - base) * Real.sin (t * Real.pi)))
      else setVal obj "scale" (.num base)) := rfl

theorem applyKind_shake (obj : VisualObject) (base strength t eT : ℝ) :
    applyKind obj (.shake base strength) t eT =
      (if t < 1 then
        setVal obj "x"
          (.num (base + Real.sin (t * Real.pi * 20) * strength * (1 - t)))
      else setVal obj "x" (.num base)) := rfl

theorem applyKind_glow (obj : VisualObject) (sb : ℝ) (sc : Val) (eb : ℝ)
    (ec : Val) (t eT : ℝ) :
    applyKind obj (.glow sb sc eb ec) t eT =
      (if 0 < t then
        setVal (setVal obj "shadowBlur" (.num (sb + (eb - sb) * eT)))
          "shadowColor" ec
      else setVal obj "shadowBlur" (.num (sb + (eb - sb) * eT))) := rfl

theorem applyKind_update (obj : VisualObject)
    (sProps eProps : List (String × Val)) (t eT : ℝ) :
    applyKind obj (.update sProps eProps) t eT =
      applyUpdate obj sProps eProps t eT := rfl

/-- Applying an action kind leaves every key it does not write alone. -/
theorem getVal_applyKind_not_writes (obj : VisualObject) (k : AKind)
    (t eT : ℝ) (p : String) (h : p ∉ writesKeys k) :
    getVal (applyKind obj k t eT) p = getVal obj p := by
  cases k with
  | create => rfl
  | move s e =>
    simp only [writesKeys, List.mem_cons, List.not_mem_nil, or_false,
      not_or] at h
    rw [applyKind_move, getVal_setVal_ne _ "y" _ p h.2,
      getVal_setVal_ne _ "x" _ p h.1]
  | arc cx cy r sa delta =>
    simp only [writesKeys, List.mem_cons, List.not_mem_nil, or_false,
      not_or] at h
    rw [applyKind_arc, getVal_setVal_ne _ "y" _ p h.2,
      getVal_setVal_ne _ "x" _ p h.1]
  | rotate s e =>
    simp only [writesKeys, List.mem_cons, List.not_mem_nil, or_false] at h
    rw [applyKind_rotate, getVal_setVal_ne _ "rotation" _ p h]
  | count s e =>
    simp only [writesKeys, List.mem_cons, List.not_mem_nil, or_false] at h
    rw [applyKind_count, getVal_setVal_ne _ "text" _ p h]
  | typewriter full =>
    simp only [writesKeys, List.mem_cons, List.not_mem_nil, or_false,
      not_or] at h
    rw [applyKind_typewriter, getVal_setVal_ne _ "text" _ p h.2,
      getVal_setVal_ne _ "opacity" _ p h.1]
  | wiggle base strength =>
    simp only [writesKeys, List.mem_cons, List.not_mem_nil, or_false] at h
    rw [applyKind_wiggle]
    split_ifs <;> rw [getVal_setVal_ne _ "rotation" _ p h]
  | pulse base target =>
    simp only [writesKeys, List.mem_cons, List.not_mem_nil, or_false] at h
    rw [applyKind_pulse]
    split_ifs <;> rw [getVal_setVal_ne _ "scale" _ p h]
  | shake base strength =>
    simp only [writesKeys, List.mem_cons, List.not_mem_nil, or_false] at h
    rw [applyKind_shake]
    split_ifs <;> rw [getVal_setVal_ne _ "x" _ p h]
  | glow sb sc eb ec =>
    simp only [writesKeys, List.mem_cons, List.not_mem_nil, or_false,
      not_or] at h
    rw [applyKind_glow]
    split_ifs
    · rw [getVal_setVal_ne _ "shadowColor" _ p h.2,
        getVal_setVal_ne _ "shadowBlur" _ p h.1]
    · rw [getVal_setVal_ne _ "shadowBlur" _ p h.1]
  | update sProps eProps =>
    exact getVal_applyUpdate_not_mem obj sProps eProps t eT p h

-- ---------------------------------------------------------------------
-- Settling: every action reaches its end state at raw progress 1
-- ---------------------------------------------------------------------

theorem zipWith_lerp_one (sl el : List Vector2) (h : sl.length = el.length) :
    sl.zipWith (fun a b =>
      (⟨a.x + (b.x - a.x) * 1, a.y + (b.y - a.y) * 1⟩ : Vector2)) el = el := by
  induction sl generalizing el with
  | nil => cases el with
    | nil => rfl
    | cons b bs => simp at h
  | cons a as ih =>
    cases el with
    | nil => simp at h
    | cons b bs =>
      have hh : (⟨a.x + (b.x - a.x) * 1, a.y + (b.y - a.y) * 1⟩ : Vector2)
          = b := by
        obtain ⟨bx, bv⟩ := b
        simp only [Vector2.mk.injEq]
        constructor <;> ring
      rw [List.zipWith_cons_cons, hh, ih bs (by simpa using h)]

theorem string_take_length (s : String) : s.take s.length = s := by
  rw [String.take_eq]
  have hl : s.1.take s.length = s.1 := by
    show s.1.take s.1.length = s.1
    exact List.take_length s.1
  rw [hl]

/-- A typed anchor payload is a point. -/
theorem KeyTyped_anchor_vec (e : Val) (h : KeyTyped "anchor" e) :
    ∃ a, e = Val.vec a := by
  rcases h with ⟨hm, _⟩ | ⟨hm, _⟩ | hm | ⟨_, a, ha⟩ | ⟨hm, _⟩ | ⟨hm, _⟩ |
    ⟨hm, _⟩ | hm
  · exact absurd hm (by decide)
  · exact absurd hm (by decide)
  · exact absurd hm (by decide)
  · exact ⟨a, ha⟩
  · exact absurd hm (by decide)
  · rcases hm with hm | hm <;> exact absurd hm (by decide)
  · exact absurd hm (by decide)
  · exact absurd (by decide : "anchor" ∈ structuralKeys) hm

/-- A typed points payload is a point list. -/
theorem KeyTyped_points_pts (e : Val) (h : KeyTyped "points" e) :
    ∃ l, e = Val.pts l := by
  rcases h with ⟨hm, _⟩ | ⟨hm, _⟩ | hm | ⟨hm, _⟩ | ⟨_, l, hl⟩ | ⟨hm, _⟩ |
    ⟨hm, _⟩ | hm
  · exact absurd hm (by decide)
  · exact absurd hm (by decide)
  · exact absurd hm (by decide)
  · exact absurd hm (by decide)
  · exact ⟨l, hl⟩
  · rcases hm with hm | hm <;> exact absurd hm (by decide)
  · exact absurd hm (by decide)
  · exact absurd (by decide : "points" ∈ structuralKeys) hm

/-- A well-typed non-numeric `UPDATE` step at raw and eased progress 1
lands exactly on the end value. -/
theorem getVal_updateKeyGen_self (obj : VisualObject) (k : String)
    (s e : Val) (ht : KeyTyped k e)
    (hanchor : k = "anchor" → ∃ a, s = Val.vec a)
    (hpoints : k = "points" → ∀ el, e = Val.pts el → ∀ sl, s = Val.pts sl →
      sl.length = el.length) :
    getVal (updateKeyGen obj k s e 1 1) k = e := by
  unfold updateKeyGen
  split_ifs with h1 h2 h3 h4
  · exact getVal_setVal_typed obj k e ht
  · exact absurd (by norm_num : (0.5 : ℝ) ≤ 1) h2
  · subst h3
    obtain ⟨a, rfl⟩ := hanchor rfl
    obtain ⟨b, rfl⟩ := KeyTyped_anchor_vec e ht
    have hh : (⟨a.x + (b.x - a.x) * 1, a.y + (b.y - a.y) * 1⟩ : Vector2)
        = b := by
      obtain ⟨bx, bv⟩ := b
      simp only [Vector2.mk.injEq]
      constructor <;> ring
    have hstep := getVal_setVal_typed obj "anchor"
      (.vec ⟨a.x + (b.x - a.x) * 1, a.y + (b.y - a.y) * 1⟩)
      (Or.inr (Or.inr (Or.inr (Or.inl ⟨rfl, _, rfl⟩))))
    exact hstep.trans (by rw [hh])
  · subst h4
    obtain ⟨el, rfl⟩ := KeyTyped_points_pts e ht
    rcases s with sn | ss | sv | sl | _
    · exact getVal_setVal_typed obj "points" _ ht
    · exact getVal_setVal_typed obj "points" _ ht
    · exact getVal_setVal_typed obj "points" _ ht
    · have hstep := getVal_setVal_typed obj "points"
        (.pts (sl.zipWith (fun a b =>
          (⟨a.x + (b.x - a.x) * 1, a.y + (b.y - a.y) * 1⟩ : Vector2)) el))
        (Or.inr (Or.inr (Or.inr (Or.inr (Or.inl ⟨rfl, _, rfl⟩)))))
      exact hstep.trans
        (by rw [zipWith_lerp_one sl el (hpoints rfl el rfl sl rfl)])
    · exact getVal_setVal_typed obj "points" _ ht
  · exact getVal_setVal_typed obj k e ht

/-- A single well-typed `UPDATE` key step at raw and eased progress 1
lands exactly on the end value. -/
theorem getVal_updateKey_self (obj : VisualObject) (k : String) (s e : Val)
    (ht : KeyTyped k e)
    (hanchor : k = "anchor" → ∃ a, s = Val.vec a)
    (hpoints : k = "points" → ∀ el, e = Val.pts el → ∀ sl, s = Val.pts sl →
      sl.length = el.length) :
    getVal (updateKey obj k s e 1 1) k = e := by
  have hnum : ∀ (sn en : ℝ), KeyTyped k (.num en) →
      getVal (setVal obj k (.num (sn + (en - sn) * 1))) k = Val.num en :=
    fun sn en hte =>
      (getVal_setVal_typed obj k _ (KeyTyped_num_any k en _ hte)).trans
        (by rw [show sn + (en - sn) * 1 = en by ring])
  rcases s with sn | ss | sv | sl | _ <;> rcases e with en | es | ev | el | _
  · exact hnum _ _ ht
  all_goals exact getVal_updateKeyGen_self obj k _ _ ht hanchor hpoints

/-- The `UPDATE` fold at progress 1 lands every payload key on its end
value. -/
theorem getVal_applyUpdate_mem (obj : VisualObject)
    (sProps eProps : List (String × Val)) (hok : UpdatePayloadOK sProps eProps)
    (k : String) (e : Val) (hmem : (k, e) ∈ eProps) :
    getVal (applyUpdate obj sProps eProps 1 1) k = e := by
  obtain ⟨hnd, hall⟩ := hok
  obtain ⟨l1, l2, rfl⟩ := List.append_of_mem hmem
  have hk2 : k ∉ keys l2 := by
    have hnd2 : (keys ((k, e) :: l2)).Nodup := by
      have := hnd
      unfold keys at this ⊢
      rw [List.map_append] at this
      exact this.of_append_right
    exact (List.nodup_cons.mp hnd2).1
  have hprops := hall (k, e) (by simp)
  have step : getVal (updateKey (applyUpdate obj sProps l1 1 1) k
      (lookupVal sProps k) e 1 1) k = e := by
    refine getVal_updateKey_self _ k _ e hprops.1 ?_ ?_
    · intro hk
      exact hprops.2.1 hk
    · intro hk el hel slv hsl
      exact hprops.2.2 hk el hel slv (by rw [← hsl])
  calc getVal (applyUpdate obj sProps (l1 ++ (k, e) :: l2) 1 1) k
      = getVal (applyUpdate (updateKey (applyUpdate obj sProps l1 1 1) k
          (lookupVal sProps k) e 1 1) sProps l2 1 1) k := by
        simp only [applyUpdate, List.foldl_append, List.foldl_cons]
    _ = e := by
        rw [getVal_applyUpdate_not_mem _ sProps l2 1 1 k hk2, step]

/-- Every action kind, applied at raw progress 1 (hence eased progress 1
for every easing), reaches its specified settled state. -/
theorem applyKind_settles (obj : VisualObject) (k : AKind)
    (hok : ActionPayloadOK k) : settledAt k (applyKind obj k 1 1) := by
  cases k with
  | create => trivial
  | move s e =>
    refine ⟨?_, ?_⟩
    · show s.x + (e.x - s.x) * 1 = e.x
      ring
    · show s.y + (e.y - s.y) * 1 = e.y
      ring
  | arc cx cy r sa delta =>
    refine ⟨?_, ?_⟩
    · show cx + r * Real.cos (sa + delta * 1) = cx + r * Real.cos (sa + delta)
      rw [mul_one]
    · show cy + r * Real.sin (sa + delta * 1) = cy + r * Real.sin (sa + delta)
      rw [mul_one]
  | rotate s e =>
    show s + (e - s) * 1 = e
    ring
  | count s e =>
    show some (toString (jsRound (s + (e - s) * 1)))
      = some (toString (jsRound e))
    rw [show s + (e - s) * 1 = e by ring]
  | typewriter full =>
    refine ⟨rfl, ?_⟩
    show some (full.take (⌊(full.length : ℝ) * 1⌋).toNat) = some full
    rw [mul_one, Int.floor_natCast]
    simp [string_take_length]
  | wiggle base strength =>
    show (applyKind obj (.wiggle base strength) 1 1).rotation = base
    rw [applyKind_wiggle, if_neg (lt_irrefl 1)]
    rfl
  | pulse base target =>
    show (applyKind obj (.pulse base target) 1 1).scale = base
    rw [applyKind_pulse, if_neg (lt_irrefl 1)]
    rfl
  | shake base strength =>
    show (applyKind obj (.shake base strength) 1 1).x = base
    rw [applyKind_shake, if_neg (lt_irrefl 1)]
    rfl
  | glow sb sc eb ec =>
    have hg := applyKind_glow obj sb sc eb ec 1 1
    rw [if_pos one_pos] at hg
    refine ⟨?_, ?_⟩
    · show (applyKind obj (.glow sb sc eb ec) 1 1).shadowBlur = eb
      rw [hg]
      show sb + (eb - sb) * 1 = eb
      ring
    · show (applyKind obj (.glow sb sc eb ec) 1 1).shadowColor = ec
      rw [hg]
      rfl
  | update sProps eProps =>
    intro p hp
    obtain ⟨p1, p2⟩ := p
    exact getVal_applyUpdate_mem obj sProps eProps hok p1 p2 hp

/-- A settled state transfers along preservation of the written keys. -/
theorem settledAt_transfer (k : AKind) (w w' : VisualObject)
    (hpres : ∀ p ∈ writesKeys k, getVal w' p = getVal w p)
    (hs : settledAt k w) : settledAt k w' := by
  cases k with
  | create => trivial
  | move s e =>
    have hx := hpres "x" (by simp [writesKeys])
    have hy := hpres "y" (by simp [writesKeys])
    rw [getVal_key_x, getVal_key_x] at hx
    rw [getVal_key_y, getVal_key_y] at hy
    simp only [Val.num.injEq] at hx hy
    exact ⟨hx.trans hs.1, hy.trans hs.2⟩
  | arc cx cy r sa delta =>
    have hx := hpres "x" (by simp [writesKeys])
    have hy := hpres "y" (by simp [writesKeys])
    rw [getVal_key_x, getVal_key_x] at hx
    rw [getVal_key_y, getVal_key_y] at hy
    simp only [Val.num.injEq] at hx hy
    exact ⟨hx.trans hs.1, hy.trans hs.2⟩
  | rotate s e =>
    have hr := hpres "rotation" (by simp [writesKeys])
    rw [getVal_key_rotation, getVal_key_rotation] at hr
    simp only [Val.num.injEq] at hr
    exact hr.trans hs
  | count s e =>
    have htx := hpres "text" (by simp [writesKeys])
    rw [getVal_key_text, getVal_key_text] at htx
    exact (optionStr_getD_inj _ _ htx).trans hs
  | typewriter full =>
    have hop := hpres "opacity" (by simp [writesKeys])
    have htx := hpres "text" (by simp [writesKeys])
    rw [getVal_key_opacity, getVal_key_opacity] at hop
    rw [getVal_key_text, getVal_key_text] at htx
    simp only [Val.num.injEq] at hop
    exact ⟨hop.trans hs.1, (optionStr_getD_inj _ _ htx).trans hs.2⟩
  | wiggle base strength =>
    have hr := hpres "rotation" (by simp [writesKeys])
    rw [getVal_key_rotation, getVal_key_rotation] at hr
    simp only [Val.num.injEq] at hr
    exact hr.trans hs
  | pulse base target =>
    have hc := hpres "scale" (by simp [writesKeys])
    rw [getVal_key_scale, getVal_key_scale] at hc
    simp only [Val.num.injEq] at hc
    exact hc.trans hs
  | shake base strength =>
    have hx := hpres "x" (by simp [writesKeys])
    rw [getVal_key_x, getVal_key_x] at hx
    simp only [Val.num.injEq] at hx
    exact hx.trans hs
  | glow sb sc eb ec =>
    have hb := hpres "shadowBlur" (by simp [writesKeys])
    have hc := hpres "shadowColor" (by simp [writesKeys])
    rw [getVal_key_shadowBlur, getVal_key_shadowBlur] at hb
    rw [getVal_key_shadowColor, getVal_key_shadowColor] at hc
    simp only [Val.num.injEq] at hb
    exact ⟨hb.trans hs.1, hc.trans hs.2⟩
  | update sProps eProps =>
    intro p hp
    have hk := hpres p.1 (by
      simp only [writesKeys]
      exact List.mem_map.mpr ⟨p, hp, rfl⟩)
    exact hk.trans (hs p hp)

-- ---------------------------------------------------------------------
-- The action-application pass over the object map
-- ---------------------------------------------------------------------

theorem applyActionToMap_keys (m : List (String × VisualObject)) (a : Action)
    (time : ℝ) : keys (applyActionToMap m a time) = keys m := by
  cases ho : a.objectId with
  | none => simp [applyActionToMap, ho]
  | some oid =>
    cases hm : mapGet m oid with
    | none => simp [applyActionToMap, ho, hm]
    | some obj =>
      simp only [applyActionToMap, ho, hm]
      exact keys_mapSet_of_isSome m oid _ (by rw [hm]; rfl)

theorem applyActionToMap_not_target (m : List (String × VisualObject))
    (a : Action) (time : ℝ) (i : String) (h : a.objectId ≠ some i) :
    mapGet (applyActionToMap m a time) i = mapGet m i := by
  cases ho : a.objectId with
  | none => simp [applyActionToMap, ho]
  | some oid =>
    cases hm : mapGet m oid with
    | none => simp [applyActionToMap, ho, hm]
    | some obj =>
      simp only [applyActionToMap, ho, hm]
      rw [mapGet_mapSet]
      rw [if_neg (fun he => h (by rw [ho, he]))]

theorem applyActionToMap_target (m : List (String × VisualObject))
    (a : Action) (time : ℝ) (oid : String) (obj : VisualObject)
    (ho : a.objectId = some oid) (hm : mapGet m oid = some obj) :
    applyActionToMap m a time =
      mapSet m oid (applyKind obj a.type (progressAt a time)
        (easedAt a.easing (progressAt a time))) := by
  simp [applyActionToMap, ho, hm]

/-- Folding a run of actions preserves the key list of the working map. -/
theorem foldActions_keys (l : List Action)
    (m : List (String × VisualObject)) (time : ℝ) :
    keys (l.foldl (fun m a => applyActionToMap m a time) m) = keys m := by
  induction l generalizing m with
  | nil => rfl
  | cons a rest ih =>
    simp only [List.foldl_cons]
    rw [ih _, applyActionToMap_keys]

/-- Folding a run of actions that never writes any key of `K` on object
`i` preserves the values at those keys. -/
theorem foldActions_preserves (l : List Action)
    (m : List (String × VisualObject)) (time : ℝ) (i : String)
    (K : List String) (obj : VisualObject)
    (hK : ∀ b ∈ l, b.objectId = some i → ∀ p ∈ K, p ∉ writesKeys b.type)
    (hm : mapGet m i = some obj) :
    ∃ obj', mapGet (l.foldl (fun m a => applyActionToMap m a time) m) i
      = some obj' ∧ ∀ p ∈ K, getVal obj' p = getVal obj p := by
  induction l generalizing m obj with
  | nil => exact ⟨obj, hm, fun p _ => rfl⟩
  | cons b rest ih =>
    simp only [List.foldl_cons]
    by_cases hb : b.objectId = some i
    · have hstep := applyActionToMap_target m b time i obj hb hm
      have hm2 : mapGet (applyActionToMap m b time) i = some
          (applyKind obj b.type (progressAt b time)
            (easedAt b.easing (progressAt b time))) := by
        rw [hstep, mapGet_mapSet, if_pos rfl]
      obtain ⟨obj', ho', hpres⟩ := ih _ _
        (fun c hc hci => hK c (List.mem_cons_of_mem b hc) hci) hm2
      refine ⟨obj', ho', fun p hp => ?_⟩
      rw [hpres p hp]
      exact getVal_applyKind_not_writes obj b.type _ _ p
        (hK b (List.mem_cons_self b rest) hb p hp)
    · have hm2 : mapGet (applyActionToMap m b time) i = some obj := by
        rw [applyActionToMap_not_target m b time i hb, hm]
      exact ih _ _ (fun c hc hci => hK c (List.mem_cons_of_mem b hc) hci) hm2

-- ---------------------------------------------------------------------
-- The hierarchy resolver
-- ---------------------------------------------------------------------

section HierarchyLemmas

variable {α : Type}

theorem mem_keys_mapSet_of_mem (m : List (String × α)) (q : String) (v : α)
    (k : String) (hk : k ∈ keys m) : k ∈ keys (mapSet m q v) := by
  by_cases hq : (mapGet m q).isSome
  · rw [keys_mapSet_of_isSome m q v hq]; exact hk
  · have hnone : mapGet m q = none := by
      cases hg : mapGet m q with
      | none => rfl
      | some _ => rw [hg] at hq; simp at hq
    rw [keys_mapSet_of_none m q v hnone]
    exact List.mem_append_left _ hk

theorem mem_keys_mapSet_self (m : List (String × α)) (q : String) (v : α) :
    q ∈ keys (mapSet m q v) := by
  by_cases hq : (mapGet m q).isSome
  · rw [keys_mapSet_of_isSome m q v hq]
    rw [mem_keys_iff_isSome]; exact hq
  · have hnone : mapGet m q = none := by
      cases hg : mapGet m q with
      | none => rfl
      | some _ => rw [hg] at hq; simp at hq
    rw [keys_mapSet_of_none m q v hnone]
    exact List.mem_append_right _ (List.mem_singleton.mpr rfl)

theorem mem_keys_mapSet_cases (m : List (String × α)) (q : String) (v : α)
    (k : String) (hk : k ∈ keys (mapSet m q v)) : k ∈ keys m ∨ k = q := by
  by_cases hq : (mapGet m q).isSome
  · rw [keys_mapSet_of_isSome m q v hq] at hk; exact Or.inl hk
  · have hnone : mapGet m q = none := by
      cases hg : mapGet m q with
      | none => rfl
      | some _ => rw [hg] at hq; simp at hq
    rw [keys_mapSet_of_none m q v hnone] at hk
    rcases List.mem_append.mp hk with h | h
    · exact Or.inl h
    · exact Or.inr (List.mem_singleton.mp h)

/-- Membership in the children adjacency list. -/
theorem mem_childrenOf (objects : List (String × VisualObject))
    (p c : String) :
    c ∈ childrenOf objects p ↔
      ∃ oc, (c, oc) ∈ objects ∧ oc.parentId = some p := by
  unfold childrenOf
  constructor
  · intro h
    obtain ⟨e, he, hec⟩ := List.mem_map.mp h
    obtain ⟨hem, hep⟩ := List.mem_filter.mp he
    refine ⟨e.2, ?_, by simpa using hep⟩
    rw [← hec]; exact hem
  · rintro ⟨oc, hm, hp⟩
    exact List.mem_map.mpr ⟨(c, oc), List.mem_filter.mpr ⟨hm, by simpa using hp⟩, rfl⟩

/-- Membership in the roots list. -/
theorem mem_rootsOf (objects : List (String × VisualObject)) (r : String) :
    r ∈ rootsOf objects ↔ ∃ orr, (r, orr) ∈ objects ∧ orr.parentId = none := by
  unfold rootsOf
  constructor
  · intro h
    obtain ⟨e, he, hec⟩ := List.mem_map.mp h
    obtain ⟨hem, hep⟩ := List.mem_filter.mp he
    refine ⟨e.2, ?_, by simpa using hep⟩
    rw [← hec]; exact hem
  · rintro ⟨orr, hm, hp⟩
    exact List.mem_map.mpr ⟨(r, orr), List.mem_filter.mpr ⟨hm, by simpa using hp⟩, rfl⟩

/-- The resolver only ever adds keys to the accumulator. -/
theorem resolveNode_keys_mono (objects : List (String × VisualObject)) :
    ∀ (fuel : ℕ) (i : String) (pt : Option PTransform)
      (acc : List (String × VisualObject)) (k : String),
      k ∈ keys acc → k ∈ keys (resolveNode objects fuel i pt acc) := by
  intro fuel
  induction fuel with
  | zero => intro i pt acc k hk; exact hk
  | succ fuel ih =>
    intro i pt acc k hk
    simp only [resolveNode]
    cases hm : mapGet objects i with
    | none => exact hk
    | some obj =>
      have hfold : ∀ (cs : List String) (ac : List (String × VisualObject))
          (pt' : Option PTransform), k ∈ keys ac →
          k ∈ keys (cs.foldl
            (fun ac c => resolveNode objects fuel c pt' ac) ac) := by
        intro cs
        induction cs with
        | nil => intro ac pt' h; exact h
        | cons c rest ihc =>
          intro ac pt' h
          exact ihc _ _ (ih c pt' ac k h)
      exact hfold _ _ _ (mem_keys_mapSet_of_mem acc i _ k hk)

theorem resolveNode_foldl_keys_mono (objects : List (String × VisualObject))
    (fuel : ℕ) (pt : Option PTransform) (cs : List String)
    (acc : List (String × VisualObject)) (k : String) (hk : k ∈ keys acc) :
    k ∈ keys (cs.foldl
      (fun ac c => resolveNode objects fuel c pt ac) acc) := by
  induction cs generalizing acc with
  | nil => exact hk
  | cons c rest ih =>
    exact ih _ (resolveNode_keys_mono objects fuel c pt acc k hk)

/-- Every key the resolver adds is a key of the object map. -/
theorem resolveNode_keys_subset (objects : List (String × VisualObject)) :
    ∀ (fuel : ℕ) (i : String) (pt : Option PTransform)
      (acc : List (String × VisualObject)) (k : String),
      k ∈ keys (resolveNode objects fuel i pt acc) →
      k ∈ keys acc ∨ k ∈ keys objects := by
  intro fuel
  induction fuel with
  | zero => intro i pt acc k hk; exact Or.inl hk
  | succ fuel ih =>
    intro i pt acc k hk
    simp only [resolveNode] at hk
    cases hm : mapGet objects i with
    | none => rw [hm] at hk; exact Or.inl hk
    | some obj =>
      rw [hm] at hk
      have hfold : ∀ (cs : List String) (ac : List (String × VisualObject))
          (pt' : Option PTransform),
          k ∈ keys (cs.foldl
            (fun ac c => resolveNode objects fuel c pt' ac) ac) →
          k ∈ keys ac ∨ k ∈ keys objects := by
        intro cs
        induction cs with
        | nil => intro ac pt' h; exact Or.inl h
        | cons c rest ihc =>
          intro ac pt' h
          rcases ihc _ _ h with h1 | h2
          · exact ih c pt' ac k h1
          · exact Or.inr h2
      rcases hfold _ _ _ hk with h1 | h2
      · rcases mem_keys_mapSet_cases acc i _ k h1 with ha | hi
        · exact Or.inl ha
        · subst hi
          right
          rw [mem_keys_iff_isSome, hm]
          rfl
      · exact Or.inr h2

/-- The resolver keeps the accumulator's keys duplicate-free. -/
theorem resolveNode_keys_nodup (objects : List (String × VisualObject)) :
    ∀ (fuel : ℕ) (i : String) (pt : Option PTransform)
      (acc : List (String × VisualObject)),
      (keys acc).Nodup → (keys (resolveNode objects fuel i pt acc)).Nodup := by
  intro fuel
  induction fuel with
  | zero => intro i pt acc h; exact h
  | succ fuel ih =>
    intro i pt acc h
    simp only [resolveNode]
    cases hm : mapGet objects i with
    | none => exact h
    | some obj =>
      have hfold : ∀ (cs : List String) (ac : List (String × VisualObject))
          (pt' : Option PTransform), (keys ac).Nodup →
          (keys (cs.foldl
            (fun ac c => resolveNode objects fuel c pt' ac) ac)).Nodup := by
        intro cs
        induction cs with
        | nil => intro ac pt' hh; exact hh
        | cons c rest ihc =>
          intro ac pt' hh
          exact ihc _ _ (ih c pt' ac hh)
      exact hfold _ _ _ (nodup_keys_mapSet acc i _ h)

/-- Every entry the resolver inserts is either an untransformed object of
the map (at a root call) or a parent-transformed object of the map. -/
theorem resolveNode_entries (objects : List (String × VisualObject))
    (P : String × VisualObject → Prop)
    (hroot : ∀ j oj, mapGet objects j = some oj → P (j, oj))
    (htrans : ∀ j oj ptv, mapGet objects j = some oj →
      P (j, transformChild oj ptv)) :
    ∀ (fuel : ℕ) (i : String) (pt : Option PTransform)
      (acc : List (String × VisualObject)),
      (∀ x ∈ acc, P x) → ∀ x ∈ resolveNode objects fuel i pt acc, P x := by
  intro fuel
  induction fuel with
  | zero => intro i pt acc h; exact h
  | succ fuel ih =>
    intro i pt acc h
    simp only [resolveNode]
    cases hm : mapGet objects i with
    | none => exact h
    | some obj =>
      have hacc1 : ∀ x ∈ mapSet acc i
          (match pt with
           | none => obj
           | some ptv => transformChild obj ptv), P x := by
        intro x hx
        rcases mem_mapSet acc i _ x hx with h1 | h2
        · subst h1
          cases pt with
          | none => exact hroot i obj hm
          | some ptv => exact htrans i obj ptv hm
        · exact h x h2.1
      have hfold : ∀ (cs : List String) (ac : List (String × VisualObject))
          (pt' : Option PTransform), (∀ x ∈ ac, P x) →
          ∀ x ∈ cs.foldl
            (fun ac c => resolveNode objects fuel c pt' ac) ac, P x := by
        intro cs
        induction cs with
        | nil => intro ac pt' hh; exact hh
        | cons c rest ihc =>
          intro ac pt' hh
          exact ihc _ _ (ih c pt' ac hh)
      exact hfold _ _ _ hacc1

/-- At a parentless key, any entry the resolver holds is the untouched
object: the key is never reached as somebody's child, so no parent
transform is ever applied to it. -/
theorem resolveNode_at_root_key (objects : List (String × VisualObject))
    (oid : String) (o : VisualObject) (hnd : (keys objects).Nodup)
    (ho : mapGet objects oid = some o) (hop : o.parentId = none) :
    ∀ (fuel : ℕ) (i : String) (pt : Option PTransform)
      (acc : List (String × VisualObject)),
      (∀ w, (oid, w) ∈ acc → w = o) → (i = oid → pt = none) →
      ∀ w, (oid, w) ∈ resolveNode objects fuel i pt acc → w = o := by
  intro fuel
  induction fuel with
  | zero => intro i pt acc hacc _ w hw; exact hacc w hw
  | succ fuel ih =>
    intro i pt acc hacc hpt w hw
    simp only [resolveNode] at hw
    cases hm : mapGet objects i with
    | none => rw [hm] at hw; exact hacc w hw
    | some obj =>
      rw [hm] at hw
      have hacc1 : ∀ w', (oid, w') ∈ mapSet acc i
          (match pt with
           | none => obj
           | some ptv => transformChild obj ptv) → w' = o := by
        intro w' hw'
        rcases mem_mapSet acc i _ _ hw' with h1 | h2
        · have hio : i = oid := (congrArg Prod.fst h1).symm
          have hptn : pt = none := hpt hio
          subst hptn
          have hobj : obj = o := by
            rw [hio] at hm
            rw [hm] at ho
            exact Option.some.inj ho
          have : w' = obj := congrArg Prod.snd h1
          rw [this, hobj]
        · exact hacc w' h2.1
      have hchild : ∀ c ∈ childrenOf objects i, c ≠ oid := by
        intro c hc hco
        subst hco
        obtain ⟨oc, hcm, hcp⟩ := (mem_childrenOf objects i c).mp hc
        have : mapGet objects c = some oc := mapGet_of_mem_nodup objects (c, oc) hnd hcm
        rw [ho] at this
        have : o = oc := Option.some.inj this
        rw [← this] at hcp
        rw [hop] at hcp
        cases hcp
      have hfold : ∀ (cs : List String), (∀ c ∈ cs, c ≠ oid) →
          ∀ (ac : List (String × VisualObject)) (pt' : PTransform),
          (∀ w', (oid, w') ∈ ac → w' = o) →
          ∀ w', (oid, w') ∈ cs.foldl
            (fun ac c => resolveNode objects fuel c (some pt') ac) ac →
          w' = o := by
        intro cs
        induction cs with
        | nil => intro _ ac pt' hh w' hw'; exact hh w' hw'
        | cons c rest ihc =>
          intro hcs ac pt' hh w' hw'
          refine ihc (fun d hd => hcs d (List.mem_cons_of_mem c hd)) _ pt' ?_ w' hw'
          intro w'' hw''
          refine ih c (some pt') ac hh ?_ w'' hw''
          intro hco
          exact absurd hco (hcs c (List.mem_cons_self c rest))
      exact hfold _ hchild _ _ hacc1 w hw

/-- Descent is monotone in the fuel bound. -/
theorem Desc.mono (m : List (String × VisualObject)) {i x : String} {f : ℕ}
    (h : Desc m i x f) : Desc m i x (f + 1) := by
  induction h with
  | self i o f ho => exact Desc.self i o (f + 1) ho
  | step i o c x f ho hc _ ih => exact Desc.step i o c x (f + 1) ho hc ih

theorem Desc.le (m : List (String × VisualObject)) {i x : String} {f g : ℕ}
    (hfg : f ≤ g) (h : Desc m i x f) : Desc m i x g := by
  induction g with
  | zero =>
    interval_cases f
    cases h
  | succ g ih =>
    rcases Nat.lt_or_ge f (g + 1) with hlt | hge
    · exact Desc.mono m (ih (Nat.lt_succ_iff.mp hlt))
    · have : f = g + 1 := le_antisymm hfg hge
      rw [← this]
      exact h

/-- A node the descent relation reaches within the fuel bound ends up in
the resolved accumulator. -/
theorem desc_visited (objects : List (String × VisualObject))
    {i x : String} {fuel : ℕ} (hd : Desc objects i x fuel) :
    ∀ (pt : Option PTransform) (acc : List (String × VisualObject)),
      x ∈ keys (resolveNode objects fuel i pt acc) := by
  induction hd with
  | self i o f ho =>
    intro pt acc
    simp only [resolveNode, ho]
    exact resolveNode_foldl_keys_mono objects f _ _ _ i
      (mem_keys_mapSet_self acc i _)
  | step i o c x f ho hc _ ih =>
    intro pt acc
    simp only [resolveNode, ho]
    obtain ⟨l1, l2, hcs⟩ := List.append_of_mem hc
    rw [hcs, List.foldl_append, List.foldl_cons]
    exact resolveNode_foldl_keys_mono objects f _ l2 _ x (ih _ _)

/-- Extending a descent by one child edge. -/
theorem desc_append_child (m : List (String × VisualObject)) (c : String)
    {r p : String} {f : ℕ} (hd : Desc m r p f) (hc : c ∈ childrenOf m p) :
    Desc m r c (f + 1) := by
  induction hd with
  | self i o f ho =>
    obtain ⟨oc, hcm, _⟩ := (mem_childrenOf m i c).mp hc
    have hsome : (mapGet m c).isSome := mapGet_isSome_of_mem m (c, oc) hcm
    obtain ⟨oc', hoc'⟩ := Option.isSome_iff_exists.mp hsome
    exact Desc.step i o c c (f + 1) ho hc (Desc.self c oc' f hoc')
  | step i o c' x f ho hc' _ ih =>
    exact Desc.step i o c' c (f + 1) ho hc' (ih hc)

theorem isChain_suffix (m : List (String × VisualObject))
    (l1 l2 : List String) (h : IsChain m (l1 ++ l2)) (hne : l2 ≠ []) :
    IsChain m l2 := by
  induction l1 with
  | nil => exact h
  | cons a l1 ih =>
    refine ih ?_
    cases hl : l1 ++ l2 with
    | nil =>
      exact absurd (List.append_eq_nil.mp hl).2 hne
    | cons b rest =>
      rw [List.cons_append, hl] at h
      obtain ⟨-, h2⟩ := h
      exact h2

/-- A member of a chain starts a chain that is a suffix of it. -/
theorem isChain_mem_suffix (m : List (String × VisualObject)) :
    ∀ (l : List String), IsChain m l → ∀ i ∈ l,
      ∃ l2, IsChain m (i :: l2) ∧ (i :: l2) <:+ l := by
  intro l
  induction l with
  | nil => intro _ i hi; cases hi
  | cons a rest ih =>
    intro h i hi
    rcases List.mem_cons.mp hi with h1 | h2
    · subst h1
      exact ⟨rest, h, List.suffix_refl _⟩
    · have hrest : IsChain m rest := by
        cases rest with
        | nil => cases h2
        | cons b rest' =>
          obtain ⟨-, hh⟩ := h
          exact hh
      obtain ⟨l2, hc2, hsuf⟩ := ih hrest i h2
      exact ⟨l2, hc2, hsuf.trans (List.suffix_cons a rest)⟩

/-- Every rooted id heads a duplicate-free parent chain inside the key
set. -/
theorem rooted_chain (m : List (String × VisualObject))
    {i : String} (hr : Rooted m i) :
    ∃ l, IsChain m (i :: l) ∧ (i :: l).Nodup ∧ ∀ x ∈ i :: l, x ∈ keys m := by
  induction hr with
  | root i o h hp =>
    refine ⟨[], ⟨o, h, hp⟩, List.nodup_singleton i, ?_⟩
    intro x hx
    rw [List.mem_singleton.mp hx, mem_keys_iff_isSome, h]
    rfl
  | child i o p h hp _ ih =>
    obtain ⟨lp, hcp, hnp, hmem⟩ := ih
    refine ⟨p :: lp, ⟨⟨o, h, hp⟩, hcp⟩, ?_, ?_⟩
    · rw [List.nodup_cons]
      refine ⟨?_, hnp⟩
      intro hi
      obtain ⟨l2, hc2, hsuf⟩ := isChain_mem_suffix m (p :: lp) hcp i hi
      have hplp : p ∈ lp := by
        cases l2 with
        | nil =>
          obtain ⟨o', ho', hpn⟩ := hc2
          rw [h] at ho'
          rw [← Option.some.inj ho'] at hpn
          rw [hpn] at hp
          cases hp
        | cons p' l2' =>
          obtain ⟨⟨o', ho', hp'⟩, _⟩ := hc2
          rw [h] at ho'
          rw [← Option.some.inj ho'] at hp'
          rw [hp] at hp'
          have hpp : p' = p := Option.some.inj hp'.symm
          obtain ⟨pre, hpre⟩ := hsuf
          rw [hpp] at hpre
          cases pre with
          | nil =>
            simp only [List.nil_append] at hpre
            have hlp : lp = p :: l2' := (List.cons.inj hpre).2.symm
            rw [hlp]
            exact List.mem_cons_self p l2'
          | cons a pre' =>
            simp only [List.cons_append] at hpre
            have hlp : pre' ++ i :: p :: l2' = lp := (List.cons.inj hpre).2
            rw [← hlp]
            exact List.mem_append_right pre'
              (List.mem_cons_of_mem i (List.mem_cons_self p l2'))
      exact (List.nodup_cons.mp hnp).1 hplp
    · intro x hx
      rcases List.mem_cons.mp hx with h1 | h2
      · rw [h1, mem_keys_iff_isSome, h]
        rfl
      · exact hmem x h2

theorem isChain_last_root (m : List (String × VisualObject)) :
    ∀ (l : List String), IsChain m l → ∀ r, l.getLast? = some r →
      ∃ orr, mapGet m r = some orr ∧ orr.parentId = none := by
  intro l
  induction l with
  | nil => intro h; cases h
  | cons a rest ih =>
    intro h r hr
    cases rest with
    | nil =>
      obtain ⟨o, ho, hp⟩ := h
      have : a = r := by simpa using hr
      rw [← this]
      exact ⟨o, ho, hp⟩
    | cons b rest' =>
      rw [List.getLast?_cons_cons] at hr
      obtain ⟨-, hh⟩ := h
      exact ih hh r hr

/-- A parent chain witnesses a descent from its last element (a root)
down to its head, with fuel the chain length. -/
theorem chain_to_desc (m : List (String × VisualObject)) :
    ∀ (l : List String) (i : String), IsChain m (i :: l) →
      ∀ r, (i :: l).getLast? = some r → Desc m r i (l.length + 1) := by
  intro l
  induction l with
  | nil =>
    intro i h r hr
    obtain ⟨o, ho, _⟩ := h
    have : i = r := by simpa using hr
    rw [← this]
    exact Desc.self i o 0 ho
  | cons p rest ih =>
    intro i h r hr
    obtain ⟨⟨o, ho, hp⟩, hchain⟩ := h
    rw [List.getLast?_cons_cons] at hr
    have hdp : Desc m r p (rest.length + 1) := ih p hchain r hr
    have hic : i ∈ childrenOf m p :=
      (mem_childrenOf m p i).mpr ⟨o, mem_of_mapGet_eq_some m i o ho, hp⟩
    simpa using desc_append_child m i hdp hic

/-- Every rooted key of the object map appears in the resolved map. -/
theorem resolvedMap_mem_of_rooted (objects : List (String × VisualObject))
    (k : String) (hr : Rooted objects k) : k ∈ keys (resolvedMap objects) := by
  obtain ⟨l, hc, hndl, hsub⟩ := rooted_chain objects hr
  have hne : (k :: l) ≠ [] := List.cons_ne_nil k l
  obtain ⟨r, hrr⟩ := Option.isSome_iff_exists.mp
    (List.getLast?_isSome.mpr hne)
  have hdesc : Desc objects r k (l.length + 1) := chain_to_desc objects l k hc r hrr
  have hlen : l.length + 1 ≤ objects.length := by
    have h1 : (k :: l).length ≤ (keys objects).length :=
      List.Subperm.length_le (hndl.subperm (fun x hx => hsub x hx))
    simpa [keys] using h1
  have hdescN : Desc objects r k objects.length := Desc.le objects hlen hdesc
  obtain ⟨orr, horr, hprr⟩ := isChain_last_root objects (k :: l) hc r hrr
  have hrmem : r ∈ rootsOf objects := (mem_rootsOf objects r).mpr
    ⟨orr, mem_of_mapGet_eq_some _ _ _ horr, hprr⟩
  obtain ⟨l1, l2, hroots⟩ := List.append_of_mem hrmem
  unfold resolvedMap
  rw [hroots, List.foldl_append, List.foldl_cons]
  exact resolveNode_foldl_keys_mono objects objects.length none l2 _ k
    (desc_visited objects hdescN none _)

/-- Every key of the resolved map is a key of the object map. -/
theorem resolvedMap_keys_subset (objects : List (String × VisualObject))
    (k : String) (hk : k ∈ keys (resolvedMap objects)) : k ∈ keys objects := by
  unfold resolvedMap at hk
  have hfold : ∀ (rs : List String) (acc : List (String × VisualObject)),
      k ∈ keys (rs.foldl
        (fun ac r => resolveNode objects objects.length r none ac) acc) →
      k ∈ keys acc ∨ k ∈ keys objects := by
    intro rs
    induction rs with
    | nil => intro acc h; exact Or.inl h
    | cons r rs ih =>
      intro acc h
      rcases ih _ h with h1 | h2
      · exact resolveNode_keys_subset objects _ r none acc k h1
      · exact Or.inr h2
  rcases hfold _ _ hk with h1 | h2
  · exact absurd h1 (by simp [keys])
  · exact h2

/-- The resolved map has duplicate-free keys. -/
theorem resolvedMap_keys_nodup (objects : List (String × VisualObject)) :
    (keys (resolvedMap objects)).Nodup := by
  unfold resolvedMap
  have hfold : ∀ (rs : List String) (acc : List (String × VisualObject)),
      (keys acc).Nodup →
      (keys (rs.foldl
        (fun ac r => resolveNode objects objects.length r none ac) acc)).Nodup := by
    intro rs
    induction rs with
    | nil => intro acc h; exact h
    | cons r rs ih =>
      intro acc h
      exact ih _ (resolveNode_keys_nodup objects _ r none acc h)
  exact hfold _ _ (by simp [keys])

theorem transformChild_id (o : VisualObject) (pt : PTransform) :
    (transformChild o pt).id = o.id := rfl

/-- Resolution keys entries by their object's id. -/
theorem resolvedMap_wellKeyed (objects : List (String × VisualObject))
    (hwk : ∀ e ∈ objects, e.2.id = e.1) :
    ∀ e ∈ resolvedMap objects, e.2.id = e.1 := by
  unfold resolvedMap
  have hfold : ∀ (rs : List String) (acc : List (String × VisualObject)),
      (∀ e ∈ acc, e.2.id = e.1) →
      ∀ e ∈ rs.foldl
        (fun ac r => resolveNode objects objects.length r none ac) acc,
        e.2.id = e.1 := by
    intro rs
    induction rs with
    | nil => intro acc h; exact h
    | cons r rs ih =>
      intro acc h
      refine ih _ ?_
      refine resolveNode_entries objects (fun e => e.2.id = e.1) ?_ ?_ _ r none acc h
      · intro j oj hj
        exact hwk (j, oj) (mem_of_mapGet_eq_some _ _ _ hj)
      · intro j oj ptv hj
        rw [transformChild_id]
        exact hwk (j, oj) (mem_of_mapGet_eq_some _ _ _ hj)
  intro e he
  refine hfold _ _ ?_ e he
  intro e' he'
  simp at he'

/-- At a parentless key, the resolved map holds the untouched object. -/
theorem resolvedMap_at_root (objects : List (String × VisualObject))
    (oid : String) (o : VisualObject) (hnd : (keys objects).Nodup)
    (ho : mapGet objects oid = some o) (hop : o.parentId = none) :
    ∀ w, (oid, w) ∈ resolvedMap objects → w = o := by
  unfold resolvedMap
  have hfold : ∀ (rs : List String) (acc : List (String × VisualObject)),
      (∀ w, (oid, w) ∈ acc → w = o) →
      ∀ w, (oid, w) ∈ rs.foldl
        (fun ac r => resolveNode objects objects.length r none ac) acc →
        w = o := by
    intro rs
    induction rs with
    | nil => intro acc h w hw; exact h w hw
    | cons r rs ih =>
      intro acc h w hw
      refine ih _ ?_ w hw
      intro w' hw'
      exact resolveNode_at_root_key objects oid o hnd ho hop
        objects.length r none acc h (fun _ => rfl) w' hw'
  intro w hw
  refine hfold _ _ ?_ w hw
  intro w' hw'
  simp at hw'

/-- Bundle: a parentless object appears in the resolver's output exactly
as stored, and it is the only output carrying its id. -/
theorem resolveHierarchy_root (objects : List (String × VisualObject))
    (oid : String) (o : VisualObject) (hnd : (keys objects).Nodup)
    (hwk : ∀ e ∈ objects, e.2.id = e.1)
    (ho : mapGet objects oid = some o) (hop : o.parentId = none) :
    o ∈ resolveHierarchy objects ∧
      ∀ w ∈ resolveHierarchy objects, w.id = oid → w = o := by
  constructor
  · have hkmem : oid ∈ keys (resolvedMap objects) :=
      resolvedMap_mem_of_rooted objects oid (Rooted.root oid o ho hop)
    obtain ⟨e, he, he1⟩ := List.mem_map.mp hkmem
    have hepair : (oid, e.2) ∈ resolvedMap objects := by
      rw [← he1]
      exact he
    have he2 : e.2 = o := resolvedMap_at_root objects oid o hnd ho hop e.2 hepair
    exact List.mem_map.mpr ⟨e, he, he2⟩
  · intro w hw hwid
    obtain ⟨e, he, he2⟩ := List.mem_map.mp hw
    have he1 : e.1 = oid := by
      rw [← resolvedMap_wellKeyed objects hwk e he, he2, hwid]
    have hepair : (oid, w) ∈ resolvedMap objects := by
      rw [← he1, ← he2]
      exact he
    exact resolvedMap_at_root objects oid o hnd ho hop w hepair

/-- The resolver outputs exactly one object per key of its input map. -/
theorem resolveHierarchy_ids_perm (objects : List (String × VisualObject))
    (hnd : (keys objects).Nodup)
    (hwk : ∀ e ∈ objects, e.2.id = e.1)
    (hall : ∀ e ∈ objects, Rooted objects e.1) :
    List.Perm ((resolveHierarchy objects).map (·.id)) (keys objects) := by
  have hids : (resolveHierarchy objects).map (·.id)
      = keys (resolvedMap objects) := by
    unfold resolveHierarchy keys
    rw [List.map_map]
    apply List.map_congr_left
    intro e he
    exact resolvedMap_wellKeyed objects hwk e he
  rw [hids]
  refine (List.perm_ext_iff_of_nodup (resolvedMap_keys_nodup objects) hnd).mpr ?_
  intro a
  constructor
  · exact resolvedMap_keys_subset objects a
  · intro ha
    have hra : Rooted objects a := by
      rw [mem_keys_iff_isSome] at ha
      obtain ⟨oa, hoa⟩ := Option.isSome_iff_exists.mp ha
      exact hall (a, oa) (mem_of_mapGet_eq_some _ _ _ hoa)
    exact resolvedMap_mem_of_rooted objects a hra

end HierarchyLemmas

-- ---------------------------------------------------------------------
-- Render-level frame lemmas
-- ---------------------------------------------------------------------

theorem mem_activeActions (tl : TimelineData) (time : ℝ) (b : Action)
    (hb : b ∈ activeActions tl time) : b ∈ tl.actions := by
  unfold activeActions at hb
  exact (List.mem_filter.mp hb).1

theorem applyActionToMap_time_congr (m : List (String × VisualObject))
    (a : Action) (t1 t2 : ℝ) (h : progressAt a t1 = progressAt a t2) :
    applyActionToMap m a t1 = applyActionToMap m a t2 := by
  unfold applyActionToMap
  rw [h]

theorem foldActions_time_congr (l : List Action)
    (m : List (String × VisualObject)) (t1 t2 : ℝ)
    (h : ∀ a ∈ l, progressAt a t1 = progressAt a t2) :
    l.foldl (fun m a => applyActionToMap m a t1) m
      = l.foldl (fun m a => applyActionToMap m a t2) m := by
  induction l generalizing m with
  | nil => rfl
  | cons a rest ih =>
    simp only [List.foldl_cons]
    rw [applyActionToMap_time_congr m a t1 t2 (h a (List.mem_cons_self a rest))]
    exact ih _ (fun b hb => h b (List.mem_cons_of_mem a hb))

theorem renderMap_keys (tl : TimelineData) (time : ℝ) :
    keys (renderMap tl time) = keys tl.objects :=
  foldActions_keys _ _ _

/-- The working map keeps an object's value at every key no active
action writes. -/
theorem renderMap_preserves (tl : TimelineData) (t : ℝ) (i : String)
    (K : List String) (obj : VisualObject)
    (hK : ∀ b ∈ tl.actions, b.objectId = some i →
      ∀ p ∈ K, p ∉ writesKeys b.type)
    (hm : mapGet tl.objects i = some obj) :
    ∃ obj', mapGet (renderMap tl t) i = some obj' ∧
      ∀ p ∈ K, getVal obj' p = getVal obj p := by
  refine foldActions_preserves _ _ t i K obj ?_ hm
  intro b hb
  exact hK b (mem_activeActions tl t b ((mem_sortByStart b _).mp hb))

/-- Identity and parent reference survive a render whose actions never
write them. -/
theorem renderMap_id_parent (tl : TimelineData) (t : ℝ) (i : String)
    (obj : VisualObject)
    (hId : ∀ b ∈ tl.actions, "id" ∉ writesKeys b.type)
    (hPar : ∀ b ∈ tl.actions, b.objectId = some i →
      "parentId" ∉ writesKeys b.type)
    (hm : mapGet tl.objects i = some obj) :
    ∃ obj', mapGet (renderMap tl t) i = some obj' ∧
      obj'.id = obj.id ∧ obj'.parentId = obj.parentId := by
  obtain ⟨obj', ho', hpres⟩ := renderMap_preserves tl t i ["id", "parentId"]
    obj (by
      intro b hb hbi p hp
      rcases List.mem_cons.mp hp with h1 | h2
      · subst h1; exact hId b hb
      · rw [List.mem_singleton.mp h2]; exact hPar b hb hbi) hm
  refine ⟨obj', ho', ?_, ?_⟩
  · have h := hpres "id" (by simp)
    rw [getVal_key_id, getVal_key_id] at h
    exact Val.str.inj h
  · have h := hpres "parentId" (by simp)
    rw [getVal_key_parentId, getVal_key_parentId] at h
    exact optionStr_getD_inj _ _ h

/-- The working map stays keyed by object ids when no action writes
`id`. -/
theorem renderMap_wellKeyed (tl : TimelineData) (t : ℝ)
    (hnd : (keys tl.objects).Nodup)
    (hwk : ∀ e ∈ tl.objects, e.2.id = e.1)
    (hId : ∀ b ∈ tl.actions, "id" ∉ writesKeys b.type) :
    ∀ e ∈ renderMap tl t, e.2.id = e.1 := by
  intro e he
  have hnd' : (keys (renderMap tl t)).Nodup := by
    rw [renderMap_keys]; exact hnd
  have hge : mapGet (renderMap tl t) e.1 = some e.2 :=
    mapGet_of_mem_nodup _ e hnd' he
  have hkey : e.1 ∈ keys tl.objects := by
    rw [← renderMap_keys tl t, mem_keys_iff_isSome, hge]
    rfl
  rw [mem_keys_iff_isSome] at hkey
  obtain ⟨o0, ho0⟩ := Option.isSome_iff_exists.mp hkey
  obtain ⟨obj', ho', hpres⟩ := renderMap_preserves tl t e.1 ["id"] o0
    (fun b hb _ p hp => by
      rw [List.mem_singleton.mp hp]; exact hId b hb) ho0
  rw [ho'] at hge
  have h := hpres "id" (by simp)
  rw [getVal_key_id, getVal_key_id] at h
  have heq : obj' = e.2 := Option.some.inj hge
  rw [← heq, Val.str.inj h]
  exact hwk (e.1, o0) (mem_of_mapGet_eq_some _ _ _ ho0)

/-- Rootedness transfers along parent-reference preservation. -/
theorem rooted_transfer (m1 m2 : List (String × VisualObject))
    (hpres : ∀ (i : String) (obj : VisualObject), mapGet m1 i = some obj →
      ∃ obj', mapGet m2 i = some obj' ∧ obj'.parentId = obj.parentId) :
    ∀ i, Rooted m1 i → Rooted m2 i := by
  intro i hr
  induction hr with
  | root j o h hp =>
    obtain ⟨o', h', hp'⟩ := hpres j o h
    exact Rooted.root j o' h' (hp'.trans hp)
  | child j o p h hp _ ih =>
    obtain ⟨o', h', hp'⟩ := hpres j o h
    exact Rooted.child j o' p h' (hp'.trans hp) ih

/-- A query before every start time renders the pure initial states. -/
theorem renderSceneAtTime_early (tl : TimelineData) (t : ℝ)
    (h : ∀ a ∈ tl.actions, t < a.startTime) :
    renderSceneAtTime tl t = resolveHierarchy tl.objects := by
  unfold renderSceneAtTime renderMap
  have hf : activeActions tl t = [] := by
    unfold activeActions
    rw [List.filter_eq_nil_iff]
    intro a ha
    simp only [decide_eq_true_eq]
    exact not_le.mpr (h a ha)
  rw [hf]
  rfl

/-- Two queries at or past every action's end render equal maps. -/
theorem renderMap_late_eq (tl : TimelineData) (t1 t2 : ℝ)
    (hd : ∀ a ∈ tl.actions, 0 ≤ a.duration)
    (h1 : ∀ a ∈ tl.actions, a.startTime + a.duration ≤ t1)
    (h2 : ∀ a ∈ tl.actions, a.startTime + a.duration ≤ t2) :
    renderMap tl t1 = renderMap tl t2 := by
  unfold renderMap
  have hf : ∀ t, (∀ a ∈ tl.actions, a.startTime + a.duration ≤ t) →
      activeActions tl t = tl.actions := by
    intro t ht
    unfold activeActions
    rw [List.filter_eq_self]
    intro a ha
    simp only [decide_eq_true_eq]
    have hda := hd a ha
    have hta := ht a ha
    linarith
  rw [hf t1 h1, hf t2 h2]
  refine foldActions_time_congr _ _ t1 t2 ?_
  intro a ha
  have ham := (mem_sortByStart a tl.actions).mp ha
  rw [progressAt_eq_one a t1 (hd a ham) (h1 a ham),
      progressAt_eq_one a t2 (hd a ham) (h2 a ham)]

/-- A pair that is not number/number dispatches to the generic arm. -/
theorem updateKey_to_gen (obj : VisualObject) (k : String) (s e : Val)
    (t easedT : ℝ) (hnn : ∀ rs re, ¬(s = .num rs ∧ e = .num re)) :
    updateKey obj k s e t easedT = updateKeyGen obj k s e t easedT := by
  rcases s with rs | ss | vs | ps | _ <;> rcases e with re | se | ve | pe | _
  · exact absurd ⟨rfl, rfl⟩ (hnn rs re)
  all_goals rfl

-- ---------------------------------------------------------------------
-- Concrete rotation-matrix computations
-- ---------------------------------------------------------------------

theorem createRotationMatrix_y90 :
    createRotationMatrix 0 (Real.pi / 2) 0
      = ⟨0, 0, 1, 0, 1, 0, -1, 0, 0⟩ := by
  unfold createRotationMatrix multiplyMatrices
  simp only [Real.cos_pi_div_two, Real.sin_pi_div_two, Real.cos_zero,
    Real.sin_zero]
  norm_num

theorem createRotationMatrix_x90 :
    createRotationMatrix (Real.pi / 2) 0 0
      = ⟨1, 0, 0, 0, 0, -1, 0, 1, 0⟩ := by
  unfold createRotationMatrix multiplyMatrices
  simp only [Real.cos_pi_div_two, Real.sin_pi_div_two, Real.cos_zero,
    Real.sin_zero]
  norm_num

theorem atan2_negone_zero : atan2 (-1 : ℝ) 0 = -(Real.pi / 2) := by
  unfold atan2
  rw [if_neg (lt_irrefl 0), if_neg (lt_irrefl 0),
      if_neg (by norm_num : ¬(0 : ℝ) < -1), if_pos (by norm_num : (-1 : ℝ) < 0)]

theorem atan2_one_zero : atan2 (1 : ℝ) 0 = Real.pi / 2 := by
  unfold atan2
  rw [if_neg (lt_irrefl 0), if_neg (lt_irrefl 0), if_pos one_pos]

/-- Parent Y-90 composed with child X-90 lands in the gimbal-lock arm
and yields the Euler triple `(0, pi/2, -pi/2)`. -/
theorem extractEuler_y90_x90 :
    extractEuler (multiplyMatrices (⟨0, 0, 1, 0, 1, 0, -1, 0, 0⟩ : Mat3)
        ⟨1, 0, 0, 0, 0, -1, 0, 1, 0⟩)
      = (0, Real.pi / 2, -(Real.pi / 2)) := by
  have hm : multiplyMatrices (⟨0, 0, 1, 0, 1, 0, -1, 0, 0⟩ : Mat3)
      ⟨1, 0, 0, 0, 0, -1, 0, 1, 0⟩ = ⟨0, 1, 0, 0, 0, -1, -1, 0, 0⟩ := by
    unfold multiplyMatrices
    norm_num
  rw [hm]
  show (if |(-1 : ℝ)| < 0.99999 then
      (atan2 (0 : ℝ) (0 : ℝ), -Real.arcsin (max (-1) (min 1 (-1 : ℝ))),
        atan2 (0 : ℝ) (0 : ℝ))
    else ((0 : ℝ), -Real.arcsin (max (-1) (min 1 (-1 : ℝ))),
      atan2 (-(1 : ℝ)) (0 : ℝ)))
    = ((0 : ℝ), Real.pi / 2, -(Real.pi / 2))
  rw [if_neg (by rw [abs_of_nonpos (by norm_num : (-1 : ℝ) ≤ 0)]; norm_num)]
  rw [show max (-1 : ℝ) (min 1 (-1 : ℝ)) = -1 by norm_num,
      Real.arcsin_neg_one, neg_neg, show -(1 : ℝ) = (-1 : ℝ) from rfl,
      atan2_negone_zero]

/-- Parent X-90 composed with child Y-90 takes the regular arm and
yields the Euler triple `(pi/2, 0, pi/2)`. -/
theorem extractEuler_x90_y90 :
    extractEuler (multiplyMatrices (⟨1, 0, 0, 0, 0, -1, 0, 1, 0⟩ : Mat3)
        ⟨0, 0, 1, 0, 1, 0, -1, 0, 0⟩)
      = (Real.pi / 2, 0, Real.pi / 2) := by
  have hm : multiplyMatrices (⟨1, 0, 0, 0, 0, -1, 0, 1, 0⟩ : Mat3)
      ⟨0, 0, 1, 0, 1, 0, -1, 0, 0⟩ = ⟨0, 0, 1, 1, 0, 0, 0, 1, 0⟩ := by
    unfold multiplyMatrices
    norm_num
  rw [hm]
  show (if |(0 : ℝ)| < 0.99999 then
      (atan2 (1 : ℝ) (0 : ℝ), -Real.arcsin (max (-1) (min 1 (0 : ℝ))),
        atan2 (1 : ℝ) (0 : ℝ))
    else ((0 : ℝ), -Real.arcsin (max (-1) (min 1 (0 : ℝ))),
      atan2 (-(0 : ℝ)) (0 : ℝ)))
    = (Real.pi / 2, (0 : ℝ), Real.pi / 2)
  rw [if_pos (by rw [abs_of_nonneg (le_refl (0 : ℝ))]; norm_num)]
  rw [show max (-1 : ℝ) (min 1 (0 : ℝ)) = 0 by norm_num, Real.arcsin_zero,
      neg_zero, atan2_one_zero]

/-- The Euler triple a resolved child carries, as the extraction of the
parent-by-child matrix product. -/
theorem transformChild_euler (o : VisualObject) (pt : PTransform) :
    ((transformChild o pt).rotationX, (transformChild o pt).rotationY,
      (transformChild o pt).rotation)
      = extractEuler (multiplyMatrices
          (createRotationMatrix pt.rotationX pt.rotationY pt.rotation)
          (createRotationMatrix o.rotationX o.rotationY o.rotation)) := rfl

-- ---------------------------------------------------------------------
-- The claims
-- ---------------------------------------------------------------------

/-- C6.  Unknown-id error policy with atomicity: every mutation verb
invoked with an object id absent from the builder's current-state cache
returns the `Object <id> not found` error and nothing else — in this
pure embedding of `throw`, an `.error` result carries no successor
state, so the action list, clock, and both object maps of the pre-call
state are untouched. -/
theorem claim_C6 (st : VideoContext) (target : TargetId)
    (props : List (String × Val)) (dur z deg ang factor strength
      sf endValue : ℝ) (easing color : String)
    (pos delta : VideoContext.PosArg) (center : Vector2)
    (dir : VideoContext.RotDir) (rv : VideoContext.ResizeVal)
    (options : VideoContext.GlowOptions)
    (hid : mapGet st.currentObjectStates (resolveId target) = none) :
    VideoContext.update st target props dur easing
        = .error (notFoundMsg (resolveId target)) ∧
    VideoContext.moveTo st target pos dur
        = .error (notFoundMsg (resolveId target)) ∧
    VideoContext.moveBy st target delta dur
        = .error (notFoundMsg (resolveId target)) ∧
    VideoContext.moveZ st target z dur
        = .error (notFoundMsg (resolveId target)) ∧
    VideoContext.arc st target center ang dur
        = .error (notFoundMsg (resolveId target)) ∧
    VideoContext.scaleTo st target factor dur
        = .error (notFoundMsg (resolveId target)) ∧
    VideoContext.rotate st target deg dur dir
        = .error (notFoundMsg (resolveId target)) ∧
    VideoContext.rotateBy st target deg dur
        = .error (notFoundMsg (resolveId target)) ∧
    VideoContext.resize st target rv dur
        = .error (notFoundMsg (resolveId target)) ∧
    VideoContext.changeColor st target color dur
        = .error (notFoundMsg (resolveId target)) ∧
    VideoContext.count st target endValue dur
        = .error (notFoundMsg (resolveId target)) ∧
    VideoContext.typeWriter st target dur
        = .error (notFoundMsg (resolveId target)) ∧
    VideoContext.wiggle st target dur strength
        = .error (notFoundMsg (resolveId target)) ∧
    VideoContext.pulse st target dur sf
        = .error (notFoundMsg (resolveId target)) ∧
    VideoContext.shake st target dur strength
        = .error (notFoundMsg (resolveId target)) ∧
    VideoContext.glow st target options dur
        = .error (notFoundMsg (resolveId target)) := by
  refine ⟨?_, ?_, ?_, ?_, ?_, ?_, ?_, ?_, ?_, ?_, ?_, ?_, ?_, ?_, ?_, ?_⟩
  · simp [VideoContext.update, hid]
  · simp [VideoContext.moveTo, VideoContext.update, hid]
  · simp [VideoContext.moveBy, hid]
  · simp [VideoContext.moveZ, VideoContext.update, hid]
  · simp [VideoContext.arc, hid]
  · simp [VideoContext.scaleTo, VideoContext.update, hid]
  · simp [VideoContext.rotate, hid]
  · simp [VideoContext.rotateBy, hid]
  · simp [VideoContext.resize, hid]
  · simp [VideoContext.changeColor, VideoContext.update, hid]
  · simp [VideoContext.count, hid]
  · simp [VideoContext.typeWriter, hid]
  · simp [VideoContext.wiggle, hid]
  · simp [VideoContext.pulse, hid]
  · simp [VideoContext.shake, hid]
  · simp [VideoContext.glow, hid]

theorem claim_C6_witness :
    VideoContext.update {} (.plain "ghost") [] 1 "linear"
        = .error (notFoundMsg "ghost") ∧
    VideoContext.count {} (.plain "ghost") 5 1
        = .error (notFoundMsg "ghost") := by
  have h := claim_C6 {} (.plain "ghost") [] 1 0 0 0 0 0 0 5 "linear" "red"
    {} {} ⟨0, 0⟩ .SHORT (.scalar 1) {} rfl
  exact ⟨h.1, h.2.2.2.2.2.2.2.2.2.2.1⟩

/-- C10.  `addScene` does not advance the outer virtual clock: whenever
it succeeds, the returned builder state carries the pre-call
`currentTime`, even though the imported sub-scene actions are
time-shifted by that value and may extend past it. -/
theorem claim_C10 (st : VideoContext)
    (sceneFn : VideoContext → Except String VideoContext)
    (props : VideoContext.SceneProps) (gid : String) (st' : VideoContext)
    (h : VideoContext.addScene st sceneFn props = .ok (gid, st')) :
    st'.currentTime = st.currentTime := by
  unfold VideoContext.addScene at h
  cases hsf : sceneFn {} with
  | error e => rw [hsf] at h; cases h
  | ok sub =>
    rw [hsf] at h
    simp only [Except.ok.injEq, Prod.mk.injEq] at h
    obtain ⟨-, hst⟩ := h
    rw [← hst]
    have hfold : ∀ {β : Type} (f : VideoContext → β → VideoContext),
        (∀ s b, (f s b).currentTime = s.currentTime) →
        ∀ (l : List β) (s : VideoContext),
          (l.foldl f s).currentTime = s.currentTime := by
      intro β f hf l
      induction l with
      | nil => intro s; rfl
      | cons b rest ih =>
        intro s
        rw [List.foldl_cons, ih, hf]
    refine Eq.trans (hfold _ ?_ _ _) (Eq.trans (hfold _ ?_ _ _) rfl)
    · intro s b; rfl
    · intro s b; rfl

theorem claim_C10_witness :
    (sceneResC10 = Except.ok ("obj0", stC10) ∧ stC10.currentTime = (0 : ℝ)) ∧
    ∃ a ∈ (VideoContext.getTimeline stC10).actions,
      (VideoContext.getTimeline stC10).duration
        < a.startTime + a.duration := by
  constructor
  · exact ⟨rfl, claim_C10 {} sceneFnC10 { x := 0, y := 0 } "obj0" stC10 rfl⟩
  · refine ⟨{ type := .update [("opacity", Val.num 1)] [("opacity", Val.num 0)],
              objectId := some "obj0", startTime := 0 + 0, duration := 5,
              easing := some "easeInOutCubic" }, ?_, ?_⟩
    · rw [show (VideoContext.getTimeline stC10).actions
          = [{ type := .create, objectId := some "obj0", startTime := 0,
               duration := 0 },
             { type := .create, objectId := some "obj0", startTime := 0 + 0,
               duration := 0 },
             { type := .update [("opacity", Val.num 1)] [("opacity", Val.num 0)],
               objectId := some "obj0", startTime := 0 + 0, duration := 5,
               easing := some "easeInOutCubic" }] from rfl]
      exact List.mem_cons_of_mem _ (List.mem_cons_of_mem _
        (List.mem_cons_self _ _))
    · rw [show (VideoContext.getTimeline stC10).duration = 0 from rfl]
      norm_num

/-- The one-action shape of a successful generic `update`: when the
target id is present and the payload requests no anchor change, the verb
appends exactly one action stamped with the pre-call clock as its start
time, advances the clock by the duration, and keeps the target id
present in the state cache. -/
theorem update_ok_shape (s : VideoContext) (id : String)
    (props : List (String × Val)) (d : ℝ) (e : String) (cur : VisualObject)
    (hcur : mapGet s.currentObjectStates id = some cur)
    (hanchor : lookupVal props "anchor" = Val.undef) :
    ∃ act s1, VideoContext.update s (.plain id) props d e = .ok s1 ∧
      act.startTime = s.currentTime ∧
      s1.actions = s.actions ++ [act] ∧
      s1.currentTime = s.currentTime + d ∧
      (mapGet s1.currentObjectStates id).isSome := by
  simp only [VideoContext.update, resolveId, hcur]
  rw [if_neg (fun hc => hc.1 hanchor)]
  refine ⟨{ type := .update (props.map (fun p => (p.1, getVal cur p.1))) props,
            objectId := some id, startTime := s.currentTime, duration := d,
            easing := some e }, _, rfl, rfl, rfl, rfl, ?_⟩
  rw [mapGet_mapSet]
  simp

/-- The task loop resets the clock to `start` before each task,
accumulates the running maximum of the task durations, and collects the
action lists the tasks append; each task's first appended action is
stamped with `start`.  The invariant `I` (preserved by the tasks,
insensitive to the clock reset) carries what the tasks need of the
state, such as the presence of their target object. -/
theorem playTogetherGo_spec (start : ℝ) (I : VideoContext → Prop)
    (hreset : ∀ s, I s → I { s with currentTime := start })
    (tasks : List (VideoContext → Except String VideoContext)) (ds : List ℝ)
    (h : List.Forall₂ (fun τ d => ∀ s : VideoContext,
      s.currentTime = start → I s →
      ∃ s' as, τ s = .ok s' ∧ I s' ∧ s'.currentTime = start + d ∧
        s'.actions = s.actions ++ as ∧
        ∀ a ∈ as.head?, a.startTime = s.currentTime) tasks ds) :
    ∀ (st : VideoContext) (maxd : ℝ), I st →
      ∃ st' m, ∃ ass : List (List Action),
        playTogetherGo start tasks st maxd = .ok (st', m) ∧
        m = ds.foldl max maxd ∧ ass.length = tasks.length ∧
        st'.actions = st.actions ++ ass.flatten ∧
        ∀ as ∈ ass, ∀ a ∈ as.head?, a.startTime = start := by
  induction h with
  | nil =>
    intro st maxd _
    exact ⟨st, maxd, [], rfl, rfl, rfl, by simp, by simp⟩
  | @cons τ d rest ds1 hτ _ ih =>
    intro st maxd hst
    obtain ⟨s1, as1, hs1, hI1, hc1, hact1, hhead1⟩ :=
      hτ { st with currentTime := start } rfl (hreset st hst)
    obtain ⟨st', m, ass, hgo, hm, hlen, hacts, hheads⟩ := ih s1
      (if maxd < s1.currentTime - start then s1.currentTime - start else maxd)
      hI1
    refine ⟨st', m, as1 :: ass, ?_, ?_, ?_, ?_, ?_⟩
    · simp only [playTogetherGo, hs1]
      exact hgo
    · rw [hm, List.foldl_cons]
      congr 1
      rw [hc1, show start + d - start = d by ring]
      rcases le_or_lt d maxd with hle | hlt
      · rw [if_neg (not_lt.mpr hle), max_eq_left hle]
      · rw [if_pos hlt, max_eq_right (le_of_lt hlt)]
    · simp [hlen]
    · rw [hacts, hact1]
      show st.actions ++ as1 ++ ass.flatten = _
      rw [List.append_assoc, List.flatten_cons]
    · intro as has a ha
      rcases List.mem_cons.mp has with rfl | hmem
      · exact hhead1 a ha
      · exact hheads as hmem a ha

/-- C4.  `playTogether` clock and start-time bookkeeping: each task is
invoked with the virtual clock reset to the pre-call value (the
characterization of the tasks is only assumed on such states), the
returned builder's clock is the pre-call value plus the running maximum
of the per-task clock advances seeded with 0, the final action list is
the pre-call list extended by the tasks' emitted action lists, and the
first action emitted by each task carries the shared pre-call clock
value as its start time. -/
theorem claim_C4 (st : VideoContext) (I : VideoContext → Prop)
    (tasks : List (VideoContext → Except String VideoContext)) (ds : List ℝ)
    (hI : I st)
    (hreset : ∀ s, I s → I { s with currentTime := st.currentTime })
    (h : List.Forall₂ (fun τ d => ∀ s : VideoContext,
      s.currentTime = st.currentTime → I s →
      ∃ s' as, τ s = .ok s' ∧ I s' ∧
        s'.currentTime = st.currentTime + d ∧
        s'.actions = s.actions ++ as ∧
        ∀ a ∈ as.head?, a.startTime = s.currentTime) tasks ds) :
    ∃ st', ∃ ass : List (List Action),
      VideoContext.playTogether st tasks = .ok st' ∧
      st'.currentTime = st.currentTime + ds.foldl max 0 ∧
      ass.length = tasks.length ∧
      st'.actions = st.actions ++ ass.flatten ∧
      ∀ as ∈ ass, ∀ a ∈ as.head?, a.startTime = st.currentTime := by
  obtain ⟨s', m, ass, hgo, hm, hlen, hacts, hheads⟩ :=
    playTogetherGo_spec st.currentTime I hreset tasks ds h st 0 hI
  refine ⟨{ s' with currentTime := st.currentTime + m }, ass, ?_,
    by rw [hm], hlen, hacts, hheads⟩
  simp only [VideoContext.playTogether, hgo]

theorem claim_C4_witness :
    ∃ st', ∃ ass : List (List Action),
      VideoContext.playTogether stC9base [moveTaskC4 10 2, moveTaskC4 20 5] =
        .ok st' ∧
      st'.currentTime = (5 : ℝ) ∧ ass.length = 2 ∧
      st'.actions = stC9base.actions ++ ass.flatten ∧
      ∀ as ∈ ass, ∀ a ∈ as.head?, a.startTime = (0 : ℝ) := by
  have htask : ∀ x d : ℝ, ∀ s : VideoContext,
      s.currentTime = stC9base.currentTime →
      (mapGet s.currentObjectStates "obj0").isSome →
      ∃ s', ∃ as : List Action, moveTaskC4 x d s = .ok s' ∧
        (mapGet s'.currentObjectStates "obj0").isSome ∧
        s'.currentTime = stC9base.currentTime + d ∧
        s'.actions = s.actions ++ as ∧
        ∀ a ∈ as.head?, a.startTime = s.currentTime := by
    intro x d s hct hs
    obtain ⟨cur, hcur⟩ := Option.isSome_iff_exists.mp hs
    obtain ⟨act, s1, hupd, hstart, hact, hclock, hsome⟩ :=
      update_ok_shape s "obj0" [("x", Val.num x)] d "easeInOutCubic" cur hcur
        rfl
    refine ⟨s1, [act], hupd, hsome, ?_, hact, ?_⟩
    · rw [hclock, hct]
    · intro a ha
      rw [Option.mem_def] at ha
      obtain rfl := Option.some.inj ha
      exact hstart
  obtain ⟨st', ass, hok, hct, hlen, hacts, hheads⟩ :=
    claim_C4 stC9base (fun s => (mapGet s.currentObjectStates "obj0").isSome)
      [moveTaskC4 10 2, moveTaskC4 20 5] [2, 5] rfl (fun s hs => hs)
      (List.Forall₂.cons (htask 10 2) (List.Forall₂.cons (htask 20 5)
        List.Forall₂.nil))
  refine ⟨st', ass, hok, ?_, hlen, hacts, ?_⟩
  · rw [hct, show stC9base.currentTime = (0 : ℝ) from rfl]
    simp only [List.foldl_cons, List.foldl_nil]
    rw [max_eq_right (by norm_num : (0 : ℝ) ≤ 2),
        max_eq_right (by norm_num : (2 : ℝ) ≤ 5)]
    norm_num
  · intro as has a ha
    rw [show (0 : ℝ) = stC9base.currentTime from rfl]
    exact hheads as has a ha

/-- C7.  Evaluator totality and clamping: the evaluator is a total
function of the timeline and the query time; per-action progress is 1
for a zero duration and clamped to `[0, 1]` otherwise; an unrecognized
easing name falls back to the identity; a query before every start time
renders the resolved pure initial states; and any two queries at or
past every action's end render the same settled scene. -/
theorem claim_C7 (tl : TimelineData) (a : Action) (time : ℝ) (nm : String)
    (t t1 t2 : ℝ) :
    (a.duration = 0 → progressAt a time = 1) ∧
    (0 ≤ progressAt a time ∧ progressAt a time ≤ 1) ∧
    (lookupEasing nm = none →
      easedAt (some nm) (progressAt a time) = progressAt a time) ∧
    ((∀ b ∈ tl.actions, t < b.startTime) →
      renderSceneAtTime tl t = resolveHierarchy tl.objects) ∧
    ((∀ b ∈ tl.actions, 0 ≤ b.duration) →
      (∀ b ∈ tl.actions, b.startTime + b.duration ≤ t1) →
      (∀ b ∈ tl.actions, b.startTime + b.duration ≤ t2) →
      renderSceneAtTime tl t1 = renderSceneAtTime tl t2) := by
  refine ⟨?_, progressAt_mem a time, ?_, renderSceneAtTime_early tl t, ?_⟩
  · intro h0
    unfold progressAt
    rw [if_pos h0]
  · intro hnone
    simp only [easedAt, hnone]
  · intro hd h1 h2
    unfold renderSceneAtTime
    rw [renderMap_late_eq tl t1 t2 hd h1 h2]

theorem claim_C7_witness :
    progressAt actC7 3 = 1 ∧
    easedAt (some "bogus") (progressAt actC7 3) = progressAt actC7 3 ∧
    renderSceneAtTime tlC7 (-1) = resolveHierarchy tlC7.objects ∧
    renderSceneAtTime tlC7 5 = renderSceneAtTime tlC7 6 := by
  have h := claim_C7 tlC7 actC7 3 "bogus" (-1) 5 6
  refine ⟨h.1 rfl, h.2.2.1 rfl,
    h.2.2.2.1 (fun b hb => absurd hb (by simp [tlC7])),
    h.2.2.2.2 (fun b hb => absurd hb (by simp [tlC7]))
      (fun b hb => absurd hb (by simp [tlC7]))
      (fun b hb => absurd hb (by simp [tlC7]))⟩

/-- C8.  3-D rotation composition is matrix-based and non-commutative:
resolving a child carrying a 90-degree X rotation under a parent
carrying a 90-degree Y rotation yields the Euler triple
`(0, pi/2, -pi/2)` (through the gimbal-lock fallback), while the
reverse nesting yields `(pi/2, 0, pi/2)` — different triples, unlike
componentwise Euler addition, which would give the same answer in both
orders. -/
theorem claim_C8 :
    ((transformChild objX90 ptY90).rotationX,
      (transformChild objX90 ptY90).rotationY,
      (transformChild objX90 ptY90).rotation)
      ≠ ((transformChild objY90 ptX90).rotationX,
          (transformChild objY90 ptX90).rotationY,
          (transformChild objY90 ptX90).rotation) ∧
    ((transformChild objX90 ptY90).rotationX,
      (transformChild objX90 ptY90).rotationY,
      (transformChild objX90 ptY90).rotation)
      = (0, Real.pi / 2, -(Real.pi / 2)) ∧
    ((transformChild objY90 ptX90).rotationX,
      (transformChild objY90 ptX90).rotationY,
      (transformChild objY90 ptX90).rotation)
      = (Real.pi / 2, 0, Real.pi / 2) := by
  have h1 : ((transformChild objX90 ptY90).rotationX,
      (transformChild objX90 ptY90).rotationY,
      (transformChild objX90 ptY90).rotation)
      = ((0 : ℝ), Real.pi / 2, -(Real.pi / 2)) := by
    rw [transformChild_euler]
    show extractEuler (multiplyMatrices (createRotationMatrix 0 (Real.pi / 2) 0)
      (createRotationMatrix (Real.pi / 2) 0 0)) = _
    rw [createRotationMatrix_y90, createRotationMatrix_x90,
        extractEuler_y90_x90]
  have h2 : ((transformChild objY90 ptX90).rotationX,
      (transformChild objY90 ptX90).rotationY,
      (transformChild objY90 ptX90).rotation)
      = (Real.pi / 2, (0 : ℝ), Real.pi / 2) := by
    rw [transformChild_euler]
    show extractEuler (multiplyMatrices (createRotationMatrix (Real.pi / 2) 0 0)
      (createRotationMatrix 0 (Real.pi / 2) 0)) = _
    rw [createRotationMatrix_x90, createRotationMatrix_y90,
        extractEuler_x90_y90]
  refine ⟨?_, h1, h2⟩
  rw [h1, h2]
  intro hcontra
  have h0 : (0 : ℝ) = Real.pi / 2 := congrArg Prod.fst hcontra
  have hple : Real.pi ≤ 0 := by linarith
  exact absurd Real.pi_pos (not_lt.mpr hple)

/-- C2 (amended).  In the evaluator's generic update rule, a color-like
key (`color`, `borderColor`, `backgroundColor`) whose value pair is not
number/number switches discretely from the start value to the end value
exactly when the RAW progress reaches 0.5, irrespective of the eased
progress — hence for every easing function in the registry.  (The
source tests `t >= 0.5` on the raw progress, not on `easedT` as the
specification states.) -/
theorem claim_C2 (obj : VisualObject) (k : String)
    (hk : k = "color" ∨ k = "borderColor" ∨ k = "backgroundColor")
    (s e : Val) (hnn : ∀ rs re, ¬(s = .num rs ∧ e = .num re))
    (t easedT : ℝ) :
    getVal (updateKey obj k s e t easedT) k
      = if 0.5 ≤ t then e else s := by
  rw [updateKey_to_gen obj k s e t easedT hnn]
  unfold updateKeyGen
  rw [if_pos hk]
  refine getVal_setVal_typed obj k _ (Or.inr (Or.inr (Or.inl ?_)))
  rcases hk with h | h | h <;> simp [colorKeys, h]

theorem claim_C2_witness :
    getVal (updateKey (objW "a") "color" (Val.str "red") (Val.str "blue")
      (7 / 10) 0) "color" = Val.str "blue" := by
  rw [claim_C2 (objW "a") "color" (Or.inl rfl) (Val.str "red")
    (Val.str "blue") (fun rs re h => Val.noConfusion h.1) (7 / 10) 0]
  rw [if_pos (by norm_num : (0.5 : ℝ) ≤ 7 / 10)]

theorem progressC2 : progressAt actC2 (3 / 5) = 3 / 5 := by
  unfold progressAt
  rw [if_neg (show ¬actC2.duration = 0 by norm_num [actC2])]
  rw [show ((3 : ℝ) / 5 - actC2.startTime) / actC2.duration = 3 / 5 by
    norm_num [actC2]]
  unfold clamp01
  rw [max_eq_left (by norm_num : (0 : ℝ) ≤ 3 / 5),
      min_eq_left (by norm_num : (3 : ℝ) / 5 ≤ 1)]

theorem renderMapC2 : renderMap tlC2 (3 / 5)
    = [("a", setVal (objW "a") "color" (Val.str "blue"))] := by
  have hact : activeActions tlC2 (3 / 5) = [actC2] := by
    have hacts : tlC2.actions = [actC2] := rfl
    unfold activeActions
    rw [hacts, List.filter_eq_self]
    intro b hb
    rw [List.mem_singleton.mp hb]
    simp only [decide_eq_true_eq]
    norm_num [actC2]
  unfold renderMap
  rw [hact, show sortByStart [actC2] = [actC2] from rfl]
  rw [show List.foldl (fun m a => applyActionToMap m a (3 / 5))
    tlC2.objects [actC2] = applyActionToMap tlC2.objects actC2 (3 / 5)
    from rfl]
  rw [applyActionToMap_target tlC2.objects actC2 (3 / 5) "a" (objW "a")
    rfl rfl]
  rw [show applyKind (objW "a") actC2.type (progressAt actC2 (3 / 5))
      (easedAt actC2.easing (progressAt actC2 (3 / 5)))
    = updateKey (objW "a") "color" (Val.str "red") (Val.str "blue")
      (progressAt actC2 (3 / 5))
      (easedAt actC2.easing (progressAt actC2 (3 / 5))) from rfl]
  rw [updateKey_to_gen _ _ _ _ _ _ (fun rs re h => Val.noConfusion h.1)]
  unfold updateKeyGen
  rw [if_pos (Or.inl rfl : "color" = "color" ∨ "color" = "borderColor"
    ∨ "color" = "backgroundColor")]
  rw [if_pos (show (0.5 : ℝ) ≤ progressAt actC2 (3 / 5) by
    rw [progressC2]; norm_num)]
  rfl

/-- Refuting the frozen C2: with `easeInQuad` at raw progress `3/5` the
eased progress is `9/25 < 1/2`, yet the full evaluator already renders
the END color — the switch did not wait for eased progress 0.5. -/
theorem claim_C2_cx :
    easedAt actC2.easing (progressAt actC2 (3 / 5)) < 1 / 2 ∧
    ∃ w, mapGet (renderMap tlC2 (3 / 5)) "a" = some w ∧
      w.color = Val.str "blue" := by
  constructor
  · rw [show easedAt actC2.easing (progressAt actC2 (3 / 5))
        = Easings.easeInQuad (progressAt actC2 (3 / 5)) from rfl]
    rw [progressC2]
    norm_num [Easings.easeInQuad]
  · refine ⟨setVal (objW "a") "color" (Val.str "blue"), ?_, rfl⟩
    rw [renderMapC2, mapGet_cons, if_pos rfl]

/-- C3 (amended).  Boundary settling: any action queried at or past its
end, whose target exists and whose written keys no later action in the
evaluator's sorted order touches, leaves its target in the settled
state — the end value for every kind except Wiggle/Pulse/Shake, which
return to the captured base, and Count, whose text shows the rounded
end value. -/
theorem claim_C3 (tl : TimelineData) (a : Action) (oid : String) (t : ℝ)
    (l1 l2 : List Action)
    (hsort : sortByStart (activeActions tl t) = l1 ++ a :: l2)
    (hoid : a.objectId = some oid)
    (hok : ActionPayloadOK a.type)
    (hd : 0 ≤ a.duration)
    (hend : a.startTime + a.duration ≤ t)
    (hmem : (mapGet tl.objects oid).isSome)
    (hnointerf : ∀ b ∈ l2, b.objectId = some oid →
      ∀ p ∈ writesKeys a.type, p ∉ writesKeys b.type) :
    ∃ w, mapGet (renderMap tl t) oid = some w ∧ settledAt a.type w := by
  have hmem1 : (mapGet (l1.foldl (fun m b => applyActionToMap m b t)
      tl.objects) oid).isSome := by
    rw [← mem_keys_iff_isSome, foldActions_keys, mem_keys_iff_isSome]
    exact hmem
  obtain ⟨obj1, hobj1⟩ := Option.isSome_iff_exists.mp hmem1
  have hprog : progressAt a t = 1 := progressAt_eq_one a t hd hend
  have hw0 : mapGet (applyActionToMap (l1.foldl
      (fun m b => applyActionToMap m b t) tl.objects) a t) oid
      = some (applyKind obj1 a.type 1 1) := by
    rw [applyActionToMap_target _ a t oid obj1 hoid hobj1, hprog,
        easedAt_one, mapGet_mapSet, if_pos rfl]
  have hsettle : settledAt a.type (applyKind obj1 a.type 1 1) :=
    applyKind_settles obj1 a.type hok
  obtain ⟨w, hw, hpres⟩ := foldActions_preserves l2 _ t oid
    (writesKeys a.type) _ hnointerf hw0
  refine ⟨w, ?_, settledAt_transfer a.type _ w hpres hsettle⟩
  show mapGet ((sortByStart (activeActions tl t)).foldl
    (fun m b => applyActionToMap m b t) tl.objects) oid = some w
  rw [hsort, List.foldl_append, List.foldl_cons]
  exact hw

theorem claim_C3_witness :
    ∃ w, mapGet (renderMap tlC3 2) "a" = some w ∧
      settledAt actC3.type w := by
  have hact : activeActions tlC3 2 = [actC3] := by
    have hacts : tlC3.actions = [actC3] := rfl
    unfold activeActions
    rw [hacts, List.filter_eq_self]
    intro b hb
    rw [List.mem_singleton.mp hb]
    simp only [decide_eq_true_eq]
    norm_num [actC3]
  refine claim_C3 tlC3 actC3 "a" 2 [] [] ?_ rfl trivial
    (by norm_num [actC3]) (by norm_num [actC3]) rfl
    (fun b hb => absurd hb (List.not_mem_nil b))
  rw [hact]
  rfl

theorem renderMapC3 : renderMap tlC3 2
    = [("a", { objW "a" with text := some "3" })] := by
  have hact : activeActions tlC3 2 = [actC3] := by
    have hacts : tlC3.actions = [actC3] := rfl
    unfold activeActions
    rw [hacts, List.filter_eq_self]
    intro b hb
    rw [List.mem_singleton.mp hb]
    simp only [decide_eq_true_eq]
    norm_num [actC3]
  have hprog : progressAt actC3 2 = 1 :=
    progressAt_eq_one actC3 2 (by norm_num [actC3]) (by norm_num [actC3])
  unfold renderMap
  rw [hact, show sortByStart [actC3] = [actC3] from rfl]
  rw [show List.foldl (fun m a => applyActionToMap m a 2)
    tlC3.objects [actC3] = applyActionToMap tlC3.objects actC3 2 from rfl]
  rw [applyActionToMap_target tlC3.objects actC3 2 "a" (objW "a") rfl rfl]
  rw [hprog, easedAt_one]
  rw [show actC3.type = AKind.count 0 (5 / 2) from rfl]
  rw [applyKind_count (objW "a") 0 (5 / 2) 1 1]
  rw [show (0 : ℝ) + (5 / 2 - 0) * 1 = 5 / 2 by norm_num]
  rw [show jsRound ((5 : ℝ) / 2) = 3 by
    unfold jsRound
    rw [show (5 : ℝ) / 2 + 1 / 2 = ((3 : ℤ) : ℝ) by norm_num]
    exact Int.floor_intCast 3]
  rfl

/-- Refuting the frozen C3: a Count action to the end value `5/2`
renders the text `"3"` past its end — `Math.round` of the end value,
not the end value exactly. -/
theorem claim_C3_cx :
    (∃ w, mapGet (renderMap tlC3 2) "a" = some w ∧ w.text = some "3") ∧
    actC3.type = .count 0 (5 / 2) ∧ ((5 : ℝ) / 2 ≠ 3) := by
  refine ⟨⟨{ objW "a" with text := some "3" }, ?_, rfl⟩, rfl, by norm_num⟩
  rw [renderMapC3, mapGet_cons, if_pos rfl]

/-- C1.  Arc circular-path invariant: the object rendered for an arc
action's target — parentless, well keyed, and never stripped of its
identity or parent reference by any action, with no later sorted action
writing its position — lies at exactly distance `r` from the snapshot
pivot, whatever the query time and for every easing function (the
easing only moves the point along the circle). -/
theorem claim_C1 (tl : TimelineData) (a : Action) (oid : String) (t : ℝ)
    (cX cY r sa delta : ℝ) (l1 l2 : List Action) (obj0 : VisualObject)
    (hsort : sortByStart (activeActions tl t) = l1 ++ a :: l2)
    (harc : a.type = .arc cX cY r sa delta)
    (hoid : a.objectId = some oid)
    (hmem : mapGet tl.objects oid = some obj0)
    (hop : obj0.parentId = none)
    (hnd : (keys tl.objects).Nodup)
    (hwk : ∀ e ∈ tl.objects, e.2.id = e.1)
    (hId : ∀ b ∈ tl.actions, "id" ∉ writesKeys b.type)
    (hPar : ∀ b ∈ tl.actions, b.objectId = some oid →
      "parentId" ∉ writesKeys b.type)
    (hl2 : ∀ b ∈ l2, b.objectId = some oid →
      "x" ∉ writesKeys b.type ∧ "y" ∉ writesKeys b.type)
    (hr : 0 ≤ r) :
    ∃ w ∈ renderSceneAtTime tl t, w.id = oid ∧
      Real.sqrt ((w.x - cX) ^ 2 + (w.y - cY) ^ 2) = r := by
  have hsub : ∀ b ∈ l1 ++ a :: l2, b ∈ tl.actions := by
    intro b hb
    rw [← hsort] at hb
    exact mem_activeActions tl t b ((mem_sortByStart b _).mp hb)
  have hK1 : ∀ b ∈ l1, b.objectId = some oid →
      ∀ p ∈ (["id", "parentId"] : List String), p ∉ writesKeys b.type := by
    intro b hb hbo p hp
    have hbm := hsub b (List.mem_append_left _ hb)
    rcases List.mem_cons.mp hp with h1 | h2
    · subst h1; exact hId b hbm
    · rw [List.mem_singleton.mp h2]; exact hPar b hbm hbo
  obtain ⟨obj1, hobj1, hpres1⟩ := foldActions_preserves l1 tl.objects t oid
    ["id", "parentId"] obj0 hK1 hmem
  have hid1 : obj1.id = obj0.id := by
    have h := hpres1 "id" (by simp)
    rw [getVal_key_id, getVal_key_id] at h
    exact Val.str.inj h
  have hpar1 : obj1.parentId = obj0.parentId := by
    have h := hpres1 "parentId" (by simp)
    rw [getVal_key_parentId, getVal_key_parentId] at h
    exact optionStr_getD_inj _ _ h
  have hw0 : mapGet (applyActionToMap (l1.foldl
      (fun m b => applyActionToMap m b t) tl.objects) a t) oid
      = some (applyKind obj1 a.type (progressAt a t)
          (easedAt a.easing (progressAt a t))) := by
    rw [applyActionToMap_target _ a t oid obj1 hoid hobj1, mapGet_mapSet,
        if_pos rfl]
  have harcapp : applyKind obj1 a.type (progressAt a t)
      (easedAt a.easing (progressAt a t))
      = setVal (setVal obj1 "x" (.num (cX + r * Real.cos
          (sa + delta * easedAt a.easing (progressAt a t))))) "y"
          (.num (cY + r * Real.sin
            (sa + delta * easedAt a.easing (progressAt a t)))) := by
    rw [harc, applyKind_arc]
  have hx0 : getVal (applyKind obj1 a.type (progressAt a t)
      (easedAt a.easing (progressAt a t))) "x"
      = .num (cX + r * Real.cos
          (sa + delta * easedAt a.easing (progressAt a t))) := by
    rw [harcapp, getVal_setVal_ne _ "y" _ "x" (by decide)]
    exact getVal_setVal_typed _ "x" _ (Or.inl ⟨by simp [numericKeys], _, rfl⟩)
  have hy0 : getVal (applyKind obj1 a.type (progressAt a t)
      (easedAt a.easing (progressAt a t))) "y"
      = .num (cY + r * Real.sin
          (sa + delta * easedAt a.easing (progressAt a t))) := by
    rw [harcapp]
    exact getVal_setVal_typed _ "y" _ (Or.inl ⟨by simp [numericKeys], _, rfl⟩)
  have hid0 : getVal (applyKind obj1 a.type (progressAt a t)
      (easedAt a.easing (progressAt a t))) "id" = .str obj0.id := by
    rw [harcapp, getVal_setVal_ne _ "y" _ "id" (by decide),
        getVal_setVal_ne _ "x" _ "id" (by decide), getVal_key_id, hid1]
  have hpar0 : getVal (applyKind obj1 a.type (progressAt a t)
      (easedAt a.easing (progressAt a t))) "parentId"
      = (Option.map Val.str obj0.parentId).getD .undef := by
    rw [harcapp, getVal_setVal_ne _ "y" _ "parentId" (by decide),
        getVal_setVal_ne _ "x" _ "parentId" (by decide),
        getVal_key_parentId, hpar1]
  have hK2 : ∀ b ∈ l2, b.objectId = some oid →
      ∀ p ∈ (["x", "y", "id", "parentId"] : List String),
        p ∉ writesKeys b.type := by
    intro b hb hbo p hp
    have hbm := hsub b (List.mem_append_right _ (List.mem_cons_of_mem a hb))
    simp only [List.mem_cons, List.not_mem_nil, or_false] at hp
    rcases hp with rfl | rfl | rfl | rfl
    · exact (hl2 b hb hbo).1
    · exact (hl2 b hb hbo).2
    · exact hId b hbm
    · exact hPar b hbm hbo
  obtain ⟨w, hwget, hpres2⟩ := foldActions_preserves l2 _ t oid
    ["x", "y", "id", "parentId"] _ hK2 hw0
  have hfinal : mapGet (renderMap tl t) oid = some w := by
    show mapGet ((sortByStart (activeActions tl t)).foldl
      (fun m b => applyActionToMap m b t) tl.objects) oid = some w
    rw [hsort, List.foldl_append, List.foldl_cons]
    exact hwget
  have hwx : w.x = cX + r * Real.cos
      (sa + delta * easedAt a.easing (progressAt a t)) := by
    have h := (hpres2 "x" (by simp)).trans hx0
    rw [getVal_key_x] at h
    exact Val.num.inj h
  have hwy : w.y = cY + r * Real.sin
      (sa + delta * easedAt a.easing (progressAt a t)) := by
    have h := (hpres2 "y" (by simp)).trans hy0
    rw [getVal_key_y] at h
    exact Val.num.inj h
  have hwid : w.id = oid := by
    have h := (hpres2 "id" (by simp)).trans hid0
    rw [getVal_key_id] at h
    rw [Val.str.inj h]
    exact hwk (oid, obj0) (mem_of_mapGet_eq_some _ _ _ hmem)
  have hwpar : w.parentId = none := by
    have h := (hpres2 "parentId" (by simp)).trans hpar0
    rw [getVal_key_parentId] at h
    rw [optionStr_getD_inj _ _ h, hop]
  have hnd' : (keys (renderMap tl t)).Nodup := by
    rw [renderMap_keys]; exact hnd
  have hwk' := renderMap_wellKeyed tl t hnd hwk hId
  refine ⟨w, ?_, hwid, ?_⟩
  · show w ∈ resolveHierarchy (renderMap tl t)
    exact (resolveHierarchy_root (renderMap tl t) oid w hnd' hwk'
      hfinal hwpar).1
  · rw [hwx, hwy]
    rw [show cX + r * Real.cos
        (sa + delta * easedAt a.easing (progressAt a t)) - cX
      = r * Real.cos (sa + delta * easedAt a.easing (progressAt a t))
      by ring]
    rw [show cY + r * Real.sin
        (sa + delta * easedAt a.easing (progressAt a t)) - cY
      = r * Real.sin (sa + delta * easedAt a.easing (progressAt a t))
      by ring]
    rw [show (r * Real.cos (sa + delta * easedAt a.easing (progressAt a t)))
          ^ 2
        + (r * Real.sin (sa + delta * easedAt a.easing (progressAt a t)))
          ^ 2
      = r ^ 2 * ((Real.sin (sa + delta * easedAt a.easing (progressAt a t)))
          ^ 2
        + (Real.cos (sa + delta * easedAt a.easing (progressAt a t))) ^ 2)
      by ring]
    rw [Real.sin_sq_add_cos_sq, mul_one, Real.sqrt_sq hr]

theorem claim_C1_witness :
    ∃ w ∈ renderSceneAtTime tlC1 (1 / 2), w.id = "a" ∧
      Real.sqrt ((w.x - 0) ^ 2 + (w.y - 0) ^ 2) = 1 := by
  have hact : activeActions tlC1 (1 / 2) = [actC1] := by
    have hacts : tlC1.actions = [actC1] := rfl
    unfold activeActions
    rw [hacts, List.filter_eq_self]
    intro b hb
    rw [List.mem_singleton.mp hb]
    simp only [decide_eq_true_eq]
    norm_num [actC1]
  refine claim_C1 tlC1 actC1 "a" (1 / 2) 0 0 1 0 Real.pi [] [] (objW "a")
    ?_ rfl rfl rfl rfl
    (by rw [show keys tlC1.objects = ["a"] from rfl]; simp) ?_ ?_ ?_
    (fun b hb _ => absurd hb (List.not_mem_nil b)) (by norm_num)
  · rw [hact]
    rfl
  · intro e he
    rw [List.mem_singleton.mp he]
    rfl
  · intro b hb
    have hacts : tlC1.actions = [actC1] := rfl
    rw [hacts] at hb
    rw [List.mem_singleton.mp hb]
    show "id" ∉ (["x", "y"] : List String)
    decide
  · intro b hb _
    have hacts : tlC1.actions = [actC1] := rfl
    rw [hacts] at hb
    rw [List.mem_singleton.mp hb]
    show "parentId" ∉ (["x", "y"] : List String)
    decide

/-- C9 (amended).  One output entry per object: when the timeline's
keys are distinct, its entries are keyed by their objects' ids, every
parent chain is rooted, and no action writes `id` or `parentId`, the
ids rendered by the evaluator are a permutation of the initial object
keys at every query time — in particular every object exists at all
query times, including before its creation action's start (CREATE has
no evaluator effect and the full initial map seeds the working set).
The restriction on `parentId` writes is necessary: a generic UPDATE can
re-point `parentId` at a dangling id, after which the object vanishes
from the output. -/
theorem claim_C9 (tl : TimelineData) (t : ℝ)
    (hnd : (keys tl.objects).Nodup)
    (hwk : ∀ e ∈ tl.objects, e.2.id = e.1)
    (hall : ∀ e ∈ tl.objects, Rooted tl.objects e.1)
    (hK : ∀ b ∈ tl.actions, "id" ∉ writesKeys b.type ∧
      "parentId" ∉ writesKeys b.type) :
    List.Perm ((renderSceneAtTime tl t).map (·.id)) (keys tl.objects) := by
  have hId : ∀ b ∈ tl.actions, "id" ∉ writesKeys b.type :=
    fun b hb => (hK b hb).1
  have hpres : ∀ (i : String) (obj : VisualObject),
      mapGet tl.objects i = some obj →
      ∃ obj', mapGet (renderMap tl t) i = some obj' ∧
        obj'.id = obj.id ∧ obj'.parentId = obj.parentId :=
    fun i obj hm => renderMap_id_parent tl t i obj hId
      (fun b hb _ => (hK b hb).2) hm
  have hnd' : (keys (renderMap tl t)).Nodup := by
    rw [renderMap_keys]; exact hnd
  have hwk' := renderMap_wellKeyed tl t hnd hwk hId
  have hall' : ∀ e ∈ renderMap tl t, Rooted (renderMap tl t) e.1 := by
    intro e he
    have hkey : e.1 ∈ keys tl.objects := by
      rw [← renderMap_keys tl t]
      exact List.mem_map.mpr ⟨e, he, rfl⟩
    rw [mem_keys_iff_isSome] at hkey
    obtain ⟨o0, ho0⟩ := Option.isSome_iff_exists.mp hkey
    have hr0 : Rooted tl.objects e.1 :=
      hall (e.1, o0) (mem_of_mapGet_eq_some _ _ _ ho0)
    exact rooted_transfer tl.objects (renderMap tl t)
      (fun i obj hm => by
        obtain ⟨obj', h1, -, h3⟩ := hpres i obj hm
        exact ⟨obj', h1, h3⟩) e.1 hr0
  have hperm := resolveHierarchy_ids_perm (renderMap tl t) hnd' hwk' hall'
  rw [renderMap_keys] at hperm
  exact hperm

theorem claim_C9_witness :
    List.Perm ((renderSceneAtTime tlC7 0).map (·.id)) (keys tlC7.objects) := by
  refine claim_C9 tlC7 0 ?_ ?_ ?_ ?_
  · rw [show keys tlC7.objects = ["a"] from rfl]
    simp
  · intro e he
    have he' : e ∈ [("a", objW "a")] := he
    rw [List.mem_singleton.mp he']
    rfl
  · intro e he
    have he' : e ∈ [("a", objW "a")] := he
    rw [List.mem_singleton.mp he']
    exact Rooted.root "a" (objW "a") rfl rfl
  · intro b hb
    exact absurd (show b ∈ ([] : List Action) from hb) (List.not_mem_nil b)

theorem stC9_actions :
    (VideoContext.getTimeline stC9).actions = [createActC9, updActC9] := rfl

theorem stC9_objects :
    (VideoContext.getTimeline stC9).objects = [("obj0", objC9)] := rfl

theorem renderMapC9 : renderMap (VideoContext.getTimeline stC9) 0
    = [("obj0", setVal objC9 "parentId" (Val.str "ghost"))] := by
  have hact : activeActions (VideoContext.getTimeline stC9) 0
      = [createActC9, updActC9] := by
    unfold activeActions
    rw [stC9_actions, List.filter_eq_self]
    intro b hb
    simp only [decide_eq_true_eq]
    rcases List.mem_cons.mp hb with rfl | hb2
    · norm_num [createActC9]
    · rw [List.mem_singleton.mp hb2]
      norm_num [updActC9]
  have hsort : sortByStart [createActC9, updActC9]
      = [createActC9, updActC9] := by
    show insertByStart updActC9 (insertByStart createActC9 [])
      = [createActC9, updActC9]
    rw [show insertByStart createActC9 [] = [createActC9] from rfl]
    unfold insertByStart
    rw [if_neg (show ¬updActC9.startTime < createActC9.startTime from
      lt_irrefl (0 : ℝ))]
    rfl
  unfold renderMap
  rw [hact, hsort]
  rw [show List.foldl (fun m a => applyActionToMap m a 0)
    (VideoContext.getTimeline stC9).objects [createActC9, updActC9]
    = applyActionToMap (applyActionToMap [("obj0", objC9)] createActC9 0)
        updActC9 0 from rfl]
  rw [show applyActionToMap [("obj0", objC9)] createActC9 0
    = [("obj0", objC9)] from rfl]
  rw [show applyActionToMap [("obj0", objC9)] updActC9 0
    = [("obj0", setVal objC9 "parentId" (Val.str "ghost"))] from rfl]

theorem renderSceneC9 :
    renderSceneAtTime (VideoContext.getTimeline stC9) 0 = [] := by
  unfold renderSceneAtTime
  rw [renderMapC9]
  rfl

/-- Refuting the frozen C9: a builder-produced timeline whose initial
objects are all parentless (so every chain resolves to a root), yet
whose render at time 0 is empty — the UPDATE action re-pointed the
circle's `parentId` at the dangling id `"ghost"`, so the resolver never
visits it and the object vanishes instead of appearing once. -/
theorem claim_C9_cx :
    renderSceneAtTime (VideoContext.getTimeline stC9) 0 = [] ∧
    keys (VideoContext.getTimeline stC9).objects = ["obj0"] ∧
    ∀ e ∈ (VideoContext.getTimeline stC9).objects, e.2.parentId = none := by
  refine ⟨renderSceneC9, rfl, ?_⟩
  intro e he
  have he' : e ∈ [("obj0", objC9)] := by
    rw [← stC9_objects]
    exact he
  rw [List.mem_singleton.mp he']
  rfl

theorem mapSet_of_none {α : Type} (m : List (String × α)) (k : String)
    (v : α) (h : mapGet m k = none) : mapSet m k v = m ++ [(k, v)] := by
  unfold mapSet
  rw [if_neg (by rw [find?_key_isSome_iff, h]; simp)]

set_option maxHeartbeats 2000000 in
/-- C5.  Group/ungroup round trip: for a builder holding exactly two
parentless objects (arbitrary contents), grouping them and immediately
ungrouping the fresh group restores both stored positions exactly (the
centroid subtracted by `group` is added back by `ungroup`, which also
clears the parent references) — over the reals the round trip is exact,
hence in particular within floating-point tolerance. -/
theorem claim_C5 (ct : ℝ) (ac : List Action) (ox0 oy0 : VisualObject) :
    ∃ wx wy,
      mapGet (roundTripC5 ct ac ox0 oy0).initialObjects "a" = some wx ∧
      mapGet (roundTripC5 ct ac ox0 oy0).initialObjects "b" = some wy ∧
      wx.x = ox0.x ∧ wx.y = ox0.y ∧ wx.z = ox0.z ∧ wx.parentId = none ∧
      wy.x = oy0.x ∧ wy.y = oy0.y ∧ wy.z = oy0.z ∧ wy.parentId = none := by
  refine ⟨{ ox0 with
              id := "a"
              parentId := none
              x := ox0.x - (0 + ox0.x + oy0.x) / ((2 : ℕ) : ℝ)
                + (0 + ox0.x + oy0.x) / ((2 : ℕ) : ℝ)
              y := ox0.y - (0 + ox0.y + oy0.y) / ((2 : ℕ) : ℝ)
                + (0 + ox0.y + oy0.y) / ((2 : ℕ) : ℝ)
              z := ox0.z - (0 + ox0.z + oy0.z) / ((2 : ℕ) : ℝ)
                + (0 + ox0.z + oy0.z) / ((2 : ℕ) : ℝ) },
    { oy0 with
        id := "b"
        parentId := none
        x := oy0.x - (0 + ox0.x + oy0.x) / ((2 : ℕ) : ℝ)
          + (0 + ox0.x + oy0.x) / ((2 : ℕ) : ℝ)
        y := oy0.y - (0 + ox0.y + oy0.y) / ((2 : ℕ) : ℝ)
          + (0 + ox0.y + oy0.y) / ((2 : ℕ) : ℝ)
        z := oy0.z - (0 + ox0.z + oy0.z) / ((2 : ℕ) : ℝ)
          + (0 + ox0.z + oy0.z) / ((2 : ℕ) : ℝ) },
    rfl, rfl, ?_, ?_, ?_, rfl, ?_, ?_, ?_, rfl⟩
  · show ox0.x - (0 + ox0.x + oy0.x) / ((2 : ℕ) : ℝ)
      + (0 + ox0.x + oy0.x) / ((2 : ℕ) : ℝ) = ox0.x
    ring
  · show ox0.y - (0 + ox0.y + oy0.y) / ((2 : ℕ) : ℝ)
      + (0 + ox0.y + oy0.y) / ((2 : ℕ) : ℝ) = ox0.y
    ring
  · show ox0.z - (0 + ox0.z + oy0.z) / ((2 : ℕ) : ℝ)
      + (0 + ox0.z + oy0.z) / ((2 : ℕ) : ℝ) = ox0.z
    ring
  · show oy0.x - (0 + ox0.x + oy0.x) / ((2 : ℕ) : ℝ)
      + (0 + ox0.x + oy0.x) / ((2 : ℕ) : ℝ) = oy0.x
    ring
  · show oy0.y - (0 + ox0.y + oy0.y) / ((2 : ℕ) : ℝ)
      + (0 + ox0.y + oy0.y) / ((2 : ℕ) : ℝ) = oy0.y
    ring
  · show oy0.z - (0 + ox0.z + oy0.z) / ((2 : ℕ) : ℝ)
      + (0 + ox0.z + oy0.z) / ((2 : ℕ) : ℝ) = oy0.z
    ring

end SAngle
